import Mathlib

/-!
# six-library: compression adapters, segmentation, windowed writes, wideband addressing

A shallow embedding of the parts of the repository that its specification
makes claims about, followed by the theorems that settle those claims.

Conventions of the embedding:

* a C++ operation that may throw returns `Option Thrown` (or `Except Thrown _`)
  next to the world it leaves behind: the world changes made before a throw
  persist;
* pointers are `Option` values (`none` is `NULL`), memory is a function from
  addresses to contents;
* byte and row counts are natural numbers.
-/

namespace nitf

/-! ## `CompressionInterface.cpp` -/

/-- A thrown C++ value, split the way the adapters' three `catch` clauses
split it: an `except::Exception` (caught first), any other `std::exception`,
and everything else (caught by `catch (...)`). -/
inductive Thrown where
  | exceptException (getMessage : String)
  | stdException (what : String)
  | other (value : Nat)
  deriving DecidableEq, Repr

/-- The C type `NITF_BOOL` is an `int`. -/
abbrev NITF_BOOL := Int

/-- The value of the macro `NRT_SUCCESS` of the NRT C layer. -/
def NRT_SUCCESS : NITF_BOOL := 1

/-- The value of the macro `NRT_FAILURE` of the NRT C layer. -/
def NRT_FAILURE : NITF_BOOL := 0

/-- The C record `nitf_Error`: message, context (file, line, function) and
error level. -/
structure nitf_Error where
  message : String
  file : String
  line : Int
  func : String
  level : Int
  deriving DecidableEq, Repr

/-- The parts of the NRT/NITF C and C++ layers the adapters call and that live
outside `CompressionInterface.cpp`; they are parameters of the embedding.

* `nrt_Error_init error message file line func level` is the C function of that
  name (it fills the record `error` points to);
* `NRT_ERR_COMPRESSION` is the enumeration constant of that name;
* `NRT_FILE` is what `__FILE__` expands to in this translation unit;
* `wrapStream h` is `nitf::IOInterface ioInter(h); ioInter.setManaged(true);`:
  it yields the C++ stream object, or throws. -/
structure Externals (H S : Type) where
  nrt_Error_init : nitf_Error → String → String → Int → String → Int → nitf_Error
  NRT_ERR_COMPRESSION : Int
  NRT_FILE : String
  wrapStream : H → Except Thrown S

/-- The abstract class `nitf::Compressor`: the three virtual operations the
adapters dispatch to. `W` is the state of the world the codec acts on (its own
fields, the mask arrays, the output stream); each operation returns what it
threw, if anything, and the world it left. -/
structure Compressor (S W : Type) where
  start : Nat → Nat → Option Nat → Option Nat → W → Option Thrown × W
  writeBlock : S → List Nat → NITF_BOOL → NITF_BOOL → W → Option Thrown × W
  end_ : S → W → Option Thrown × W

/-- What an adapter hands back: its return value, the error record behind the
`error` pointer, and the world. -/
structure AdapterResult (W : Type) where
  status : NITF_BOOL
  error : nitf_Error
  world : W

/-- The three `catch` clauses shared by the adapters, with `line` the line of
the `NRT_CTXT` token in each clause and `func` the enclosing function. -/
def translate {H S : Type} (x : Externals H S) (error : nitf_Error)
    (lineExcept lineStd lineOther : Int) (func : String) : Thrown → nitf_Error
  | .exceptException msg =>
      x.nrt_Error_init error msg x.NRT_FILE lineExcept func x.NRT_ERR_COMPRESSION
  | .stdException what =>
      x.nrt_Error_init error what x.NRT_FILE lineStd func x.NRT_ERR_COMPRESSION
  | .other _ =>
      x.nrt_Error_init error "Unknown error" x.NRT_FILE lineOther func x.NRT_ERR_COMPRESSION

/-- The text the adapters pass to `nrt_Error_init` for a thrown value:
`getMessage()`, `what()`, or the fixed text. -/
def Thrown.text : Thrown → String
  | .exceptException msg => msg
  | .stdException what => what
  | .other _ => "Unknown error"

/-- The function `CompressionInterface::adapterStart`. -/
def adapterStart {H S W : Type} (x : Externals H S) (object : Compressor S W)
    (offset dataLength : Nat) (blockMask padMask : Option Nat)
    (error : nitf_Error) (w : W) : AdapterResult W :=
  match object.start offset dataLength blockMask padMask w with
  | (none, w1) => { status := NRT_SUCCESS, error := error, world := w1 }
  | (some t, w1) =>
      { status := NRT_FAILURE,
        error := translate x error 45 51 57 "adapterStart" t,
        world := w1 }

/-- The function `CompressionInterface::adapterWriteBlock`. -/
def adapterWriteBlock {H S W : Type} (x : Externals H S) (object : Compressor S W)
    (io : H) (data : List Nat) (pad noData : NITF_BOOL)
    (error : nitf_Error) (w : W) : AdapterResult W :=
  match x.wrapStream io with
  | .error t =>
      { status := NRT_FAILURE,
        error := translate x error 83 89 95 "adapterWriteBlock" t,
        world := w }
  | .ok ioInter =>
      match object.writeBlock ioInter data pad noData w with
      | (none, w1) => { status := NRT_SUCCESS, error := error, world := w1 }
      | (some t, w1) =>
          { status := NRT_FAILURE,
            error := translate x error 83 89 95 "adapterWriteBlock" t,
            world := w1 }

/-- The function `CompressionInterface::adapterEnd`. -/
def adapterEnd {H S W : Type} (x : Externals H S) (object : Compressor S W)
    (io : H) (error : nitf_Error) (w : W) : AdapterResult W :=
  match x.wrapStream io with
  | .error t =>
      { status := NRT_FAILURE,
        error := translate x error 115 121 127 "adapterEnd" t,
        world := w }
  | .ok ioInter =>
      match object.end_ ioInter w with
      | (none, w1) => { status := NRT_SUCCESS, error := error, world := w1 }
      | (some t, w1) =>
          { status := NRT_FAILURE,
            error := translate x error 115 121 127 "adapterEnd" t,
            world := w1 }

/-- The memory `adapterDestroy` acts on: the handle variables
(`nitf_CompressionControl*`, by address; `none` is `NULL`) and the compressors
on which `delete` has run, oldest first. -/
structure Heap where
  slots : Nat → Option Nat
  deleted : List Nat

/-- The function `CompressionInterface::adapterDestroy`; `object` is the
`nitf_CompressionControl**` argument. -/
def adapterDestroy (object : Option Nat) (m : Heap) : Heap :=
  match object with
  | none => m
  | some p =>
      match m.slots p with
      | none => m
      | some c =>
          { slots := fun q => if q = p then none else m.slots q,
            deleted := m.deleted ++ [c] }

/-! ### Concrete collaborators used to evaluate the adapters -/

/-- An `nrt_Error_init` that stores its arguments as they are. -/
def storeError (_ : nitf_Error) (message file : String) (line : Int)
    (func : String) (level : Int) : nitf_Error :=
  { message := message, file := file, line := line, func := func, level := level }

/-- Collaborators whose stream wrapper never throws. -/
def plainExternals : Externals Nat Nat :=
  { nrt_Error_init := storeError,
    NRT_ERR_COMPRESSION := 15,
    NRT_FILE := "CompressionInterface.cpp",
    wrapStream := fun h => .ok h }

/-- An error record with nothing in it. -/
def noError : nitf_Error :=
  { message := "", file := "", line := 0, func := "", level := 0 }

/-- A codec that accepts every call in every state and records the calls it
received. -/
def recordingCompressor : Compressor Nat (List String) :=
  { start := fun _ _ _ _ w => (none, w ++ ["start"]),
    writeBlock := fun _ _ _ _ w => (none, w ++ ["writeBlock"]),
    end_ := fun _ w => (none, w ++ ["end"]) }

/-- A codec whose every operation throws the given value. -/
def failingCompressor (t : Thrown) : Compressor Nat (List String) :=
  { start := fun _ _ _ _ w => (some t, w),
    writeBlock := fun _ _ _ _ w => (some t, w),
    end_ := fun _ w => (some t, w) }

/-- A heap with one live handle at address 0, holding compressor 7. -/
def oneLiveHandle : Heap :=
  { slots := fun q => if q = 0 then some 7 else none, deleted := [] }

end nitf

namespace six

/-! ## Segmentation planner (specification section 4.1) -/

/-- A segment of the plan: the row range `[startRow, endRow)`, where its bytes
start in the file, how many bytes it holds, and its 0-based index. -/
structure Segment where
  startRow : Nat
  endRow : Nat
  fileOffset : Nat
  byteSize : Nat
  index : Nat
  deriving DecidableEq, Repr

/-- The two ways planning can fail. -/
inductive PlanError where
  | CapacityExceeded
  | InvalidDimension
  deriving DecidableEq, Repr

/-- Modelled from the spec: the planner's failure conditions that hold on an
input, in the order the planner checks them (the planner is not among the
sources). `InvalidDimension` when `totalRows`, `totalCols` or `bytesPerRow` is
zero or a ceiling is zero or negative; `CapacityExceeded` when one row is
wider than `maxBytesPerSegment`. The dimensions and ceilings are validated
first: the sentence on `InvalidDimension` names a zero or negative
`maxBytesPerSegment`, a ceiling that no row of positive width fits, so with the
capacity check first that clause could never decide a result. -/
def planErrors (totalRows totalCols bytesPerRow : Nat)
    (maxBytesPerSegment maxRowsPerSegment : Int) : List PlanError :=
  (if totalRows = 0 ∨ totalCols = 0 ∨ bytesPerRow = 0
          ∨ maxBytesPerSegment ≤ 0 ∨ maxRowsPerSegment ≤ 0
      then [PlanError.InvalidDimension] else [])
  ++ (if maxBytesPerSegment < (bytesPerRow : Int) then [PlanError.CapacityExceeded] else [])

/-- Modelled from the spec: the greatest whole-row count `r` with
`r ≤ maxRowsPerSegment` and `r * bytesPerRow ≤ maxBytesPerSegment`. -/
def rowsPerSegment (bytesPerRow : Nat) (maxBytesPerSegment maxRowsPerSegment : Int) : Nat :=
  min maxRowsPerSegment.toNat (maxBytesPerSegment.toNat / bytesPerRow)

/-- Modelled from the spec: the greedy loop of the planner. Each segment starts
where the previous one ended and takes `r` rows, the last one the remainder.
The specification does not say where a segment's bytes start; the model lays
the segments out back to back. `fuel` bounds the number of segments. -/
def planFrom (totalRows bytesPerRow r : Nat) : Nat → Nat → Nat → Nat → List Segment
  | 0, _, _, _ => []
  | fuel + 1, start, index, offset =>
      if start < totalRows then
        let n := min r (totalRows - start)
        { startRow := start, endRow := start + n, fileOffset := offset,
          byteSize := n * bytesPerRow, index := index }
          :: planFrom totalRows bytesPerRow r fuel (start + n) (index + 1)
                (offset + n * bytesPerRow)
      else []

/-- Modelled from the spec: `plan(totalRows, totalCols, bytesPerRow,
maxBytesPerSegment, maxRowsPerSegment)`, a pure function of its inputs. A
failure surfaces one error, the first condition the planner finds. The first
segment starts at row 0 and file offset 0; one unit of fuel per row is
enough, since every segment takes at least one row. -/
def plan (totalRows totalCols bytesPerRow : Nat)
    (maxBytesPerSegment maxRowsPerSegment : Int) : Except PlanError (List Segment) :=
  match planErrors totalRows totalCols bytesPerRow maxBytesPerSegment maxRowsPerSegment with
  | [] =>
      .ok (planFrom totalRows bytesPerRow
            (rowsPerSegment bytesPerRow maxBytesPerSegment maxRowsPerSegment)
            totalRows 0 0 0)
  | e :: _ => .error e

/-- The row ranges of `segs` tile `[a, b)`: the first starts at `a`, each starts
where the previous one ends, the last ends at `b`, and none is empty. -/
def Tiles : Nat → Nat → List Segment → Prop
  | a, b, [] => a = b
  | a, b, s :: rest => s.startRow = a ∧ s.startRow < s.endRow ∧ Tiles s.endRow b rest

/-- The row ranges of a plan, as pairs. -/
def rowRanges (segs : List Segment) : List (Nat × Nat) :=
  segs.map (fun s => (s.startRow, s.endRow))

/-! ## Region window reconciler (specification sections 4.2 and 4.3) -/

/-- The declared extent of the image: rows, columns, and bytes per element. -/
structure ImageGeom where
  totalRows : Nat
  totalCols : Nat
  elementSize : Nat
  deriving DecidableEq, Repr

/-- Bytes in one full row of the image. -/
def ImageGeom.rowBytes (g : ImageGeom) : Nat := g.totalCols * g.elementSize

/-- A requested rectangle: offset (row, column) and extent (rows, columns). -/
structure Window where
  startRow : Nat
  startCol : Nat
  numRows : Nat
  numCols : Nat
  deriving DecidableEq, Repr

/-- The cell `(r, c)` lies in the window. -/
def Window.contains (W : Window) (r c : Nat) : Prop :=
  W.startRow ≤ r ∧ r < W.startRow + W.numRows ∧ W.startCol ≤ c ∧ c < W.startCol + W.numCols

instance (W : Window) (r c : Nat) : Decidable (W.contains r c) := by
  unfold Window.contains
  exact inferInstance

/-- The window lies inside `[0,totalRows) x [0,totalCols)`. -/
def Window.inBounds (W : Window) (g : ImageGeom) : Prop :=
  W.startRow + W.numRows ≤ g.totalRows ∧ W.startCol + W.numCols ≤ g.totalCols

instance (W : Window) (g : ImageGeom) : Decidable (W.inBounds g) := by
  unfold Window.inBounds
  exact inferInstance

/-- Two windows share no cell. -/
def Window.disjoint (A B : Window) : Prop :=
  ∀ r c, ¬ (A.contains r c ∧ B.contains r c)

/-- The window that is the whole image. -/
def fullWindow (g : ImageGeom) : Window :=
  { startRow := 0, startCol := 0, numRows := g.totalRows, numCols := g.totalCols }

/-- The cells of a window, row by row. -/
def cellsOf (W : Window) : List (Nat × Nat) :=
  (List.range' W.startRow W.numRows).flatMap
    (fun r => (List.range' W.startCol W.numCols).map (fun c => (r, c)))

/-- The failures of the windowed read and write paths. -/
inductive WindowError where
  | OutOfRange
  | DuplicateWriteError
  | IncompleteWriteError
  deriving DecidableEq, Repr

/-- One positioned transfer: `len` bytes of `src`, from `srcOff` on, go to
`dst` and the addresses after it. -/
structure Copy (β : Type) where
  dst : Nat
  len : Nat
  src : Nat → β
  srcOff : Nat

/-- The transfer reaches address `a`. -/
def Copy.covers {β : Type} (c : Copy β) (a : Nat) : Prop :=
  c.dst ≤ a ∧ a < c.dst + c.len

instance {β : Type} (c : Copy β) (a : Nat) : Decidable (c.covers a) := by
  unfold Copy.covers
  exact inferInstance

/-- Memory after one transfer. -/
def Copy.apply {β : Type} (c : Copy β) (mem : Nat → β) : Nat → β :=
  fun a => if c.covers a then c.src (c.srcOff + (a - c.dst)) else mem a

/-- Memory after a sequence of transfers, performed in order. -/
def applyCopies {β : Type} (cs : List (Copy β)) (mem : Nat → β) : Nat → β :=
  cs.foldl (fun m c => c.apply m) mem

/-- Modelled from the spec: the ordered list of (segment, row) pairs covering
the rows of a window: for each segment of the plan, in order, the rows of its
intersection with the window's row range (read and write paths share this
boundary logic; neither is among the sources). -/
def subRows (segs : List Segment) (W : Window) : List (Segment × Nat) :=
  segs.flatMap (fun seg =>
    (List.range' (max seg.startRow W.startRow)
      (min seg.endRow (W.startRow + W.numRows) - max seg.startRow W.startRow)).map
      (fun row => (seg, row)))

/-- Modelled from the spec: the file offset of a sub-operation,
`segment.fileOffset + localRow * rowBytes + window.startCol * elementSize`,
with `localRow` the row counted from the segment's first row. -/
def subOffset (g : ImageGeom) (W : Window) (sr : Segment × Nat) : Nat :=
  sr.1.fileOffset + (sr.2 - sr.1.startRow) * g.rowBytes + W.startCol * g.elementSize

/-- Where the bytes of window row `row` start in the caller's buffer, which
holds the window row-major. -/
def bufferOffset (g : ImageGeom) (W : Window) (row : Nat) : Nat :=
  (row - W.startRow) * (W.numCols * g.elementSize)

/-- The bookkeeping of one write session (`PendingWriteState`) with the file
it writes: which cells have been written so far. -/
structure WriteSession (β : Type) where
  file : Nat → β
  written : Nat → Nat → Bool

/-- A fresh write session on a file: nothing written yet. -/
def openSession {β : Type} (file : Nat → β) : WriteSession β :=
  { file := file, written := fun _ _ => false }

/-- Modelled from the spec: `writeWindow(plan, window, data)` (the write
control is not among the sources). It validates the window, performs one
positioned write per (segment, row) pair at `subOffset`, and marks the
window's cells as written. The validation turns down a window that holds an
already written cell with `DuplicateWriteError`, which section 4.3 and
property 3 of section 8 state without condition, and a window that leaves the
image with `OutOfRange`, as on the read path (the specification names no error
for the bounds validation of a write); so a window that holds a written cell
fails with `DuplicateWriteError` also when it leaves the image. A call that
fails leaves the session as it was. -/
def writeWindow {β : Type} (segs : List Segment) (g : ImageGeom) (W : Window)
    (data : Nat → β) (s : WriteSession β) : Except WindowError (WriteSession β) :=
  if (cellsOf W).any (fun rc => s.written rc.1 rc.2) then .error .DuplicateWriteError
  else if ¬ W.inBounds g then .error .OutOfRange
  else .ok
    { file := applyCopies
        ((subRows segs W).map (fun sr =>
          { dst := subOffset g W sr, len := W.numCols * g.elementSize,
            src := data, srcOff := bufferOffset g W sr.2 }))
        s.file,
      written := fun r c => s.written r c || decide (W.contains r c) }

/-- Modelled from the spec: `finalize()`. It fails with `IncompleteWriteError`
if a cell of the declared extent was never written; otherwise it succeeds and
the session is over: what remains is the file. -/
def finalize {β : Type} (g : ImageGeom) (s : WriteSession β) :
    Except WindowError (Nat → β) :=
  if (cellsOf (fullWindow g)).all (fun rc => s.written rc.1 rc.2) then .ok s.file
  else .error .IncompleteWriteError

/-- Modelled from the spec: `readWindow(plan, window, source)`. It validates
bounds, performs one positioned read per (segment, row) pair of the requested
column range, and places the bytes at the matching row of the destination
buffer, which it returns. -/
def readWindow {β : Type} [Inhabited β] (segs : List Segment) (g : ImageGeom) (W : Window)
    (source : Nat → β) : Except WindowError (List β) :=
  if ¬ W.inBounds g then .error .OutOfRange
  else .ok
    ((List.range (W.numRows * (W.numCols * g.elementSize))).map
      (applyCopies
        ((subRows segs W).map (fun sr =>
          { dst := bufferOffset g W sr.2, len := W.numCols * g.elementSize,
            src := source, srcOff := subOffset g W sr }))
        (fun _ => default)))

/-- A write session's calls, one after the other; the first failure ends it. -/
def writeAll {β : Type} (segs : List Segment) (g : ImageGeom) :
    List (Window × (Nat → β)) → WriteSession β → Except WindowError (WriteSession β)
  | [], s => .ok s
  | (W, data) :: rest, s =>
      match writeWindow segs g W data s with
      | .ok s1 => writeAll segs g rest s1
      | .error e => .error e

/-- The bytes of a window of the image `img` (row-major bytes of the whole
image), laid out row-major: what the test's `subsetData`, or its pointer into
the image for a full-width window, hands to the writer. -/
def windowData {β : Type} (g : ImageGeom) (img : Nat → β) (W : Window) : Nat → β :=
  fun i => img ((W.startRow + i / (W.numCols * g.elementSize)) * g.rowBytes
                  + W.startCol * g.elementSize + i % (W.numCols * g.elementSize))

/-- The bytes of the whole image, in order. -/
def imageBytes {β : Type} (g : ImageGeom) (img : Nat → β) : List β :=
  (List.range (g.totalRows * g.rowBytes)).map img

/-- A whole write session followed by a read of the whole image: open on
`file0`, write the windows of `ws` in the order given, each with its part of
the image, finalize, read everything back. -/
def writeThenRead {β : Type} [Inhabited β] (segs : List Segment) (g : ImageGeom)
    (img : Nat → β) (file0 : Nat → β) (ws : List Window) : Except WindowError (List β) :=
  match writeAll segs g (ws.map (fun W => (W, windowData g img W))) (openSession file0) with
  | .error e => .error e
  | .ok s =>
      match finalize g s with
      | .error e => .error e
      | .ok file => readWindow segs g (fullWindow g) file

/-- A plan fits the image when its row ranges tile `[0, totalRows)` and the
file regions of its segments, each `rows * rowBytes` bytes long, follow one
another without overlap. -/
def ValidLayout (g : ImageGeom) (segs : List Segment) : Prop :=
  Tiles 0 g.totalRows segs
  ∧ segs.Pairwise (fun s t => s.fileOffset + (s.endRow - s.startRow) * g.rowBytes ≤ t.fileOffset)

/-- Byte `k` of row `r` of the image is in the file where the plan puts it. -/
def Stored {β : Type} (segs : List Segment) (g : ImageGeom) (img file : Nat → β)
    (r k : Nat) : Prop :=
  ∀ seg ∈ segs, seg.startRow ≤ r → r < seg.endRow →
    file (seg.fileOffset + (r - seg.startRow) * g.rowBytes + k) = img (r * g.rowBytes + k)

/-- The state a write session is in after writing, from the image `img`, the
cells that satisfy `P`: exactly those cells are marked, they lie in the image,
and their bytes are in the file where the plan puts them. -/
def SessionInv {β : Type} (segs : List Segment) (g : ImageGeom) (img : Nat → β)
    (s : WriteSession β) (P : Nat → Nat → Prop) : Prop :=
  (∀ r c, s.written r c = true ↔ P r c)
  ∧ (∀ r c, P r c → r < g.totalRows ∧ c < g.totalCols
      ∧ ∀ b, b < g.elementSize → Stored segs g img s.file r (c * g.elementSize + b))

/-- The plan of the test image under a 50-row ceiling: three segments laid
out back to back. -/
def testPlan : List Segment :=
  [⟨0, 50, 0, 182400, 0⟩, ⟨50, 100, 182400, 182400, 1⟩, ⟨100, 123, 364800, 83904, 2⟩]

/-- Two windows are separated along the rows or along the columns. -/
def Window.separated (A B : Window) : Prop :=
  A.startRow + A.numRows ≤ B.startRow ∨ B.startRow + B.numRows ≤ A.startRow
  ∨ A.startCol + A.numCols ≤ B.startCol ∨ B.startCol + B.numCols ≤ A.startCol

instance (A B : Window) : Decidable (A.separated B) := by
  unfold Window.separated
  exact inferInstance

/-- A 4 x 2 image of one-byte elements. -/
def tinyGeom : ImageGeom := { totalRows := 4, totalCols := 2, elementSize := 1 }

/-- The plan of the 4 x 2 image in one segment. -/
def tinyPlan : List Segment := [⟨0, 4, 0, 8, 0⟩]

/-- The six full-width row ranges of the test, in the order it writes them. -/
def rowRangeWindows : List Window :=
  [⟨40, 0, 20, 456⟩, ⟨5, 0, 20, 456⟩, ⟨0, 0, 5, 456⟩, ⟨100, 0, 23, 456⟩,
   ⟨25, 0, 15, 456⟩, ⟨60, 0, 40, 456⟩]

/-- The five windows of the test with a partial column range, in the order it
writes them. -/
def partialColumnWindows : List Window :=
  [⟨40, 400, 20, 56⟩, ⟨60, 0, 63, 456⟩, ⟨40, 150, 20, 250⟩, ⟨0, 0, 40, 456⟩,
   ⟨40, 0, 20, 150⟩]

/-- The test image: 123 x 456 elements of 8 bytes (`RE32F_IM32F`). -/
def testGeom : ImageGeom := { totalRows := 123, totalCols := 456, elementSize := 8 }

end six

namespace cphd

/-! ## Wideband addressing (`CPHDReader.h`, specification section 4.5) -/

/-- The signal formats `compareWideband` distinguishes. -/
inductive SampleType where
  | RE08I_IM08I
  | RE16I_IM16I
  | RE32F_IM32F
  deriving DecidableEq, Repr

/-- The function `cphd::getNumBytesPerSample`, which `CPHDReader.h` documents
as the total bytes per complex sample: 2, 4 or 8. -/
def getNumBytesPerSample : SampleType → Nat
  | .RE08I_IM08I => 2
  | .RE16I_IM16I => 4
  | .RE32F_IM32F => 8

/-- The declared extent of one channel: its vector by sample grid. -/
structure ChannelExtent where
  numVectors : Nat
  numSamples : Nat
  deriving DecidableEq, Repr

/-- The `data` block of the metadata, as far as addressing and comparison use
it: the signal format, the channels, and the total size of the support
arrays. -/
structure Data where
  signalFormat : SampleType
  channels : List ChannelExtent
  supportSize : Nat := 0
  deriving DecidableEq, Repr

/-- The function `Data::getSignalFormat`. -/
def Data.getSignalFormat (d : Data) : SampleType := d.signalFormat

/-- The function `Data::getAllSupportSize`. -/
def Data.getAllSupportSize (d : Data) : Nat := d.supportSize

/-- The function `Data::getNumChannels`. -/
def Data.getNumChannels (d : Data) : Nat := d.channels.length

/-- The vectors of a channel; 0 for a channel that is not declared. -/
def Data.getNumVectors (d : Data) (channel : Nat) : Nat :=
  match d.channels[channel]? with
  | some ch => ch.numVectors
  | none => 0

/-- The samples per vector of a channel; 0 for a channel that is not declared. -/
def Data.getNumSamples (d : Data) (channel : Nat) : Nat :=
  match d.channels[channel]? with
  | some ch => ch.numSamples
  | none => 0

/-- The enumeration `cphd::DomainType`, whose values `CPHDReader.h` lists as
FX, TOA and NOT_SET. -/
inductive DomainType where
  | FX
  | TOA
  | NOT_SET
  deriving DecidableEq, Repr

/-- The conversion of a `cphd::DomainType` to `std::string`, which
`CPHDReader.h` documents as giving "FX", "TOA" or "NOT_SET". -/
def DomainType.toString : DomainType → String
  | .FX => "FX"
  | .TOA => "TOA"
  | .NOT_SET => "NOT_SET"

/-- The `global` block of the metadata, as far as the reader's queries use
it. -/
structure Global where
  domainType : DomainType
  deriving DecidableEq, Repr

/-- The function `Global::getDomainType`. -/
def Global.getDomainType (g : Global) : DomainType := g.domainType

/-- The metadata a reader holds, as far as the reader's queries use it. -/
structure Metadata where
  data : Data
  global : Global := { domainType := .NOT_SET }
  deriving DecidableEq, Repr

/-- The wideband block's book-keeping: the data block it was built from. -/
structure Wideband where
  mData : Data
  deriving DecidableEq, Repr

/-- Bytes per complex sample of the wideband block. -/
def Wideband.bytesPerSample (w : Wideband) : Nat := getNumBytesPerSample w.mData.signalFormat

/-- The byte size of a channel, `numVectors * numSamples * bytesPerSample`. -/
def Wideband.channelBytes (w : Wideband) (channel : Nat) : Nat :=
  w.mData.getNumVectors channel * w.mData.getNumSamples channel * w.bytesPerSample

/-- Modelled from the spec: `channelBase` accumulates the byte sizes of all
preceding channels (`Wideband` is not among the sources). -/
def Wideband.channelBase (w : Wideband) (channel : Nat) : Nat :=
  (w.mData.channels.take channel).foldl
    (fun acc ch => acc + ch.numVectors * ch.numSamples * w.bytesPerSample) 0

/-- The failure of the addressing operations. -/
inductive AddressError where
  | OutOfRange
  deriving DecidableEq, Repr

/-- Modelled from the spec: `Wideband::getFileOffset`, the `fileOffset` of
section 4.5: `channelBase(channel) + vector * numSamples(channel) *
bytesPerSample + sample * bytesPerSample`, failing with `OutOfRange` when the
channel, the vector or the sample lies outside the declared extents. -/
def Wideband.getFileOffset (w : Wideband) (channel vector sample : Nat) :
    Except AddressError Nat :=
  match w.mData.channels[channel]? with
  | none => .error .OutOfRange
  | some ch =>
      if ch.numVectors ≤ vector ∨ ch.numSamples ≤ sample then .error .OutOfRange
      else .ok (w.channelBase channel + vector * ch.numSamples * w.bytesPerSample
                  + sample * w.bytesPerSample)

/-- The class `CPHDReader`, as far as addressing uses it. -/
structure CPHDReader where
  mMetadata : Metadata
  mWideband : Wideband
  deriving DecidableEq, Repr

/-- The function `CPHDReader::getNumChannels`. -/
def CPHDReader.getNumChannels (r : CPHDReader) : Nat := r.mMetadata.data.getNumChannels

/-- The function `CPHDReader::getNumVectors`. -/
def CPHDReader.getNumVectors (r : CPHDReader) (channel : Nat) : Nat :=
  r.mMetadata.data.getNumVectors channel

/-- The function `CPHDReader::getNumSamples`. -/
def CPHDReader.getNumSamples (r : CPHDReader) (channel : Nat) : Nat :=
  r.mMetadata.data.getNumSamples channel

/-- The function `CPHDReader::getNumBytesPerSample`. -/
def CPHDReader.getNumBytesPerSample (r : CPHDReader) : Nat :=
  cphd.getNumBytesPerSample r.mMetadata.data.signalFormat

/-- The function `CPHDReader::getFileOffset`: it hands the call to the wideband block. -/
def CPHDReader.getFileOffset (r : CPHDReader) (channel vector sample : Nat) :
    Except AddressError Nat :=
  r.mWideband.getFileOffset channel vector sample

/-- The function `CPHDReader::getDomainType`. -/
def CPHDReader.getDomainType (r : CPHDReader) : DomainType :=
  r.mMetadata.global.getDomainType

/-- The function `CPHDReader::isFX`. -/
def CPHDReader.isFX (r : CPHDReader) : Bool :=
  decide (r.getDomainType = DomainType.FX)

/-- The function `CPHDReader::isTOA`. -/
def CPHDReader.isTOA (r : CPHDReader) : Bool :=
  decide (r.getDomainType = DomainType.TOA)

/-- The function `CPHDReader::getDomainTypeString`. -/
def CPHDReader.getDomainTypeString (r : CPHDReader) : String :=
  r.getDomainType.toString

/-- The function `CPHDReader::getMetadata`. -/
def CPHDReader.getMetadata (r : CPHDReader) : Metadata := r.mMetadata

/-- A reader over one channel whose metadata holds the given domain type. -/
def domainReader (domainType : DomainType) : CPHDReader :=
  { mMetadata := { data := { signalFormat := .RE08I_IM08I, channels := [⟨2, 2⟩] },
                   global := { domainType := domainType } },
    mWideband := { mData := { signalFormat := .RE08I_IM08I, channels := [⟨2, 2⟩] } } }

/-- The address `(c1, v1, s1)` comes before `(c2, v2, s2)` in lexicographic
order. -/
def lexBefore (c1 v1 s1 c2 v2 s2 : Nat) : Prop :=
  c1 < c2 ∨ (c1 = c2 ∧ (v1 < v2 ∨ (v1 = v2 ∧ s1 < s2)))

/-- Modelled from the spec: the sub-ranges of a partition, built one after the
other: `remaining` sub-ranges are still to come, the next one has index
`index` and starts at `start`; each has `q` vectors, and one more while its
index is below `extra`. A sub-range is (first vector, number of vectors). -/
def partitionFrom (q extra : Nat) : Nat → Nat → Nat → List (Nat × Nat)
  | 0, _, _ => []
  | remaining + 1, index, start =>
      (start, q + (if index < extra then 1 else 0))
        :: partitionFrom q extra remaining (index + 1)
            (start + (q + (if index < extra then 1 else 0)))

/-- Modelled from the spec: the thread partition of a range of `n` vectors: up
to `numThreads` contiguous, disjoint, near-equal sub-ranges, the remainder
going to the first ones, never more sub-ranges than vectors. -/
def partitionVectors (n numThreads : Nat) : List (Nat × Nat) :=
  partitionFrom (n / min numThreads n) (n % min numThreads n) (min numThreads n) 0 0

/-- The resolved request of a read: the channel's extent, the first vector and
sample, and how many of each. -/
structure ReadRequest where
  channel : Nat
  extent : ChannelExtent
  startVector : Nat
  vectorCount : Nat
  startSample : Nat
  sampleCount : Nat
  deriving DecidableEq, Repr

/-- Bytes one vector of the request takes in the output buffer. -/
def ReadRequest.vectorBytes (w : Wideband) (q : ReadRequest) : Nat :=
  q.sampleCount * w.bytesPerSample

/-- Modelled from the spec: the positioned read of one sub-range: its vectors
come in one after the other, each from its precomputed file offset to its
precomputed place in the output buffer. -/
def partitionCopies {β : Type} (w : Wideband) (file : Nat → β) (q : ReadRequest)
    (part : Nat × Nat) : List (six.Copy β) :=
  (List.range' part.1 part.2).map (fun v =>
    { dst := v * q.vectorBytes w, len := q.vectorBytes w, src := file,
      srcOff := w.channelBase q.channel
                  + (q.startVector + v) * q.extent.numSamples * w.bytesPerSample
                  + q.startSample * w.bytesPerSample })

/-- The output buffer after the reads of the given sub-ranges, performed in
the order given. -/
def readPartitions {β : Type} [Inhabited β] (w : Wideband) (file : Nat → β)
    (q : ReadRequest) (parts : List (Nat × Nat)) : Nat → β :=
  six.applyCopies (parts.flatMap (partitionCopies w file q)) (fun _ => default)

/-- Modelled from the spec: how a read resolves its arguments: `none` is the
`ALL` sentinel and stands for the channel's full declared extent; the request
fails with `OutOfRange` when the channel is not declared or a range leaves the
channel's extent. -/
def Wideband.resolve (w : Wideband) (channel startVector : Nat) (vectorCount : Option Nat)
    (startSample : Nat) (sampleCount : Option Nat) : Except AddressError ReadRequest :=
  match w.mData.channels[channel]? with
  | none => .error .OutOfRange
  | some ch =>
      if ch.numVectors < startVector + vectorCount.getD ch.numVectors
          ∨ ch.numSamples < startSample + sampleCount.getD ch.numSamples
      then .error .OutOfRange
      else .ok
        { channel := channel, extent := ch, startVector := startVector,
          vectorCount := vectorCount.getD ch.numVectors, startSample := startSample,
          sampleCount := sampleCount.getD ch.numSamples }

/-- Modelled from the spec: `Wideband::read(channel, startVector,
vectorCountOrALL, startSample, sampleCountOrALL, numThreads, outBuffer)`: it
resolves the request, partitions the vector range among the threads, lets each
sub-range be read into its own region of the output buffer, and hands back
the buffer. -/
def Wideband.read {β : Type} [Inhabited β] (w : Wideband) (file : Nat → β)
    (channel startVector : Nat) (vectorCount : Option Nat)
    (startSample : Nat) (sampleCount : Option Nat) (numThreads : Nat) :
    Except AddressError (List β) :=
  match w.resolve channel startVector vectorCount startSample sampleCount with
  | .error e => .error e
  | .ok q =>
      .ok ((List.range (q.vectorCount * q.vectorBytes w)).map
            (readPartitions w file q (partitionVectors q.vectorCount numThreads)))

/-- The byte the output buffer must hold at index `i`: byte `i % vectorBytes`
of the requested part of vector `startVector + i / vectorBytes`. -/
def expectedByte {β : Type} (w : Wideband) (file : Nat → β) (q : ReadRequest) (i : Nat) : β :=
  file (w.channelBase q.channel
        + (q.startVector + i / q.vectorBytes w) * q.extent.numSamples * w.bytesPerSample
        + q.startSample * w.bytesPerSample + i % q.vectorBytes w)

/-! ## `test_compare_cphd.cpp` -/

/-- The element types `compareWideband` views a channel's bytes as, one per
signal format (`std::complex` of `Int8_T`, `Int16_T`, `float`); how bytes are
read as elements and when two elements are `==` are parameters: `cast f data
ii` is `reinterpret_cast<const T*>(data)[ii]` and `eq f` is `operator==` of
`T`, of which `!=` is the negation. -/
structure SampleModel where
  T : SampleType → Type
  cast : (f : SampleType) → (Nat → Nat) → Nat → T f
  eq : (f : SampleType) → T f → T f → Bool

/-- The loop of `compareCPHDData` and `compareSupportData`: `remaining`
elements are still to compare, the next one has index `ii`; the first
differing element ends the loop with `false`. -/
def compareLoop (differ : Nat → Bool) : Nat → Nat → Bool
  | 0, _ => true
  | remaining + 1, ii =>
      if differ ii then false else compareLoop differ remaining (ii + 1)

/-- The function template `compareCPHDData<T>`, with `T` the element type of
the signal format `f`. -/
def compareCPHDData (m : SampleModel) (f : SampleType) (data1 data2 : Nat → Nat)
    (size : Nat) (_channel : Nat) : Bool :=
  compareLoop (fun ii => !(m.eq f (m.cast f data1 ii) (m.cast f data2 ii))) size 0

/-- The function `compareSupportData`. -/
def compareSupportData (data1 data2 : Nat → Nat) (size : Nat) : Bool :=
  compareLoop (fun ii => decide (data1 ii ≠ data2 ii)) size 0

/-- What `checkCPHD` reaches through an open `CPHDReader`: the reader itself
(metadata and wideband book-keeping), its PVP block, the bytes
`getSupportBlock().readAll` yields, and for each channel the bytes
`getWideband().read(channel, 0, ALL, 0, ALL, numThreads, buffer)` leaves in the
buffer. -/
structure OpenReader (P : Type) where
  reader : CPHDReader
  mPVPBlock : P
  supportBytes : Nat → Nat
  widebandBytes : Nat → Nat → Nat

/-- The function `OpenReader.getMetadata`, the reader's `getMetadata`. -/
def OpenReader.getMetadata {P : Type} (r : OpenReader P) : Metadata := r.reader.getMetadata

/-- The body of the channel loop of `compareWideband`: `remaining` channels are
still to compare, the next one is `ii`, and `dataMatches` is the flag so
far. The element count `dims1.area()` is the `size_t` product of the
channel's vectors and samples, modulo 2^64. -/
def compareWidebandLoop {P : Type} (m : SampleModel) (reader1 reader2 : OpenReader P) :
    Nat → Nat → Bool → Bool
  | 0, _, dataMatches => dataMatches
  | remaining + 1, ii, dataMatches =>
      if (reader1.getMetadata.data.getNumVectors ii, reader1.getMetadata.data.getNumSamples ii)
          = (reader2.getMetadata.data.getNumVectors ii,
              reader2.getMetadata.data.getNumSamples ii) then
        match reader1.getMetadata.data.getSignalFormat with
        | .RE08I_IM08I =>
            if !(compareCPHDData m .RE08I_IM08I (reader1.widebandBytes ii)
                  (reader2.widebandBytes ii)
                  (reader1.getMetadata.data.getNumVectors ii
                    * reader1.getMetadata.data.getNumSamples ii % 2 ^ 64) ii)
            then compareWidebandLoop m reader1 reader2 remaining (ii + 1) false
            else compareWidebandLoop m reader1 reader2 remaining (ii + 1) dataMatches
        | .RE16I_IM16I =>
            if !(compareCPHDData m .RE16I_IM16I (reader1.widebandBytes ii)
                  (reader2.widebandBytes ii)
                  (reader1.getMetadata.data.getNumVectors ii
                    * reader1.getMetadata.data.getNumSamples ii % 2 ^ 64) ii)
            then compareWidebandLoop m reader1 reader2 remaining (ii + 1) false
            else compareWidebandLoop m reader1 reader2 remaining (ii + 1) dataMatches
        | .RE32F_IM32F =>
            if !(compareCPHDData m .RE32F_IM32F (reader1.widebandBytes ii)
                  (reader2.widebandBytes ii)
                  (reader1.getMetadata.data.getNumVectors ii
                    * reader1.getMetadata.data.getNumSamples ii % 2 ^ 64) ii)
            then compareWidebandLoop m reader1 reader2 remaining (ii + 1) false
            else compareWidebandLoop m reader1 reader2 remaining (ii + 1) dataMatches
      else compareWidebandLoop m reader1 reader2 remaining (ii + 1) false

/-- The function `compareWideband`. -/
def compareWideband {P : Type} (m : SampleModel) (reader1 reader2 : OpenReader P)
    (channelsToProcess : Nat) (_numThreads : Nat) : Bool :=
  compareWidebandLoop m reader1 reader2 channelsToProcess 0 true

/-- The function `checkCPHD`, from the point where both readers are open, with
reads that complete. -/
def checkCPHD {P : Type} [DecidableEq P] (m : SampleModel) (reader1 reader2 : OpenReader P)
    (numThreads : Nat) : Bool :=
  if reader1.getMetadata ≠ reader2.getMetadata then false
  else if reader1.mPVPBlock ≠ reader2.mPVPBlock then false
  else if !(compareSupportData reader1.supportBytes reader2.supportBytes
              reader1.getMetadata.data.getAllSupportSize) then false
  else if reader1.getMetadata.data.getNumChannels ≠ reader2.getMetadata.data.getNumChannels
  then false
  else if reader1.getMetadata.data.getSignalFormat = reader2.getMetadata.data.getSignalFormat
  then
    if !(compareWideband m reader1 reader2
          (min reader1.getMetadata.data.getNumChannels
            reader2.getMetadata.data.getNumChannels) numThreads)
    then false
    else true
  else false

/-- Channel `ch` of two open readers matches: equal dimensions, and wideband
samples that compare equal element by element, viewed at the element type of
the first reader's signal format, over the `dims1.area()` elements of the
channel (the product of its vectors and samples in `size_t`). -/
def ChannelMatches {P : Type} (m : SampleModel) (reader1 reader2 : OpenReader P)
    (ch : Nat) : Prop :=
  reader1.getMetadata.data.getNumVectors ch = reader2.getMetadata.data.getNumVectors ch
  ∧ reader1.getMetadata.data.getNumSamples ch = reader2.getMetadata.data.getNumSamples ch
  ∧ ∀ ii, ii < reader1.getMetadata.data.getNumVectors ch
              * reader1.getMetadata.data.getNumSamples ch % 2 ^ 64 →
      m.eq reader1.getMetadata.data.getSignalFormat
        (m.cast reader1.getMetadata.data.getSignalFormat (reader1.widebandBytes ch) ii)
        (m.cast reader1.getMetadata.data.getSignalFormat (reader2.widebandBytes ch) ii)
        = true

/-- Two open readers match: equal metadata, equal PVP blocks, support blocks
that agree byte by byte over the declared support size, the same number of
channels, the same signal format, and every channel matching. -/
def FilesMatch {P : Type} (m : SampleModel) (reader1 reader2 : OpenReader P) : Prop :=
  reader1.getMetadata = reader2.getMetadata
  ∧ reader1.mPVPBlock = reader2.mPVPBlock
  ∧ (∀ i, i < reader1.getMetadata.data.getAllSupportSize →
      reader1.supportBytes i = reader2.supportBytes i)
  ∧ reader1.getMetadata.data.getNumChannels = reader2.getMetadata.data.getNumChannels
  ∧ reader1.getMetadata.data.getSignalFormat = reader2.getMetadata.data.getSignalFormat
  ∧ ∀ ch, ch < reader1.getMetadata.data.getNumChannels → ChannelMatches m reader1 reader2 ch

/-- The `size` bytes of a buffer from byte `first` on, in memory order. -/
def bytesAt (data : Nat → Nat) (first size : Nat) : List Nat :=
  (List.range size).map (fun k => data (first + k))

/-- The bytes of element `ii` of a buffer whose elements take `size` bytes
each. -/
def elementBytes (size : Nat) (data : Nat → Nat) (ii : Nat) : List Nat :=
  bytesAt data (ii * size) size

/-- The unsigned integer that a list of bytes holds on a little-endian host:
the first byte is the least significant. -/
def wordOf : List Nat → Nat
  | [] => 0
  | b :: rest => b + 256 * wordOf rest

/-- An IEEE 754 binary32 bit pattern is a NaN: its exponent field is all ones
and its fraction is not zero. -/
def isNaN (w : Nat) : Bool :=
  w / 2 ^ 23 % 256 == 255 && w % 2 ^ 23 != 0

/-- The comparison `==` of two `float` values, on their IEEE 754 binary32 bit
patterns: a NaN equals nothing, the two zeros equal each other, and any other
value equals only itself. -/
def floatEq (a b : Nat) : Bool :=
  !isNaN a && !isNaN b && (a == b || (a % 2 ^ 31 == 0 && b % 2 ^ 31 == 0))

/-- The comparison `==` of two `std::complex<float>` values, each given by its
eight bytes, the real part first: the real parts are equal and the imaginary
parts are equal. -/
def complexFloatEq (a b : List Nat) : Bool :=
  floatEq (wordOf (a.take 4)) (wordOf (b.take 4))
    && floatEq (wordOf (a.drop 4)) (wordOf (b.drop 4))

/-- The element types of `compareWideband` on a little-endian host with IEEE
754 `float`: an element is given by its bytes; two `std::complex` values of
`Int8_T` or of `Int16_T` are `==` exactly when their bytes are the same, and
two of `float` when `complexFloatEq` holds. -/
def hostSamples : SampleModel :=
  { T := fun _ => List Nat
    cast := fun f data ii => elementBytes (getNumBytesPerSample f) data ii
    eq := fun f a b =>
      match f with
      | .RE08I_IM08I => decide (a = b)
      | .RE16I_IM16I => decide (a = b)
      | .RE32F_IM32F => complexFloatEq a b }

/-- The `float` values that two buffers hold from byte `first` on compare
equal: neither is a NaN, and the two have the same bit pattern or are both
zeros. -/
def FloatsEqual (data1 data2 : Nat → Nat) (first : Nat) : Prop :=
  isNaN (wordOf (bytesAt data1 first 4)) = false
  ∧ isNaN (wordOf (bytesAt data2 first 4)) = false
  ∧ (wordOf (bytesAt data1 first 4) = wordOf (bytesAt data2 first 4)
      ∨ (wordOf (bytesAt data1 first 4) % 2 ^ 31 = 0
          ∧ wordOf (bytesAt data2 first 4) % 2 ^ 31 = 0))

/-- Sample `ii` of two wideband buffers compares equal at signal format `f`:
for the two integer formats the bytes of the sample are the same in both
buffers; for `RE32F_IM32F` the real parts compare equal as `float` values
and so do the imaginary parts. -/
def SamplesEqual (f : SampleType) (data1 data2 : Nat → Nat) (ii : Nat) : Prop :=
  match f with
  | .RE08I_IM08I => ∀ k, k < 2 → data1 (ii * 2 + k) = data2 (ii * 2 + k)
  | .RE16I_IM16I => ∀ k, k < 4 → data1 (ii * 4 + k) = data2 (ii * 4 + k)
  | .RE32F_IM32F => FloatsEqual data1 data2 (ii * 8) ∧ FloatsEqual data1 data2 (ii * 8 + 4)

/-- An open reader over one channel of one `RE32F_IM32F` sample, whose
wideband bytes are `bytes k` at index `k`. -/
def floatReader (bytes : Nat → Nat) : OpenReader Nat :=
  { reader :=
      { mMetadata := { data := { signalFormat := .RE32F_IM32F, channels := [⟨1, 1⟩] } },
        mWideband := { mData := { signalFormat := .RE32F_IM32F, channels := [⟨1, 1⟩] } } },
    mPVPBlock := 0,
    supportBytes := fun _ => 0,
    widebandBytes := fun _ k => bytes k }

/-- A read that `checkCPHD` issues: `readAll` on the support block of file 1
or 2, or `Wideband::read` of a whole channel of file 1 or 2. -/
inductive BlockRead where
  | support (file : Nat)
  | wideband (file : Nat) (channel : Nat)
  deriving DecidableEq, Repr

/-- The wideband reads of the channel loop of `compareWideband`, in order:
both files' channel `ii` is read when the two dimensions are equal, and the
loop goes on to the next channel in every case. -/
def compareWidebandReads {P : Type} (reader1 reader2 : OpenReader P) :
    Nat → Nat → List BlockRead
  | 0, _ => []
  | remaining + 1, ii =>
      (if (reader1.getMetadata.data.getNumVectors ii,
            reader1.getMetadata.data.getNumSamples ii)
          = (reader2.getMetadata.data.getNumVectors ii,
              reader2.getMetadata.data.getNumSamples ii)
        then [BlockRead.wideband 1 ii, BlockRead.wideband 2 ii] else [])
      ++ compareWidebandReads reader1 reader2 remaining (ii + 1)

/-- The reads that `checkCPHD` issues before it returns, in order: none when
the metadata or the PVP blocks differ; otherwise the two support blocks, and
then, when these agree, the channel counts are equal and the signal formats
are equal, the reads of `compareWideband`. -/
def checkCPHDReads {P : Type} [DecidableEq P] (reader1 reader2 : OpenReader P)
    (_numThreads : Nat) : List BlockRead :=
  if reader1.getMetadata ≠ reader2.getMetadata then []
  else if reader1.mPVPBlock ≠ reader2.mPVPBlock then []
  else
    [BlockRead.support 1, BlockRead.support 2]
    ++ (if !(compareSupportData reader1.supportBytes reader2.supportBytes
              reader1.getMetadata.data.getAllSupportSize) then []
        else if reader1.getMetadata.data.getNumChannels
                  ≠ reader2.getMetadata.data.getNumChannels then []
        else if reader1.getMetadata.data.getSignalFormat
                  = reader2.getMetadata.data.getSignalFormat
        then compareWidebandReads reader1 reader2
              (min reader1.getMetadata.data.getNumChannels
                reader2.getMetadata.data.getNumChannels) 0
        else [])

/-- A sample model for evaluation: every element is one byte, compared as a
number. -/
def byteSamples : SampleModel :=
  { T := fun _ => Nat, cast := fun _ data ii => data ii, eq := fun _ a b => decide (a = b) }

/-- An open reader over one channel of 2 vectors of 2 one-byte-pair samples,
whose wideband bytes are all `fill`. -/
def smallOpenReader (fill : Nat) : OpenReader Nat :=
  { reader :=
      { mMetadata := { data := { signalFormat := .RE08I_IM08I, channels := [⟨2, 2⟩] } },
        mWideband := { mData := { signalFormat := .RE08I_IM08I, channels := [⟨2, 2⟩] } } },
    mPVPBlock := 0,
    supportBytes := fun _ => 0,
    widebandBytes := fun _ _ => fill }

/-- The function `checkCPHD` of the source, from the two pathnames:
`openReader` is the `CPHDReader` constructor at work on a pathname, with the
reads the comparison needs; it yields the open reader or throws. -/
def checkCPHDFiles {P : Type} [DecidableEq P] (m : SampleModel)
    (openReader : String → Nat → List String → Except nitf.Thrown (OpenReader P))
    (pathname1 pathname2 : String) (numThreads : Nat) (schemaPathname : List String) :
    Except nitf.Thrown Bool :=
  match openReader pathname1 numThreads schemaPathname with
  | .error t => .error t
  | .ok reader1 =>
      match openReader pathname2 numThreads schemaPathname with
      | .error t => .error t
      | .ok reader2 => .ok (checkCPHD m reader1 reader2 numThreads)

/-- The options `main` of `test_compare_cphd` reads from the command line. -/
structure CompareOptions where
  file1 : String
  file2 : String
  schema : String
  threads : Nat
  deriving DecidableEq, Repr

/-- The function `main` of `test_compare_cphd`: `parse` is the argument parser
at work on the command line, `check` is `checkCPHD`; either yields its result
or throws. Each of the three `catch` clauses falls through to `return 1`. -/
def main (parse : List String → Except nitf.Thrown CompareOptions)
    (check : String → String → Nat → List String → Except nitf.Thrown Bool)
    (argv : List String) : Int :=
  match parse argv with
  | .error (.exceptException _) => 1
  | .error (.stdException _) => 1
  | .error (.other _) => 1
  | .ok options =>
      match check options.file1 options.file2 options.threads
              (if options.schema.isEmpty then [] else [options.schema]) with
      | .ok _isMatch => 0
      | .error (.exceptException _) => 1
      | .error (.stdException _) => 1
      | .error (.other _) => 1

/-- A parser that takes the two pathnames and the schema from the command line
and asks for four threads. -/
def plainParse : List String → Except nitf.Thrown CompareOptions
  | [a, b, c] => .ok { file1 := a, file2 := b, schema := c, threads := 4 }
  | _ => .error (.exceptException "usage")

/-- An open reader over the given channels, whose wideband bytes are all
`fill`. -/
def openReaderOver (channels : List ChannelExtent) (fill : Nat) : OpenReader Nat :=
  { reader :=
      { mMetadata := { data := { signalFormat := .RE08I_IM08I, channels := channels } },
        mWideband := { mData := { signalFormat := .RE08I_IM08I, channels := channels } } },
    mPVPBlock := 0,
    supportBytes := fun _ => 0,
    widebandBytes := fun _ _ => fill }

/-- A constructor that knows three files: "one" and "same" with one channel
and the same bytes, "two" with a second channel; any other pathname throws. -/
def smallOpen : String → Nat → List String → Except nitf.Thrown (OpenReader Nat)
  | "one", _, _ => .ok (openReaderOver [⟨2, 2⟩] 1)
  | "same", _, _ => .ok (openReaderOver [⟨2, 2⟩] 1)
  | "two", _, _ => .ok (openReaderOver [⟨2, 2⟩, ⟨1, 1⟩] 1)
  | _, _, _ => .error (.exceptException "file not found")

/-- What a call of a `SupportArray` getter does: it returns a value, raises a
C++ exception, or reads outside its container (undefined behaviour in C++). -/
inductive Lookup (α : Type) where
  | returned (value : α)
  | raised (thrown : nitf.Thrown)
  | outOfRange
  deriving DecidableEq, Repr

/-- A `std::map<std::string, B>`: the entries, each key held at most once. -/
structure StdMap (B : Type) where
  entries : List (String × B)
  unique : (entries.map Prod.fst).Nodup

/-- The function `std::map::count`: the number of entries with this key. -/
def StdMap.count {B : Type} (m : StdMap B) (key : String) : Nat :=
  m.entries.countP (fun e => e.1 == key)

/-- The function `std::map::find`: the entry with this key, or `none` for
`end()`. -/
def StdMap.find {B : Type} (m : StdMap B) (key : String) : Option (String × B) :=
  m.entries.find? (fun e => e.1 == key)

/-- The three containers of `cphd::SupportArray` that the getters read;
`A` is `SupportArrayParameter`, `B` is `AdditionalSupportArray`. -/
structure SupportArray (A B : Type) where
  iazArray : List A
  antGainPhase : List A
  addedSupportArray : StdMap B

/-- The message of the exception of the three getters. -/
def notFound (key : String) : nitf.Thrown :=
  .exceptException ("SA_ID was not found " ++ key)

/-- The function `SupportArray::getIAZSupportArray`. The conversion
`str::toType<size_t>` is not part of the sources at hand and is a parameter:
it gives the parsed value or raises. -/
def SupportArray.getIAZSupportArray {A B : Type} (toType : String → Except nitf.Thrown Nat)
    (sa : SupportArray A B) (key : String) : Lookup A :=
  match toType key with
  | .error t => .raised t
  | .ok keyNum =>
      if sa.iazArray.length ≤ keyNum then .raised (notFound key)
      else
        match sa.iazArray[keyNum]? with
        | some a => .returned a
        | none => .outOfRange

/-- The function `SupportArray::getAGPSupportArray`. -/
def SupportArray.getAGPSupportArray {A B : Type} (toType : String → Except nitf.Thrown Nat)
    (sa : SupportArray A B) (key : String) : Lookup A :=
  match toType key with
  | .error t => .raised t
  | .ok keyNum =>
      if sa.antGainPhase.length ≤ keyNum then .raised (notFound key)
      else
        match sa.antGainPhase[keyNum]? with
        | some a => .returned a
        | none => .outOfRange

/-- The function `SupportArray::getAddedSupportArray`; dereferencing
`find(key)` when it is `end()` is a read outside the container. -/
def SupportArray.getAddedSupportArray {A B : Type} (sa : SupportArray A B) (key : String) :
    Lookup B :=
  if sa.addedSupportArray.count key = 0 ∨ sa.addedSupportArray.count key > 1 then
    .raised (notFound key)
  else
    match sa.addedSupportArray.find key with
    | some e => .returned e.2
    | none => .outOfRange

/-- The value of a list of decimal digits after the digits already read, or
`none` at a character that is not a digit. -/
def digitsValue : List Char → Nat → Option Nat
  | [], acc => some acc
  | c :: cs, acc =>
      if 48 ≤ c.toNat ∧ c.toNat ≤ 57 then digitsValue cs (10 * acc + (c.toNat - 48)) else none

/-- A conversion of decimal keys, to instantiate the getters on concrete
keys: digits give their value, anything else raises. -/
def decimalKey (key : String) : Except nitf.Thrown Nat :=
  match key.data with
  | [] => .error (.exceptException "bad conversion")
  | cs =>
      match digitsValue cs 0 with
      | some k => .ok k
      | none => .error (.exceptException "bad conversion")

/-- A support array with two IAZ entries, three AGP entries and two added
arrays. -/
def smallSupportArray : SupportArray Nat Nat :=
  { iazArray := [10, 11]
    antGainPhase := [20, 21, 22]
    addedSupportArray := ⟨[("a", 30), ("b", 31)], by decide⟩ }

/-- A reader over one channel of 10 vectors of 4 samples of 8 bytes. -/
def oneChannelReader : CPHDReader :=
  { mMetadata := { data := { signalFormat := .RE32F_IM32F, channels := [⟨10, 4⟩] } },
    mWideband := { mData := { signalFormat := .RE32F_IM32F, channels := [⟨10, 4⟩] } } }

/-- A wideband block of two channels, 3 x 2 and 2 x 5 samples of 4 bytes. -/
def twoChannelWideband : Wideband :=
  { mData := { signalFormat := .RE16I_IM16I, channels := [⟨3, 2⟩, ⟨2, 5⟩] } }

end cphd

namespace sidd

/-! ## `test_compare_sidd.cpp` -/

/-- A thrown C++ value, split the way the one `catch` clause of `main` splits
it: an `except::Throwable` (the base class of the library's exceptions and
errors), or a value of any other type. -/
inductive Raised where
  | throwable (text : String)
  | foreign (tag : Nat)
  deriving DecidableEq, Repr

/-- A processing event of the downstream reprocessing block: its applied date
and time, and everything else in it. -/
structure ProcessingEvent where
  appliedDateTime : Nat
  rest : Nat
  deriving DecidableEq, Repr

/-- The information of a collection of the exploitation features: its two
dates, and everything else in it. -/
structure Collection where
  collectionDateTime : Nat
  localDateTime : Nat
  rest : Nat
  deriving DecidableEq, Repr

/-- The classification of a derived product: its three dates, and everything
else in it. -/
structure DerivedClassification where
  createDate : Nat
  exemptedSourceDate : Nat
  declassDate : Nat
  rest : Nat
  deriving DecidableEq, Repr

/-- The part of the metadata only a `six::sidd::DerivedData` has; the members
`siddsMatch` reaches through pointers are taken to be present. -/
structure DerivedData where
  processingEvents : List ProcessingEvent
  collections : List Collection
  classification : DerivedClassification
  rest : Nat
  deriving DecidableEq, Repr

/-- The metadata object `six::Data` of a product: the three dimensions the
comparison reads, the creation time, the derived part when the object is a
`DerivedData` (what the `dynamic_cast` finds), and everything else that
`operator==` compares. -/
structure Data where
  numRows : Nat
  numCols : Nat
  numBytesPerPixel : Nat
  creationTime : Nat
  derived : Option DerivedData
  rest : Nat
  deriving DecidableEq, Repr

/-- A loaded product: the metadata `readMetadata` clones and the bytes
`readWideband` reads into its buffer. -/
structure Product where
  metadata : Data
  buffer : Nat → Nat

/-- The function `std::memcmp` on the first `count` bytes from index `i` on:
zero when they agree, otherwise the sign of the first difference. -/
def memcmp (s1 s2 : Nat → Nat) : Nat → Nat → Int
  | 0, _ => 0
  | count + 1, i =>
      if s1 i = s2 i then memcmp s1 s2 count (i + 1)
      else if s1 i < s2 i then -1 else 1

/-- The `ignoreDate` block of `siddsMatch`: the second metadata object after
the dates of the first have been copied into it, or `none` where the block
leaves `siddsMatch` with `return false` (a different number of processing
events or of collections). -/
def copyDates (sidd1Metadata sidd2Metadata : Data) : Option Data :=
  match sidd1Metadata.derived, sidd2Metadata.derived with
  | some ddata1, some ddata2 =>
      if ddata1.processingEvents.length ≠ ddata2.processingEvents.length then none
      else if ddata1.collections.length ≠ ddata2.collections.length then none
      else some
        { sidd2Metadata with
          creationTime := sidd1Metadata.creationTime,
          derived := some
            { ddata2 with
              processingEvents :=
                List.zipWith (fun e1 e2 => { e2 with appliedDateTime := e1.appliedDateTime })
                  ddata1.processingEvents ddata2.processingEvents,
              collections :=
                List.zipWith
                  (fun c1 c2 => { c2 with collectionDateTime := c1.collectionDateTime,
                                          localDateTime := c1.localDateTime })
                  ddata1.collections ddata2.collections,
              classification :=
                { ddata2.classification with
                  createDate := ddata1.classification.createDate,
                  exemptedSourceDate := ddata1.classification.exemptedSourceDate,
                  declassDate := ddata1.classification.declassDate } } }
  | _, _ => some { sidd2Metadata with creationTime := sidd1Metadata.creationTime }

/-- The product of two `size_t` values: the mathematical product modulo
2^64. -/
def sizeMul (a b : Nat) : Nat :=
  a * b % 2 ^ 64

/-- The function `siddsMatch` once both products are loaded. The byte count of
`memcmp` is the `size_t` product `getNumRows() * getNumCols() *
getNumBytesPerPixel()` of the first product, the count with which
`readWideband` allocates each pixel buffer. -/
def compareProducts (sidd1 sidd2 : Product) (ignoreMetadata ignoreDate : Bool) : Bool :=
  if !ignoreMetadata then
    match (if ignoreDate then copyDates sidd1.metadata sidd2.metadata
           else some sidd2.metadata) with
    | none => false
    | some sidd2Metadata =>
        if !(decide (sidd1.metadata = sidd2Metadata)) then false
        else
          decide (memcmp sidd1.buffer sidd2.buffer
            (sizeMul (sizeMul sidd1.metadata.numRows sidd1.metadata.numCols)
              sidd1.metadata.numBytesPerPixel) 0 = 0)
  else
    if sidd1.metadata.numRows ≠ sidd2.metadata.numRows
        ∨ sidd1.metadata.numCols ≠ sidd2.metadata.numCols
        ∨ sidd1.metadata.numBytesPerPixel ≠ sidd2.metadata.numBytesPerPixel
    then false
    else
      decide (memcmp sidd1.buffer sidd2.buffer
        (sizeMul (sizeMul sidd1.metadata.numRows sidd1.metadata.numCols)
          sidd1.metadata.numBytesPerPixel) 0 = 0)

/-- The function `siddsMatch`: `load` is what `reader.load`, `readMetadata` and
`readWideband` do for one path: it yields the product or throws. -/
def siddsMatch (load : String → Except Raised Product) (sidd1Path sidd2Path : String)
    (ignoreMetadata ignoreDate : Bool) : Except Raised Bool :=
  match load sidd1Path with
  | .error t => .error t
  | .ok sidd1 =>
      match load sidd2Path with
      | .error t => .error t
      | .ok sidd2 => .ok (compareProducts sidd1 sidd2 ignoreMetadata ignoreDate)

/-- The options `main` reads from the command line. -/
structure Options where
  ignoreMetadata : Bool
  ignoreDate : Bool
  sidd1 : String
  sidd2 : String
  deriving DecidableEq, Repr

/-- How `main` ends: it returns a code, or a thrown value leaves it
uncaught. -/
inductive MainResult where
  | returned (code : Int)
  | uncaught (t : Raised)
  deriving DecidableEq, Repr

/-- The function `main` of `test_compare_sidd`: `parse` is the argument
parser at work on the command line (it yields the options or throws). -/
def main (parse : List String → Except Raised Options)
    (load : String → Except Raised Product) (argv : List String) : MainResult :=
  match parse argv with
  | .error (.throwable _) => .returned 1
  | .error (.foreign tag) => .uncaught (.foreign tag)
  | .ok options =>
      match siddsMatch load options.sidd1 options.sidd2 options.ignoreMetadata
              options.ignoreDate with
      | .ok true => .returned 0
      | .ok false => .returned 1
      | .error (.throwable _) => .returned 1
      | .error (.foreign tag) => .uncaught (.foreign tag)

/-- A parser that takes the two paths from the command line and sets no
flag. -/
def plainParse : List String → Except Raised Options
  | [a, b] => .ok { ignoreMetadata := false, ignoreDate := false, sidd1 := a, sidd2 := b }
  | _ => .error (.throwable "usage")

/-- A product of 1 x 2 one-byte pixels whose bytes are all `fill`. -/
def smallProduct (creationTime fill : Nat) : Product :=
  { metadata := { numRows := 1, numCols := 2, numBytesPerPixel := 1,
                  creationTime := creationTime, derived := none, rest := 0 },
    buffer := fun _ => fill }

/-- A loader that knows three files: "a" and "b" hold the same pixels, "c"
other pixels; any other path is an error of the library. -/
def smallLoad : String → Except Raised Product
  | "a" => .ok (smallProduct 1 5)
  | "b" => .ok (smallProduct 2 5)
  | "c" => .ok (smallProduct 1 6)
  | _ => .error (.throwable "file not found")

/-- A loader for which memory has run out: the allocation of the pixel buffer
(`buffer.reset` in `readWideband`) throws `std::bad_alloc`, which is not an
`except::Throwable`. -/
def exhaustedLoad : String → Except Raised Product :=
  fun _ => .error (.foreign 0)

end sidd

namespace cphd03

/-! ## `FileHeader.h` -/

/-- The value of an expression of type `sys::Off_T`, a signed 64-bit integer:
the mathematical result brought back into `[-2^63, 2^63)` by two's-complement
wrap-around. -/
def wrapOff (v : Int) : Int :=
  (v + 9223372036854775808) % 18446744073709551616 - 9223372036854775808

/-- The value fits a `sys::Off_T`. -/
def fitsOff (v : Int) : Prop := -9223372036854775808 ≤ v ∧ v < 9223372036854775808

instance (v : Int) : Decidable (fitsOff v) := by
  unfold fitsOff
  exact inferInstance

/-- The data members of `cphd03::FileHeader`. -/
structure FileHeader where
  mVersion : String
  mXmlDataSize : Int
  mXmlByteOffset : Int
  mVbDataSize : Int
  mVbByteOffset : Int
  mCphdDataSize : Int
  mCphdByteOffset : Int
  mClassification : String
  mReleaseInfo : String
  deriving DecidableEq, Repr

/-- Every `sys::Off_T` member holds a value of that type. -/
def FileHeader.wellTyped (h : FileHeader) : Prop :=
  fitsOff h.mXmlDataSize ∧ fitsOff h.mXmlByteOffset ∧ fitsOff h.mVbDataSize
  ∧ fitsOff h.mVbByteOffset ∧ fitsOff h.mCphdDataSize ∧ fitsOff h.mCphdByteOffset

instance (h : FileHeader) : Decidable h.wellTyped := by
  unfold FileHeader.wellTyped
  exact inferInstance

/-- The function `FileHeader::setXMLsize`. -/
def FileHeader.setXMLsize (h : FileHeader) (size : Int) : FileHeader :=
  { h with mXmlDataSize := size }

/-- The function `FileHeader::setVBMsize`. -/
def FileHeader.setVBMsize (h : FileHeader) (size : Int) : FileHeader :=
  { h with mVbDataSize := size }

/-- The function `FileHeader::setCPHDsize`. -/
def FileHeader.setCPHDsize (h : FileHeader) (size : Int) : FileHeader :=
  { h with mCphdDataSize := size }

/-- The function `FileHeader::setXMLoffset`. -/
def FileHeader.setXMLoffset (h : FileHeader) (offset : Int) : FileHeader :=
  { h with mXmlByteOffset := offset }

/-- The function `FileHeader::setVBMoffset`. -/
def FileHeader.setVBMoffset (h : FileHeader) (offset : Int) : FileHeader :=
  { h with mVbByteOffset := offset }

/-- The function `FileHeader::setCPHDoffset`. -/
def FileHeader.setCPHDoffset (h : FileHeader) (offset : Int) : FileHeader :=
  { h with mCphdByteOffset := offset }

/-- The function `FileHeader::getXMLsize`. -/
def FileHeader.getXMLsize (h : FileHeader) : Int := h.mXmlDataSize

/-- The function `FileHeader::getVBMsize`. -/
def FileHeader.getVBMsize (h : FileHeader) : Int := h.mVbDataSize

/-- The function `FileHeader::getCPHDsize`. -/
def FileHeader.getCPHDsize (h : FileHeader) : Int := h.mCphdDataSize

/-- The function `FileHeader::getXMLoffset`. -/
def FileHeader.getXMLoffset (h : FileHeader) : Int := h.mXmlByteOffset

/-- The function `FileHeader::getVBMoffset`. -/
def FileHeader.getVBMoffset (h : FileHeader) : Int := h.mVbByteOffset

/-- The function `FileHeader::getCPHDoffset`. -/
def FileHeader.getCPHDoffset (h : FileHeader) : Int := h.mCphdByteOffset

/-- The function `FileHeader::getPadBytes`:
`getVBMoffset() - (getXMLoffset() + getXMLsize() + 2)`, each operation in
`sys::Off_T`. -/
def FileHeader.getPadBytes (h : FileHeader) : Int :=
  wrapOff (h.getVBMoffset - wrapOff (wrapOff (h.getXMLoffset + h.getXMLsize) + 2))

/-- A header whose XML section of 100 bytes starts at byte 40 and whose VBM
section starts at byte 150. -/
def sampleHeader : FileHeader :=
  { mVersion := "0.3", mXmlDataSize := 100, mXmlByteOffset := 40, mVbDataSize := 64,
    mVbByteOffset := 150, mCphdDataSize := 1024, mCphdByteOffset := 216,
    mClassification := "", mReleaseInfo := "" }

end cphd03

namespace six

/-! ## `Legend.h` -/

/-- The values of `six::PixelType` that the sources name. -/
inductive PixelType where
  | NOT_SET
  | RE32F_IM32F
  | RGB8LU
  deriving DecidableEq, Repr

/-- The class template instance `types::RowCol<size_t>`. -/
structure RowCol where
  row : Nat
  col : Nat
  deriving DecidableEq, Repr

/-- The function `std::vector<sys::ubyte>::resize(n)`: the first `n` elements
are kept, and zero bytes are appended up to length `n`. -/
def resize (v : List Nat) (n : Nat) : List Nat :=
  v.take n ++ List.replicate (n - v.length) 0

/-- The struct `six::Legend`; `LUT` is the type its `mLUT` pointer points to,
and `none` is the null pointer. -/
structure Legend (LUT : Type) where
  mType : PixelType
  mLocation : RowCol
  mDims : RowCol
  mImage : List Nat
  mLUT : Option LUT

/-- The constructor `Legend::Legend`. -/
def Legend.new (LUT : Type) : Legend LUT :=
  { mType := .NOT_SET, mLocation := ⟨0, 0⟩, mDims := ⟨0, 0⟩, mImage := [], mLUT := none }

/-- What ends a call of `std::vector::resize` early: `std::length_error` or
`std::bad_alloc`. -/
inductive ResizeThrow where
  | length_error
  | bad_alloc
  deriving DecidableEq, Repr

/-- The value of `std::vector<sys::ubyte>::max_size()` on a 64-bit
implementation: `PTRDIFF_MAX`. -/
def max_size : Nat :=
  2 ^ 63 - 1

/-- The function `std::vector<sys::ubyte>::resize(n)` as a call that may
throw: `std::length_error` when `n` is above `max_size()`, `std::bad_alloc`
when the vector has to grow and the allocation fails (`allocates n` tells
whether storage for `n` bytes is granted); otherwise the resized vector. A
throw leaves the vector as it was. -/
def resizeChecked (allocates : Nat → Bool) (v : List Nat) (n : Nat) :
    Except ResizeThrow (List Nat) :=
  if max_size < n then .error .length_error
  else if v.length < n ∧ allocates n = false then .error .bad_alloc
  else .ok (resize v n)

/-- The function `Legend::setDims`: `mDims = dims`, then
`mImage.resize(dims.row * dims.col)`, the product computed in `size_t`, modulo
`2^64`. The result is what `resize` threw, if it did, and the legend
afterwards: `mDims` is assigned before `resize` is called. -/
def Legend.setDims {LUT : Type} (allocates : Nat → Bool) (l : Legend LUT) (dims : RowCol) :
    Option ResizeThrow × Legend LUT :=
  match resizeChecked allocates l.mImage ((dims.row * dims.col) % 18446744073709551616) with
  | .ok image => (none, { l with mDims := dims, mImage := image })
  | .error t => (some t, { l with mDims := dims })

/-- An allocator that grants every request. -/
def unlimitedMemory : Nat → Bool :=
  fun _ => true

end six

namespace mem

/-- A `T*`: the address it holds, `none` for the null pointer. -/
abbrev Ptr := Option Nat

/-- The function `std::vector<T*>::resize(n)`: the first `n` elements are
kept, and null pointers are appended up to length `n`. -/
def resize (v : List Ptr) (n : Nat) : List Ptr :=
  v.take n ++ List.replicate (n - v.length) none

/-- The class `mem::VectorOfPointers<T>`: its one member `mValues`. -/
structure VectorOfPointers where
  mValues : List Ptr
  deriving DecidableEq, Repr

/-- The default constructor `VectorOfPointers()`. -/
def VectorOfPointers.new : VectorOfPointers :=
  { mValues := [] }

/-- The function `VectorOfPointers::get`. -/
def VectorOfPointers.get (v : VectorOfPointers) : List Ptr :=
  v.mValues

/-- The function `VectorOfPointers::size`. -/
def VectorOfPointers.size (v : VectorOfPointers) : Nat :=
  v.mValues.length

/-- The function `VectorOfPointers::empty`. -/
def VectorOfPointers.empty (v : VectorOfPointers) : Bool :=
  v.mValues.isEmpty

/-- The function `VectorOfPointers::operator[]`, with a `std::ptrdiff_t`
index: `mValues[idx]`. The result is `none` when the read is outside the
vector; a negative index converts to a `size_t` above every vector size. -/
def VectorOfPointers.index (v : VectorOfPointers) (idx : Int) : Option Ptr :=
  if idx < 0 then none else v.mValues[idx.toNat]?

/-- The function `VectorOfPointers::back`: `mValues.back()`, `none` when the
vector is empty and the read is outside it. -/
def VectorOfPointers.back (v : VectorOfPointers) : Option Ptr :=
  v.mValues.getLast?

/-- The function `VectorOfPointers::push_back(std::auto_ptr<T>)`:
`mValues.resize(mValues.size() + 1)` and then `mValues.back() = value.release()`. -/
def VectorOfPointers.push_back_owned (v : VectorOfPointers) (value : Ptr) : VectorOfPointers :=
  let resized := resize v.mValues (v.mValues.length + 1)
  { mValues := resized.set (resized.length - 1) value }

/-- The function `VectorOfPointers::push_back(T*)`: the pointer is wrapped in
an `auto_ptr`, which the other overload releases into the vector. -/
def VectorOfPointers.push_back (v : VectorOfPointers) (value : Ptr) : VectorOfPointers :=
  v.push_back_owned value

/-- The function `VectorOfPointers::clear`: every element is deleted, in index
order, and the vector is emptied. The result is the pointers passed to
`delete` and the container afterwards. -/
def VectorOfPointers.clear (v : VectorOfPointers) : List Ptr × VectorOfPointers :=
  ((List.range v.mValues.length).filterMap (fun ii => v.mValues[ii]?), { mValues := [] })

end mem

namespace six

/-- The function `types::RowCol<size_t>::area`: the product, in `size_t`. -/
def RowCol.area (d : RowCol) : Nat :=
  d.row * d.col % 2 ^ 64

/-- The function `std::vector<T>::resize(n)`: the first `n` elements are kept,
and value-initialised elements `zero` are appended up to length `n`. -/
def vectorResize {T : Type} (zero : T) (v : List T) (n : Nat) : List T :=
  v.take n ++ List.replicate (n - v.length) zero

/-- The call `::memcpy(output + dst, orig + src, n * sizeof(T))` between two
vectors of `T`: `n` elements of `orig` from index `src` replace those of
`output` from index `dst`. The result is `none` when an element read is
outside `orig` or an element written is outside `output`. -/
def memcpyElems {T : Type} (output orig : List T) (dst src n : Nat) : Option (List T) :=
  if src + n ≤ orig.length ∧ dst + n ≤ output.length then
    some (output.take dst ++ (orig.drop src).take n ++ output.drop (dst + n))
  else none

/-- The loop of `subsetData`, with `remaining = dims.row - row` iterations to
go: one `memcpy` of `numCols = dims.col` elements, then `origPtr += origNumCols`
and `outputPtr += dims.col`. Pointers are element indices into `orig` and
`output`. -/
def subsetLoop {T : Type} (orig : List T) (origNumCols numCols : Nat) :
    Nat → Nat → Nat → List T → Option (List T)
  | 0, _, _, output => some output
  | remaining + 1, origPtr, outputPtr, output =>
      match memcpyElems output orig outputPtr origPtr numCols with
      | none => none
      | some copied =>
          subsetLoop orig origNumCols numCols remaining (origPtr + origNumCols)
            (outputPtr + numCols) copied

/-- The function `subsetData` of `test_create_sicd_from_mem.cpp`; `output` is
the vector passed in, the result is the vector afterwards. The result is
`none` when the call reads or writes outside a vector: `&orig[0]` or
`&output[0]` on an empty vector, or a `memcpy` out of range. -/
def subsetData {T : Type} (zero : T) (orig : List T) (origNumCols : Nat)
    (offset dims : RowCol) (output : List T) : Option (List T) :=
  let resized := vectorResize zero output dims.area
  if orig.length = 0 then none
  else if resized.length = 0 then none
  else
    subsetLoop orig origNumCols dims.col dims.row
      (offset.row * origNumCols % 2 ^ 64 + offset.col) 0 resized

/-- A 3 by 4 image holding 0..11 in row-major order. -/
def smallImage : List Nat :=
  [0, 1, 2, 3, 4, 5, 6, 7, 8, 9, 10, 11]

end six

/-! # Theorems -/

namespace nitf

/-! ## The compression adapters -/

theorem success_ne_failure : NRT_SUCCESS ≠ NRT_FAILURE := by decide

/-- C1: for each of `adapterStart`, `adapterWriteBlock` and `adapterEnd`, for
every compressor, every collaborator and all argument values, the adapter
returns `NRT_SUCCESS` exactly when the compressor's operation was run and
completed without raising, and returns `NRT_FAILURE` in every other case, so
in particular whenever the operation raised, whatever it raised. The adapters
are total functions into the result record: nothing propagates to the
caller. -/
theorem adapter_returns_success_iff_operation_completes {H S W : Type}
    (x : Externals H S) (c : Compressor S W) (offset dataLength : Nat)
    (blockMask padMask : Option Nat) (io : H) (data : List Nat)
    (pad noData : NITF_BOOL) (error : nitf_Error) (w : W) :
    ((adapterStart x c offset dataLength blockMask padMask error w).status = NRT_SUCCESS
        ↔ (c.start offset dataLength blockMask padMask w).1 = none)
    ∧ ((adapterStart x c offset dataLength blockMask padMask error w).status = NRT_FAILURE
        ↔ ∃ t, (c.start offset dataLength blockMask padMask w).1 = some t)
    ∧ ((adapterWriteBlock x c io data pad noData error w).status = NRT_SUCCESS
        ↔ ∃ s, x.wrapStream io = .ok s
            ∧ (c.writeBlock s data pad noData w).1 = none)
    ∧ ((adapterWriteBlock x c io data pad noData error w).status = NRT_FAILURE
        ↔ ¬ ∃ s, x.wrapStream io = .ok s
            ∧ (c.writeBlock s data pad noData w).1 = none)
    ∧ ((adapterEnd x c io error w).status = NRT_SUCCESS
        ↔ ∃ s, x.wrapStream io = .ok s ∧ (c.end_ s w).1 = none)
    ∧ ((adapterEnd x c io error w).status = NRT_FAILURE
        ↔ ¬ ∃ s, x.wrapStream io = .ok s ∧ (c.end_ s w).1 = none) := by
  refine ⟨?_, ?_, ?_, ?_, ?_, ?_⟩
  · unfold adapterStart
    rcases h : c.start offset dataLength blockMask padMask w with ⟨_ | t, w1⟩ <;>
      simp [NRT_SUCCESS, NRT_FAILURE]
  · unfold adapterStart
    rcases h : c.start offset dataLength blockMask padMask w with ⟨_ | t, w1⟩ <;>
      simp [NRT_SUCCESS, NRT_FAILURE]
  · unfold adapterWriteBlock
    cases hs : x.wrapStream io with
    | error t => simp [NRT_SUCCESS, NRT_FAILURE]
    | ok s =>
      rcases h : c.writeBlock s data pad noData w with ⟨_ | t, w1⟩ <;>
        simp [NRT_SUCCESS, NRT_FAILURE, h]
  · unfold adapterWriteBlock
    cases hs : x.wrapStream io with
    | error t => simp [NRT_SUCCESS, NRT_FAILURE]
    | ok s =>
      rcases h : c.writeBlock s data pad noData w with ⟨_ | t, w1⟩ <;>
        simp [NRT_SUCCESS, NRT_FAILURE, h]
  · unfold adapterEnd
    cases hs : x.wrapStream io with
    | error t => simp [NRT_SUCCESS, NRT_FAILURE]
    | ok s =>
      rcases h : c.end_ s w with ⟨_ | t, w1⟩ <;> simp [NRT_SUCCESS, NRT_FAILURE, h]
  · unfold adapterEnd
    cases hs : x.wrapStream io with
    | error t => simp [NRT_SUCCESS, NRT_FAILURE]
    | ok s =>
      rcases h : c.end_ s w with ⟨_ | t, w1⟩ <;> simp [NRT_SUCCESS, NRT_FAILURE, h]

theorem adapterStart_of_none {H S W : Type} (x : Externals H S) (c : Compressor S W)
    (offset dataLength : Nat) (blockMask padMask : Option Nat) (error : nitf_Error)
    (w w1 : W) (h : c.start offset dataLength blockMask padMask w = (none, w1)) :
    adapterStart x c offset dataLength blockMask padMask error w
      = { status := NRT_SUCCESS, error := error, world := w1 } := by
  simp [adapterStart, h]

theorem adapterStart_of_some {H S W : Type} (x : Externals H S) (c : Compressor S W)
    (offset dataLength : Nat) (blockMask padMask : Option Nat) (error : nitf_Error)
    (w w1 : W) (t : Thrown)
    (h : c.start offset dataLength blockMask padMask w = (some t, w1)) :
    adapterStart x c offset dataLength blockMask padMask error w
      = { status := NRT_FAILURE, error := translate x error 45 51 57 "adapterStart" t,
          world := w1 } := by
  simp [adapterStart, h]

theorem adapterWriteBlock_of_none {H S W : Type} (x : Externals H S)
    (c : Compressor S W) (io : H) (s : S) (data : List Nat) (pad noData : NITF_BOOL)
    (error : nitf_Error) (w w1 : W) (hs : x.wrapStream io = .ok s)
    (h : c.writeBlock s data pad noData w = (none, w1)) :
    adapterWriteBlock x c io data pad noData error w
      = { status := NRT_SUCCESS, error := error, world := w1 } := by
  unfold adapterWriteBlock
  simp only [hs, h]

theorem adapterWriteBlock_of_some {H S W : Type} (x : Externals H S)
    (c : Compressor S W) (io : H) (s : S) (data : List Nat) (pad noData : NITF_BOOL)
    (error : nitf_Error) (w w1 : W) (t : Thrown) (hs : x.wrapStream io = .ok s)
    (h : c.writeBlock s data pad noData w = (some t, w1)) :
    adapterWriteBlock x c io data pad noData error w
      = { status := NRT_FAILURE,
          error := translate x error 83 89 95 "adapterWriteBlock" t, world := w1 } := by
  unfold adapterWriteBlock
  simp only [hs, h]

theorem adapterEnd_of_none {H S W : Type} (x : Externals H S)
    (c : Compressor S W) (io : H) (s : S) (error : nitf_Error) (w w1 : W)
    (hs : x.wrapStream io = .ok s) (h : c.end_ s w = (none, w1)) :
    adapterEnd x c io error w = { status := NRT_SUCCESS, error := error, world := w1 } := by
  unfold adapterEnd
  simp only [hs, h]

theorem adapterEnd_of_some {H S W : Type} (x : Externals H S)
    (c : Compressor S W) (io : H) (s : S) (error : nitf_Error) (w w1 : W) (t : Thrown)
    (hs : x.wrapStream io = .ok s) (h : c.end_ s w = (some t, w1)) :
    adapterEnd x c io error w
      = { status := NRT_FAILURE, error := translate x error 115 121 127 "adapterEnd" t,
          world := w1 } := by
  unfold adapterEnd
  simp only [hs, h]

theorem translate_eq_init {H S : Type} (x : Externals H S) (error : nitf_Error)
    (l1 l2 l3 : Int) (func : String) (t : Thrown) :
    ∃ line, translate x error l1 l2 l3 func t
      = x.nrt_Error_init error t.text x.NRT_FILE line func x.NRT_ERR_COMPRESSION := by
  cases t with
  | exceptException msg => exact ⟨l1, rfl⟩
  | stdException what => exact ⟨l2, rfl⟩
  | other v => exact ⟨l3, rfl⟩

/-- C2: whenever the compressor's operation raises `t` inside `adapterStart`,
`adapterWriteBlock` or `adapterEnd`, the error record handed back is the
result of `nrt_Error_init` on the caller's record with the code
`NRT_ERR_COMPRESSION` and the message `t.text` (`getMessage()` of an
`except::Exception`, `what()` of another `std::exception`, `"Unknown error"`
for anything else); when the operation completes without raising, the record
is the caller's, unchanged. -/
theorem adapter_error_record {H S W : Type}
    (x : Externals H S) (c : Compressor S W) (offset dataLength : Nat)
    (blockMask padMask : Option Nat) (io : H) (data : List Nat)
    (pad noData : NITF_BOOL) (error : nitf_Error) (w : W) :
    (∀ t, (c.start offset dataLength blockMask padMask w).1 = some t →
        ∃ line, (adapterStart x c offset dataLength blockMask padMask error w).error
          = x.nrt_Error_init error t.text x.NRT_FILE line "adapterStart"
              x.NRT_ERR_COMPRESSION)
    ∧ ((c.start offset dataLength blockMask padMask w).1 = none →
        (adapterStart x c offset dataLength blockMask padMask error w).error = error)
    ∧ (∀ s t, x.wrapStream io = .ok s →
        (c.writeBlock s data pad noData w).1 = some t →
        ∃ line, (adapterWriteBlock x c io data pad noData error w).error
          = x.nrt_Error_init error t.text x.NRT_FILE line "adapterWriteBlock"
              x.NRT_ERR_COMPRESSION)
    ∧ (∀ s, x.wrapStream io = .ok s →
        (c.writeBlock s data pad noData w).1 = none →
        (adapterWriteBlock x c io data pad noData error w).error = error)
    ∧ (∀ s t, x.wrapStream io = .ok s → (c.end_ s w).1 = some t →
        ∃ line, (adapterEnd x c io error w).error
          = x.nrt_Error_init error t.text x.NRT_FILE line "adapterEnd"
              x.NRT_ERR_COMPRESSION)
    ∧ (∀ s, x.wrapStream io = .ok s → (c.end_ s w).1 = none →
        (adapterEnd x c io error w).error = error) := by
  refine ⟨?_, ?_, ?_, ?_, ?_, ?_⟩
  · intro t ht
    rcases h : c.start offset dataLength blockMask padMask w with ⟨_ | u, w1⟩
    · rw [h] at ht; cases ht
    · rw [h] at ht; cases ht
      rw [adapterStart_of_some x c _ _ _ _ error w w1 t h]
      exact translate_eq_init x error 45 51 57 "adapterStart" t
  · intro hn
    rcases h : c.start offset dataLength blockMask padMask w with ⟨_ | u, w1⟩
    · rw [adapterStart_of_none x c _ _ _ _ error w w1 h]
    · rw [h] at hn; cases hn
  · intro s t hs ht
    rcases h : c.writeBlock s data pad noData w
      with ⟨_ | u, w1⟩
    · rw [h] at ht; cases ht
    · rw [h] at ht; cases ht
      rw [adapterWriteBlock_of_some x c io s data pad noData error w w1 t hs h]
      exact translate_eq_init x error 83 89 95 "adapterWriteBlock" t
  · intro s hs hn
    rcases h : c.writeBlock s data pad noData w
      with ⟨_ | u, w1⟩
    · rw [adapterWriteBlock_of_none x c io s data pad noData error w w1 hs h]
    · rw [h] at hn; cases hn
  · intro s t hs ht
    rcases h : c.end_ s w with ⟨_ | u, w1⟩
    · rw [h] at ht; cases ht
    · rw [h] at ht; cases ht
      rw [adapterEnd_of_some x c io s error w w1 t hs h]
      exact translate_eq_init x error 115 121 127 "adapterEnd" t
  · intro s hs hn
    rcases h : c.end_ s w with ⟨_ | u, w1⟩
    · rw [adapterEnd_of_none x c io s error w w1 hs h]
    · rw [h] at hn; cases hn

/-- Witness for C2: a codec whose `start` throws a `std::exception` with text
`"disk full"`, and the recording codec, which never throws. -/
theorem adapter_error_record_witness :
    (∃ line, (adapterStart plainExternals (failingCompressor (.stdException "disk full"))
          0 8 none none noError []).error
        = storeError noError "disk full" "CompressionInterface.cpp" line "adapterStart" 15)
    ∧ (adapterEnd plainExternals recordingCompressor 0 noError []).error = noError :=
  ⟨(adapter_error_record plainExternals (failingCompressor (.stdException "disk full"))
      0 8 none none 0 [] 0 0 noError []).1 (.stdException "disk full") rfl,
   (adapter_error_record plainExternals recordingCompressor
      0 8 none none 0 [] 0 0 noError []).2.2.2.2.2 0 rfl rfl⟩

/-- C3: `adapterDestroy` with a null handle pointer, or on a handle whose value
is `NULL`, changes nothing and deletes nothing; on a live handle it deletes
that compressor once (the deletion record grows by exactly that one entry),
sets the handle to `NULL` and leaves every other handle alone; and calling it
twice in succession leaves the state one call leaves. -/
theorem adapterDestroy_once_and_idempotent (object : Option Nat) (m : Heap) :
    adapterDestroy none m = m
    ∧ (∀ p, m.slots p = none → adapterDestroy (some p) m = m)
    ∧ (∀ p c, m.slots p = some c →
        (adapterDestroy (some p) m).deleted = m.deleted ++ [c]
        ∧ (adapterDestroy (some p) m).slots p = none
        ∧ ∀ q, q ≠ p → (adapterDestroy (some p) m).slots q = m.slots q)
    ∧ adapterDestroy object (adapterDestroy object m) = adapterDestroy object m := by
  refine ⟨rfl, ?_, ?_, ?_⟩
  · intro p hp
    simp [adapterDestroy, hp]
  · intro p c hp
    refine ⟨by simp [adapterDestroy, hp], by simp [adapterDestroy, hp], ?_⟩
    intro q hq
    simp [adapterDestroy, hp, hq]
  · cases object with
    | none => rfl
    | some p =>
      cases hp : m.slots p with
      | none => simp [adapterDestroy, hp]
      | some c => simp [adapterDestroy, hp]

/-- Witness for C3: destroying the live handle at address 0 deletes compressor
7 once; the handle at address 1 is `NULL` and destroying it does nothing. -/
theorem adapterDestroy_once_and_idempotent_witness :
    (adapterDestroy (some 0) oneLiveHandle).deleted = [7]
    ∧ (adapterDestroy (some 0) oneLiveHandle).slots 0 = none
    ∧ adapterDestroy (some 1) oneLiveHandle = oneLiveHandle
    ∧ (adapterDestroy (some 0) (adapterDestroy (some 0) oneLiveHandle)).deleted = [7] :=
  ⟨((adapterDestroy_once_and_idempotent (some 0) oneLiveHandle).2.2.1 0 7 rfl).1,
   ((adapterDestroy_once_and_idempotent (some 0) oneLiveHandle).2.2.1 0 7 rfl).2.1,
   (adapterDestroy_once_and_idempotent (some 0) oneLiveHandle).2.1 1 rfl,
   by rw [(adapterDestroy_once_and_idempotent (some 0) oneLiveHandle).2.2.2]; rfl⟩

/-- C4, as stated, fails: on a fresh codec (no `start` yet) `adapterWriteBlock`
reaches the codec's `writeBlock` and returns `NRT_SUCCESS`; and after
`start`, `end`, a second `adapterEnd` reaches the codec's `end` again and
returns `NRT_SUCCESS`. -/
theorem lifecycle_order_not_enforced :
    (adapterWriteBlock plainExternals recordingCompressor 0 [1, 2] 0 0 noError []).status
        = NRT_SUCCESS
    ∧ (adapterWriteBlock plainExternals recordingCompressor 0 [1, 2] 0 0 noError []).world
        = ["writeBlock"]
    ∧ (adapterEnd plainExternals recordingCompressor 0 noError
        (adapterEnd plainExternals recordingCompressor 0 noError
          (adapterStart plainExternals recordingCompressor 0 8 none none noError
            []).world).world).status = NRT_SUCCESS
    ∧ (adapterEnd plainExternals recordingCompressor 0 noError
        (adapterEnd plainExternals recordingCompressor 0 noError
          (adapterStart plainExternals recordingCompressor 0 8 none none noError
            []).world).world).world = ["start", "end", "end"] :=
  ⟨rfl, rfl, rfl, rfl⟩

/-- C4, amended: the adapters keep no lifecycle state. In every world, whatever
calls came before, `adapterWriteBlock` and `adapterEnd` hand the call to the
codec (the world they return is the one the codec's operation left), return
`NRT_SUCCESS` exactly when the codec's operation did not raise, and
`NRT_FAILURE` exactly when it raised. -/
theorem adapters_forward_in_every_state {H S W : Type}
    (x : Externals H S) (c : Compressor S W) (io : H) (s : S) (data : List Nat)
    (pad noData : NITF_BOOL) (error : nitf_Error) (w : W)
    (hs : x.wrapStream io = .ok s) :
    (adapterWriteBlock x c io data pad noData error w).world
        = (c.writeBlock s data pad noData w).2
    ∧ ((adapterWriteBlock x c io data pad noData error w).status = NRT_SUCCESS
        ↔ (c.writeBlock s data pad noData w).1 = none)
    ∧ ((adapterWriteBlock x c io data pad noData error w).status = NRT_FAILURE
        ↔ ∃ t, (c.writeBlock s data pad noData w).1 = some t)
    ∧ (adapterEnd x c io error w).world = (c.end_ s w).2
    ∧ ((adapterEnd x c io error w).status = NRT_SUCCESS ↔ (c.end_ s w).1 = none)
    ∧ ((adapterEnd x c io error w).status = NRT_FAILURE
        ↔ ∃ t, (c.end_ s w).1 = some t) := by
  have hw : (adapterWriteBlock x c io data pad noData error w).world
        = (c.writeBlock s data pad noData w).2
      ∧ ((adapterWriteBlock x c io data pad noData error w).status = NRT_SUCCESS
        ↔ (c.writeBlock s data pad noData w).1 = none)
      ∧ ((adapterWriteBlock x c io data pad noData error w).status = NRT_FAILURE
        ↔ ∃ t, (c.writeBlock s data pad noData w).1
            = some t) := by
    rcases h : c.writeBlock s data pad noData w
      with ⟨_ | t, w1⟩
    · rw [adapterWriteBlock_of_none x c io s data pad noData error w w1 hs h]
      simp [NRT_SUCCESS, NRT_FAILURE]
    · rw [adapterWriteBlock_of_some x c io s data pad noData error w w1 t hs h]
      simp [NRT_SUCCESS, NRT_FAILURE]
  have he : (adapterEnd x c io error w).world = (c.end_ s w).2
      ∧ ((adapterEnd x c io error w).status = NRT_SUCCESS ↔ (c.end_ s w).1 = none)
      ∧ ((adapterEnd x c io error w).status = NRT_FAILURE
        ↔ ∃ t, (c.end_ s w).1 = some t) := by
    rcases h : c.end_ s w with ⟨_ | t, w1⟩
    · rw [adapterEnd_of_none x c io s error w w1 hs h]
      simp [NRT_SUCCESS, NRT_FAILURE]
    · rw [adapterEnd_of_some x c io s error w w1 t hs h]
      simp [NRT_SUCCESS, NRT_FAILURE]
  exact ⟨hw.1, hw.2.1, hw.2.2, he.1, he.2.1, he.2.2⟩

/-- Witness for C4 amended: the recording codec behind the plain
collaborators, on a world in which `end` has already been called. -/
theorem adapters_forward_in_every_state_witness :
    (adapterEnd plainExternals recordingCompressor 0 noError ["start", "end"]).world
        = ["start", "end", "end"]
    ∧ (adapterWriteBlock plainExternals recordingCompressor 0 [] 1 0 noError []).world
        = ["writeBlock"] :=
  ⟨(adapters_forward_in_every_state plainExternals recordingCompressor 0 0 [] 1 0 noError
      ["start", "end"] rfl).2.2.2.1,
   (adapters_forward_in_every_state plainExternals recordingCompressor 0 0 [] 1 0 noError
      [] rfl).1⟩

end nitf

namespace six

/-! ## The segmentation planner -/

theorem tiles_le {a b : Nat} {segs : List Segment} (h : Tiles a b segs) : a ≤ b := by
  induction segs generalizing a with
  | nil => exact Nat.le_of_eq h
  | cons x rest ih =>
    obtain ⟨h1, h2, h3⟩ := h
    have := ih h3
    omega

theorem tiles_mem {a b : Nat} {segs : List Segment} (h : Tiles a b segs) :
    ∀ s ∈ segs, a ≤ s.startRow ∧ s.startRow < s.endRow ∧ s.endRow ≤ b := by
  induction segs generalizing a with
  | nil => intro s hs; cases hs
  | cons x rest ih =>
    obtain ⟨h1, h2, h3⟩ := h
    intro s hs
    rcases List.mem_cons.mp hs with rfl | hs
    · exact ⟨Nat.le_of_eq h1.symm, h2, tiles_le h3⟩
    · obtain ⟨k1, k2, k3⟩ := ih h3 s hs
      exact ⟨by omega, k2, k3⟩

theorem tiles_head {a b : Nat} {segs : List Segment} (h : Tiles a b segs) (hab : a < b) :
    segs.head?.map Segment.startRow = some a := by
  cases segs with
  | nil => exact absurd h (Nat.ne_of_lt hab)
  | cons x rest => simp [h.1]

theorem tiles_last {a b : Nat} {segs : List Segment} (h : Tiles a b segs) (hab : a < b) :
    segs.getLast?.map Segment.endRow = some b := by
  induction segs generalizing a with
  | nil => exact absurd h (Nat.ne_of_lt hab)
  | cons x rest ih =>
    obtain ⟨h1, h2, h3⟩ := h
    cases rest with
    | nil =>
      have : x.endRow = b := h3
      simp [this]
    | cons y more =>
      have hlt : x.endRow < b := by
        have hy := h3
        obtain ⟨k1, k2, k3⟩ := hy
        have := tiles_le k3
        omega
      have := ih h3 hlt
      simpa [List.getLast?_cons_cons] using this

theorem tiles_chain {a b : Nat} {segs : List Segment} (h : Tiles a b segs) :
    ∀ i s t, segs[i]? = some s → segs[i + 1]? = some t → s.endRow = t.startRow := by
  induction segs generalizing a with
  | nil => intro i s t hs; simp at hs
  | cons x rest ih =>
    obtain ⟨h1, h2, h3⟩ := h
    intro i s t hs ht
    cases i with
    | zero =>
      simp at hs
      subst hs
      cases rest with
      | nil => simp at ht
      | cons y more =>
        simp at ht
        subst ht
        exact h3.1.symm
    | succ j =>
      simp at hs ht
      exact ih h3 j s t hs ht

theorem tiles_cover {a b : Nat} {segs : List Segment} (h : Tiles a b segs) :
    ∀ row, a ≤ row → row < b → ∃ s ∈ segs, s.startRow ≤ row ∧ row < s.endRow := by
  induction segs generalizing a with
  | nil =>
    intro row h1 h2
    have : a = b := h
    omega
  | cons x rest ih =>
    obtain ⟨h1, h2, h3⟩ := h
    intro row hr1 hr2
    by_cases hx : row < x.endRow
    · exact ⟨x, List.mem_cons_self _ _, by omega, hx⟩
    · obtain ⟨s, hs, k⟩ := ih h3 row (by omega) hr2
      exact ⟨s, List.mem_cons_of_mem _ hs, k⟩

theorem tiles_pairwise {a b : Nat} {segs : List Segment} (h : Tiles a b segs) :
    segs.Pairwise (fun s t => s.endRow ≤ t.startRow) := by
  induction segs generalizing a with
  | nil => exact List.Pairwise.nil
  | cons x rest ih =>
    obtain ⟨h1, h2, h3⟩ := h
    refine List.Pairwise.cons ?_ (ih h3)
    intro t ht
    exact (tiles_mem h3 t ht).1

theorem planFrom_tiles (totalRows bytesPerRow r : Nat) (hr : 0 < r) :
    ∀ fuel start index offset, start ≤ totalRows → totalRows - start ≤ fuel →
      Tiles start totalRows (planFrom totalRows bytesPerRow r fuel start index offset) := by
  intro fuel
  induction fuel with
  | zero =>
    intro start index offset h1 h2
    show start = totalRows
    omega
  | succ fuel ih =>
    intro start index offset h1 h2
    unfold planFrom
    by_cases hlt : start < totalRows
    · rw [if_pos hlt]
      refine ⟨rfl, ?_, ?_⟩
      · show start < start + min r (totalRows - start)
        have : 0 < min r (totalRows - start) := by
          rw [Nat.lt_min]; exact ⟨hr, by omega⟩
        omega
      · have hle : min r (totalRows - start) ≤ totalRows - start := Nat.min_le_right _ _
        have hpos : 0 < min r (totalRows - start) := by
          rw [Nat.lt_min]; exact ⟨hr, by omega⟩
        show Tiles (start + min r (totalRows - start)) totalRows _
        exact ih _ _ _ (by omega) (by omega)
    · rw [if_neg hlt]
      show start = totalRows
      omega

theorem planErrors_nil_iff (totalRows totalCols bytesPerRow : Nat)
    (maxBytesPerSegment maxRowsPerSegment : Int) :
    planErrors totalRows totalCols bytesPerRow maxBytesPerSegment maxRowsPerSegment = []
      ↔ (bytesPerRow : Int) ≤ maxBytesPerSegment ∧ 0 < totalRows ∧ 0 < totalCols
          ∧ 0 < bytesPerRow ∧ 0 < maxBytesPerSegment ∧ 0 < maxRowsPerSegment := by
  unfold planErrors
  constructor
  · intro h
    rw [List.append_eq_nil] at h
    obtain ⟨h2, h1⟩ := h
    by_cases c1 : maxBytesPerSegment < (bytesPerRow : Int)
    · rw [if_pos c1] at h1; cases h1
    · by_cases c2 : totalRows = 0 ∨ totalCols = 0 ∨ bytesPerRow = 0
          ∨ maxBytesPerSegment ≤ 0 ∨ maxRowsPerSegment ≤ 0
      · rw [if_pos c2] at h2; cases h2
      · push_neg at c2
        omega
  · rintro ⟨h1, h2, h3, h4, h5, h6⟩
    rw [if_neg (by omega), if_neg (by omega)]
    rfl

theorem plan_eq_ok_iff (totalRows totalCols bytesPerRow : Nat)
    (maxBytesPerSegment maxRowsPerSegment : Int) (segs : List Segment) :
    plan totalRows totalCols bytesPerRow maxBytesPerSegment maxRowsPerSegment = .ok segs
      ↔ planErrors totalRows totalCols bytesPerRow maxBytesPerSegment maxRowsPerSegment = []
        ∧ segs = planFrom totalRows bytesPerRow
            (rowsPerSegment bytesPerRow maxBytesPerSegment maxRowsPerSegment)
            totalRows 0 0 0 := by
  unfold plan
  cases h : planErrors totalRows totalCols bytesPerRow maxBytesPerSegment maxRowsPerSegment with
  | nil =>
    simp only [true_and]
    constructor
    · intro k
      injection k with k
      exact k.symm
    · intro k
      rw [k]
  | cons e es =>
    constructor
    · intro k; cases k
    · intro k; cases k.1

theorem rowsPerSegment_pos (bytesPerRow : Nat) (maxBytesPerSegment maxRowsPerSegment : Int)
    (h1 : (bytesPerRow : Int) ≤ maxBytesPerSegment) (h2 : 0 < bytesPerRow)
    (h3 : 0 < maxRowsPerSegment) :
    0 < rowsPerSegment bytesPerRow maxBytesPerSegment maxRowsPerSegment := by
  unfold rowsPerSegment
  rw [Nat.lt_min]
  constructor
  · omega
  · apply Nat.div_pos _ h2
    omega

theorem plan_tiles (totalRows totalCols bytesPerRow : Nat)
    (maxBytesPerSegment maxRowsPerSegment : Int) (segs : List Segment)
    (h : plan totalRows totalCols bytesPerRow maxBytesPerSegment maxRowsPerSegment
          = .ok segs) :
    Tiles 0 totalRows segs := by
  rw [plan_eq_ok_iff] at h
  obtain ⟨he, hs⟩ := h
  rw [planErrors_nil_iff] at he
  obtain ⟨h1, h2, h3, h4, h5, h6⟩ := he
  rw [hs]
  exact planFrom_tiles totalRows bytesPerRow _
    (rowsPerSegment_pos bytesPerRow _ _ h1 h4 h6) totalRows 0 0 0 (Nat.zero_le _)
    (by omega)

/-- C9: for `totalRows > 0`, `maxRowsPerSegment > 0` and `maxBytesPerSegment > 0`,
every plan that `plan` returns partitions `[0, totalRows)`: the first segment
starts at row 0, each segment starts where the previous one ends, the last
ends at `totalRows`, no segment is empty, a row lies in some segment exactly
when it is below `totalRows`, and earlier segments end before later ones
start. And `plan` does return a plan as soon as, in addition, the image has a
column and a row of it fits in a segment. -/
theorem plan_partitions_rows (totalRows totalCols bytesPerRow : Nat)
    (maxBytesPerSegment maxRowsPerSegment : Int)
    (hrows : 0 < totalRows) (hmaxRows : 0 < maxRowsPerSegment)
    (hmaxBytes : 0 < maxBytesPerSegment) :
    (∀ segs, plan totalRows totalCols bytesPerRow maxBytesPerSegment maxRowsPerSegment
          = .ok segs →
        segs.head?.map Segment.startRow = some 0
        ∧ (∀ i s t, segs[i]? = some s → segs[i + 1]? = some t → s.endRow = t.startRow)
        ∧ segs.getLast?.map Segment.endRow = some totalRows
        ∧ (∀ s ∈ segs, s.startRow < s.endRow)
        ∧ (∀ row, row < totalRows ↔ ∃ s ∈ segs, s.startRow ≤ row ∧ row < s.endRow)
        ∧ segs.Pairwise (fun s t => s.endRow ≤ t.startRow))
    ∧ (0 < totalCols → 0 < bytesPerRow → (bytesPerRow : Int) ≤ maxBytesPerSegment →
        ∃ segs, plan totalRows totalCols bytesPerRow maxBytesPerSegment maxRowsPerSegment
          = .ok segs) := by
  constructor
  · intro segs h
    have ht := plan_tiles _ _ _ _ _ _ h
    refine ⟨tiles_head ht hrows, tiles_chain ht, tiles_last ht hrows,
      fun s hs => (tiles_mem ht s hs).2.1, ?_, tiles_pairwise ht⟩
    intro row
    constructor
    · intro hr
      exact tiles_cover ht row (Nat.zero_le _) hr
    · rintro ⟨s, hs, h1, h2⟩
      have := (tiles_mem ht s hs).2.2
      omega
  · intro hc hb hfit
    refine ⟨_, (plan_eq_ok_iff _ _ _ _ _ _).mpr ⟨?_, rfl⟩⟩
    rw [planErrors_nil_iff]
    exact ⟨hfit, hrows, hc, hb, hmaxBytes, hmaxRows⟩

/-- Witness for C9: ten rows of 8 bytes, at most 4 rows and 100 bytes per
segment; the plan is `[0,4)`, `[4,8)`, `[8,10)`. -/
theorem plan_partitions_rows_witness :
    (∃ segs, plan 10 2 8 100 4 = .ok segs)
    ∧ ∀ row, row < 10 ↔
        ∃ s ∈ planFrom 10 8 (rowsPerSegment 8 100 4) 10 0 0 0,
          s.startRow ≤ row ∧ row < s.endRow :=
  ⟨(plan_partitions_rows 10 2 8 100 4 (by decide) (by decide) (by decide)).2
      (by decide) (by decide) (by decide),
   ((plan_partitions_rows 10 2 8 100 4 (by decide) (by decide) (by decide)).1
      _ rfl).2.2.2.2.1⟩

/-- C10: for `totalRows = 123` and `maxRowsPerSegment = 50`, with a byte
ceiling that does not bind (50 rows fit under `maxBytesPerSegment`), `plan`
returns exactly the three segments `[0,50)`, `[50,100)`, `[100,123)`, in that
order. -/
theorem plan_123_rows_by_50 (totalCols bytesPerRow : Nat) (maxBytesPerSegment : Int)
    (hcols : 0 < totalCols) (hbytes : 0 < bytesPerRow)
    (hfit : (50 * bytesPerRow : Int) ≤ maxBytesPerSegment) :
    (plan 123 totalCols bytesPerRow maxBytesPerSegment 50).map rowRanges
      = .ok [(0, 50), (50, 100), (100, 123)] := by
  have hr : rowsPerSegment bytesPerRow maxBytesPerSegment 50 = 50 := by
    unfold rowsPerSegment
    have h1 : 50 ≤ maxBytesPerSegment.toNat / bytesPerRow := by
      rw [Nat.le_div_iff_mul_le hbytes]
      omega
    have h2 : (50 : Int).toNat = 50 := rfl
    rw [h2]
    exact Nat.min_eq_left h1
  have he : planErrors 123 totalCols bytesPerRow maxBytesPerSegment 50 = [] := by
    rw [planErrors_nil_iff]
    refine ⟨by omega, by decide, hcols, hbytes, by omega, by decide⟩
  rw [(plan_eq_ok_iff 123 totalCols bytesPerRow maxBytesPerSegment 50 _).mpr ⟨he, rfl⟩, hr]
  rfl

/-- Witness for C10: the 123 x 456 test image of 8-byte pixels under a
10,000,000,000-byte ceiling. -/
theorem plan_123_rows_by_50_witness :
    (plan 123 456 3648 10000000000 50).map rowRanges
      = .ok [(0, 50), (50, 100), (100, 123)] :=
  plan_123_rows_by_50 456 3648 10000000000 (by decide) (by decide) (by decide)

end six

namespace six

/-! ## Windowed writes and reads -/

theorem mul_add_lt_mul {c n e b : Nat} (hc : c < n) (hb : b < e) : c * e + b < n * e := by
  have h1 : (c + 1) * e ≤ n * e := Nat.mul_le_mul_right e hc
  have h2 : (c + 1) * e = c * e + e := Nat.succ_mul c e
  omega

theorem mul_add_inj {x y e k k2 : Nat} (hk : k < e) (hk2 : k2 < e)
    (h : x * e + k = y * e + k2) : x = y ∧ k = k2 := by
  have hx : x = y := by
    rcases Nat.lt_trichotomy x y with hlt | heq | hgt
    · have := mul_add_lt_mul hlt hk
      omega
    · exact heq
    · have := mul_add_lt_mul hgt hk2
      omega
  subst hx
  exact ⟨rfl, by omega⟩

theorem applyCopies_agree {β : Type} (cs : List (Copy β)) (a : Nat) (v : β)
    (hagree : ∀ c ∈ cs, c.covers a → c.src (c.srcOff + (a - c.dst)) = v) :
    ∀ mem : Nat → β, (mem a = v ∨ ∃ c ∈ cs, c.covers a) → applyCopies cs mem a = v := by
  induction cs with
  | nil =>
    intro mem h
    rcases h with h | ⟨c, hc, _⟩
    · exact h
    · cases hc
  | cons c rest ih =>
    intro mem h
    show applyCopies rest (c.apply mem) a = v
    apply ih (fun d hd => hagree d (List.mem_cons_of_mem _ hd))
    by_cases hcov : c.covers a
    · left
      show (if c.covers a then c.src (c.srcOff + (a - c.dst)) else mem a) = v
      rw [if_pos hcov]
      exact hagree c (List.mem_cons_self _ _) hcov
    · rcases h with h | ⟨d, hd, hdc⟩
      · left
        show (if c.covers a then c.src (c.srcOff + (a - c.dst)) else mem a) = v
        rw [if_neg hcov]
        exact h
      · rcases List.mem_cons.mp hd with rfl | hd
        · exact absurd hdc hcov
        · exact Or.inr ⟨d, hd, hdc⟩

theorem layout_order {g : ImageGeom} {segs : List Segment} (h : ValidLayout g segs)
    {s t : Segment} (hs : s ∈ segs) (ht : t ∈ segs) :
    s = t
    ∨ (s.endRow ≤ t.startRow
        ∧ s.fileOffset + (s.endRow - s.startRow) * g.rowBytes ≤ t.fileOffset)
    ∨ (t.endRow ≤ s.startRow
        ∧ t.fileOffset + (t.endRow - t.startRow) * g.rowBytes ≤ s.fileOffset) := by
  have hp := List.Pairwise.and (tiles_pairwise h.1) h.2
  have hq : segs.Pairwise (fun s t => s = t
      ∨ (s.endRow ≤ t.startRow
          ∧ s.fileOffset + (s.endRow - s.startRow) * g.rowBytes ≤ t.fileOffset)
      ∨ (t.endRow ≤ s.startRow
          ∧ t.fileOffset + (t.endRow - t.startRow) * g.rowBytes ≤ s.fileOffset)) :=
    hp.imp (fun hab => Or.inr (Or.inl hab))
  refine List.Pairwise.forall_of_forall ?_ ?_ hq hs ht
  · intro a b hab
    rcases hab with rfl | hab | hab
    · exact Or.inl rfl
    · exact Or.inr (Or.inr hab)
    · exact Or.inr (Or.inl hab)
  · intro a _
    exact Or.inl rfl

theorem layout_addr_inj {g : ImageGeom} {segs : List Segment} (h : ValidLayout g segs)
    {s t : Segment} (hs : s ∈ segs) (ht : t ∈ segs) {r r2 k k2 : Nat}
    (hr : s.startRow ≤ r) (hr1 : r < s.endRow) (hr2 : t.startRow ≤ r2) (hr3 : r2 < t.endRow)
    (hk : k < g.rowBytes) (hk2 : k2 < g.rowBytes)
    (e : s.fileOffset + (r - s.startRow) * g.rowBytes + k
          = t.fileOffset + (r2 - t.startRow) * g.rowBytes + k2) :
    r = r2 ∧ k = k2 := by
  have b1 : (r - s.startRow) * g.rowBytes + k < (s.endRow - s.startRow) * g.rowBytes :=
    mul_add_lt_mul (by omega) hk
  have b2 : (r2 - t.startRow) * g.rowBytes + k2 < (t.endRow - t.startRow) * g.rowBytes :=
    mul_add_lt_mul (by omega) hk2
  rcases layout_order h hs ht with rfl | ⟨_, hlt⟩ | ⟨_, hlt⟩
  · have e2 : (r - s.startRow) * g.rowBytes + k = (r2 - s.startRow) * g.rowBytes + k2 := by
      omega
    obtain ⟨e3, e4⟩ := mul_add_inj hk hk2 e2
    exact ⟨by omega, e4⟩
  · omega
  · omega

theorem mem_subRows {segs : List Segment} {W : Window} {seg : Segment} {row : Nat} :
    (seg, row) ∈ subRows segs W
      ↔ seg ∈ segs ∧ seg.startRow ≤ row ∧ row < seg.endRow
          ∧ W.startRow ≤ row ∧ row < W.startRow + W.numRows := by
  unfold subRows
  simp only [List.mem_flatMap, List.mem_map, List.mem_range'_1, Prod.mk.injEq]
  constructor
  · rintro ⟨s, hs, x, ⟨hx1, hx2⟩, rfl, rfl⟩
    refine ⟨hs, ?_, ?_, ?_, ?_⟩ <;> omega
  · rintro ⟨hs, h1, h2, h3, h4⟩
    exact ⟨seg, hs, row, ⟨by omega, by omega⟩, rfl, rfl⟩

theorem mem_cellsOf {W : Window} {r c : Nat} : (r, c) ∈ cellsOf W ↔ W.contains r c := by
  unfold cellsOf Window.contains
  simp only [List.mem_flatMap, List.mem_map, List.mem_range'_1, Prod.mk.injEq]
  constructor
  · rintro ⟨x, ⟨h1, h2⟩, y, ⟨h3, h4⟩, rfl, rfl⟩
    exact ⟨h1, h2, h3, h4⟩
  · rintro ⟨h1, h2, h3, h4⟩
    exact ⟨r, ⟨h1, h2⟩, c, ⟨h3, h4⟩, rfl, rfl⟩

theorem windowData_at {β : Type} (g : ImageGeom) (img : Nat → β) (W : Window) (x j : Nat)
    (hj : j < W.numCols * g.elementSize) :
    windowData g img W (x * (W.numCols * g.elementSize) + j)
      = img ((W.startRow + x) * g.rowBytes + W.startCol * g.elementSize + j) := by
  unfold windowData
  have hpos : 0 < W.numCols * g.elementSize := by omega
  have h1 : (x * (W.numCols * g.elementSize) + j) / (W.numCols * g.elementSize) = x := by
    rw [Nat.add_comm, Nat.add_mul_div_right _ _ hpos, Nat.div_eq_of_lt hj, Nat.zero_add]
  have h2 : (x * (W.numCols * g.elementSize) + j) % (W.numCols * g.elementSize) = j := by
    rw [Nat.add_comm, Nat.add_mul_mod_self_right, Nat.mod_eq_of_lt hj]
  rw [h1, h2]

end six

namespace six

theorem write_stored {β : Type} {g : ImageGeom} {segs : List Segment}
    (hlay : ValidLayout g segs) (img : Nat → β) (W : Window) (hW : W.inBounds g)
    (file : Nat → β) (r k : Nat) (hk : k < g.rowBytes)
    (h : Stored segs g img file r k
          ∨ ∃ c b, W.contains r c ∧ b < g.elementSize ∧ k = c * g.elementSize + b) :
    Stored segs g img
      (applyCopies
        ((subRows segs W).map (fun sr =>
          { dst := subOffset g W sr, len := W.numCols * g.elementSize,
            src := windowData g img W, srcOff := bufferOffset g W sr.2 }))
        file) r k := by
  intro seg0 hseg0 hr0 hr1
  have hcols : (W.startCol + W.numCols) * g.elementSize ≤ g.rowBytes :=
    Nat.mul_le_mul_right _ hW.2
  have hsplit : (W.startCol + W.numCols) * g.elementSize
      = W.startCol * g.elementSize + W.numCols * g.elementSize := Nat.add_mul _ _ _
  apply applyCopies_agree
  · intro c hc hcov
    obtain ⟨⟨seg, row⟩, hsr, rfl⟩ := List.mem_map.mp hc
    obtain ⟨hseg, h1, h2, h3, h4⟩ := mem_subRows.mp hsr
    obtain ⟨hc1, hc2⟩ := hcov
    simp only [subOffset] at hc1 hc2
    simp only [subOffset, bufferOffset]
    have e : seg0.fileOffset + (r - seg0.startRow) * g.rowBytes + k
        = seg.fileOffset + (row - seg.startRow) * g.rowBytes
          + (W.startCol * g.elementSize
              + (seg0.fileOffset + (r - seg0.startRow) * g.rowBytes + k
                  - (seg.fileOffset + (row - seg.startRow) * g.rowBytes
                      + W.startCol * g.elementSize))) := by
      omega
    obtain ⟨e1, e2⟩ := layout_addr_inj hlay hseg0 hseg hr0 hr1 h1 h2 hk (by omega) e
    rw [windowData_at g img W _ _ (by omega)]
    have e3 : W.startRow + (row - W.startRow) = r := by omega
    rw [e3]
    congr 1
    omega
  · rcases h with h | ⟨c, b, hcont, hb, rfl⟩
    · exact Or.inl (h seg0 hseg0 hr0 hr1)
    · right
      obtain ⟨w1, w2, w3, w4⟩ := hcont
      refine ⟨_, List.mem_map.mpr ⟨(seg0, r), mem_subRows.mpr ⟨hseg0, hr0, hr1, w1, w2⟩, rfl⟩, ?_⟩
      have a1 : W.startCol * g.elementSize ≤ c * g.elementSize :=
        Nat.mul_le_mul_right _ w3
      have a2 : c * g.elementSize + b < (W.startCol + W.numCols) * g.elementSize :=
        mul_add_lt_mul w4 hb
      constructor
      · simp only [subOffset]
        omega
      · simp only [subOffset]
        omega

theorem writeWindow_inv {β : Type} {g : ImageGeom} {segs : List Segment}
    (hlay : ValidLayout g segs) (img : Nat → β) (W : Window) (hW : W.inBounds g)
    (s : WriteSession β) (P : Nat → Nat → Prop) (hinv : SessionInv segs g img s P)
    (hnew : ∀ r c, W.contains r c → ¬ P r c) :
    ∃ s1, writeWindow segs g W (windowData g img W) s = .ok s1
      ∧ SessionInv segs g img s1 (fun r c => P r c ∨ W.contains r c) := by
  have hdup : (cellsOf W).any (fun rc => s.written rc.1 rc.2) = false := by
    rw [Bool.eq_false_iff]
    intro hany
    obtain ⟨⟨r, c⟩, hmem, hw⟩ := List.any_eq_true.mp hany
    exact hnew r c (mem_cellsOf.mp hmem) ((hinv.1 r c).mp hw)
  refine ⟨_, by unfold writeWindow; rw [if_neg (not_not.mpr hW), hdup]; rfl, ?_, ?_⟩
  · intro r c
    simp only [Bool.or_eq_true, decide_eq_true_eq]
    rw [hinv.1 r c]
  · intro r c hrc
    have hbounds : r < g.totalRows ∧ c < g.totalCols := by
      rcases hrc with hp | hw
      · exact ⟨(hinv.2 r c hp).1, (hinv.2 r c hp).2.1⟩
      · obtain ⟨w1, w2, w3, w4⟩ := hw
        have := hW.1
        have := hW.2
        exact ⟨by omega, by omega⟩
    refine ⟨hbounds.1, hbounds.2, ?_⟩
    intro b hb
    apply write_stored hlay img W hW s.file r _ (mul_add_lt_mul hbounds.2 hb)
    rcases hrc with hp | hw
    · exact Or.inl ((hinv.2 r c hp).2.2 b hb)
    · exact Or.inr ⟨c, b, hw, hb, rfl⟩

theorem writeAll_inv {β : Type} {g : ImageGeom} {segs : List Segment}
    (hlay : ValidLayout g segs) (img : Nat → β) :
    ∀ (ws : List Window) (s : WriteSession β) (P : Nat → Nat → Prop),
      SessionInv segs g img s P →
      (∀ W ∈ ws, W.inBounds g) →
      (∀ W ∈ ws, ∀ r c, W.contains r c → ¬ P r c) →
      ws.Pairwise Window.disjoint →
      ∃ s1, writeAll segs g (ws.map (fun W => (W, windowData g img W))) s = .ok s1
        ∧ SessionInv segs g img s1 (fun r c => P r c ∨ ∃ W ∈ ws, W.contains r c) := by
  intro ws
  induction ws with
  | nil =>
    intro s P hinv _ _ _
    refine ⟨s, rfl, ?_, ?_⟩
    · intro r c
      rw [hinv.1 r c]
      simp
    · intro r c hrc
      rcases hrc with hp | ⟨W, hW, _⟩
      · exact hinv.2 r c hp
      · cases hW
  | cons W rest ih =>
    intro s P hinv hb hnew hdisj
    obtain ⟨s1, hw, hinv1⟩ := writeWindow_inv hlay img W (hb W (List.mem_cons_self _ _))
      s P hinv (hnew W (List.mem_cons_self _ _))
    rw [List.pairwise_cons] at hdisj
    obtain ⟨s2, hw2, hinv2⟩ := ih s1 (fun r c => P r c ∨ W.contains r c) hinv1
      (fun V hV => hb V (List.mem_cons_of_mem _ hV))
      (by
        intro V hV r c hVc hP
        rcases hP with hP | hWc
        · exact hnew V (List.mem_cons_of_mem _ hV) r c hVc hP
        · exact hdisj.1 V hV r c ⟨hWc, hVc⟩)
      hdisj.2
    refine ⟨s2, ?_, ?_, ?_⟩
    · show (match writeWindow segs g W (windowData g img W) s with
          | .ok s1 => writeAll segs g (rest.map (fun W => (W, windowData g img W))) s1
          | .error e => .error e) = .ok s2
      rw [hw]
      exact hw2
    · intro r c
      rw [hinv2.1 r c]
      constructor
      · rintro ((hp | hw) | ⟨V, hV, hVc⟩)
        · exact Or.inl hp
        · exact Or.inr ⟨W, List.mem_cons_self _ _, hw⟩
        · exact Or.inr ⟨V, List.mem_cons_of_mem _ hV, hVc⟩
      · rintro (hp | ⟨V, hV, hVc⟩)
        · exact Or.inl (Or.inl hp)
        · rcases List.mem_cons.mp hV with rfl | hV
          · exact Or.inl (Or.inr hVc)
          · exact Or.inr ⟨V, hV, hVc⟩
    · intro r c hrc
      apply hinv2.2 r c
      rcases hrc with hp | ⟨V, hV, hVc⟩
      · exact Or.inl (Or.inl hp)
      · rcases List.mem_cons.mp hV with rfl | hV
        · exact Or.inl (Or.inr hVc)
        · exact Or.inr ⟨V, hV, hVc⟩

end six

namespace six

theorem finalize_of_cover {β : Type} {g : ImageGeom} {segs : List Segment} (img : Nat → β)
    (s : WriteSession β) (P : Nat → Nat → Prop) (hinv : SessionInv segs g img s P)
    (hcover : ∀ r c, r < g.totalRows → c < g.totalCols → P r c) :
    finalize g s = .ok s.file := by
  unfold finalize
  have hall : (cellsOf (fullWindow g)).all (fun rc => s.written rc.1 rc.2) = true := by
    rw [List.all_eq_true]
    rintro ⟨r, c⟩ hmem
    obtain ⟨_, h2, _, h4⟩ := mem_cellsOf.mp hmem
    simp only [fullWindow] at h2 h4
    exact (hinv.1 r c).mpr (hcover r c (by omega) (by omega))
  rw [if_pos hall]

theorem stored_of_cover {β : Type} {g : ImageGeom} {segs : List Segment} (img : Nat → β)
    (s : WriteSession β) (P : Nat → Nat → Prop) (hinv : SessionInv segs g img s P)
    (hcover : ∀ r c, r < g.totalRows → c < g.totalCols → P r c) :
    ∀ r k, r < g.totalRows → k < g.rowBytes → Stored segs g img s.file r k := by
  intro r k hr hk
  have hes : 0 < g.elementSize := by
    rcases Nat.eq_zero_or_pos g.elementSize with h0 | hpos
    · unfold ImageGeom.rowBytes at hk
      rw [h0, Nat.mul_zero] at hk
      omega
    · exact hpos
  have hc : k / g.elementSize < g.totalCols := by
    rw [Nat.div_lt_iff_lt_mul hes]
    exact hk
  have hb : k % g.elementSize < g.elementSize := Nat.mod_lt _ hes
  have hsplit : k / g.elementSize * g.elementSize + k % g.elementSize = k := by
    rw [Nat.mul_comm]
    exact Nat.div_add_mod k g.elementSize
  have := (hinv.2 r (k / g.elementSize) (hcover r _ hr hc)).2.2 (k % g.elementSize) hb
  rw [hsplit] at this
  exact this

theorem readWindow_full {β : Type} [Inhabited β] {g : ImageGeom} {segs : List Segment}
    (hlay : ValidLayout g segs) (img file : Nat → β)
    (hst : ∀ r k, r < g.totalRows → k < g.rowBytes → Stored segs g img file r k) :
    readWindow segs g (fullWindow g) file = .ok (imageBytes g img) := by
  unfold readWindow
  have hin : (fullWindow g).inBounds g := ⟨by simp [fullWindow], by simp [fullWindow]⟩
  rw [if_neg (not_not.mpr hin)]
  congr 1
  apply List.map_congr_left
  intro i hi
  rw [List.mem_range] at hi
  have hi2 : i < g.totalRows * g.rowBytes := hi
  have hrb : 0 < g.rowBytes := by
    rcases Nat.eq_zero_or_pos g.rowBytes with h0 | hpos
    · rw [h0, Nat.mul_zero] at hi2
      omega
    · exact hpos
  have hrow : i / g.rowBytes < g.totalRows := by
    rw [Nat.div_lt_iff_lt_mul hrb]
    exact hi2
  have hlo : i / g.rowBytes * g.rowBytes ≤ i := Nat.div_mul_le_self i g.rowBytes
  have hhi : i < i / g.rowBytes * g.rowBytes + g.rowBytes := Nat.lt_div_mul_add hrb
  apply applyCopies_agree
  · intro c hc hcov
    obtain ⟨⟨seg, row⟩, hsr, rfl⟩ := List.mem_map.mp hc
    obtain ⟨hseg, h1, h2, h3, h4⟩ := mem_subRows.mp hsr
    obtain ⟨hc1, hc2⟩ := hcov
    simp only [bufferOffset, fullWindow, Nat.sub_zero] at hc1 hc2
    simp only [bufferOffset, subOffset, fullWindow, Nat.sub_zero, Nat.zero_mul, Nat.add_zero]
    have hc3 : row * g.rowBytes ≤ i := hc1
    have hc4 : i < row * g.rowBytes + g.rowBytes := hc2
    have hr : row < g.totalRows := by
      have := (tiles_mem hlay.1 seg hseg).2.2
      omega
    have := hst row (i - row * g.rowBytes) hr (by omega) seg hseg h1 h2
    show file (seg.fileOffset + (row - seg.startRow) * g.rowBytes + (i - row * g.rowBytes))
      = img i
    rw [this]
    congr 1
    omega
  · right
    obtain ⟨seg, hseg, h1, h2⟩ := tiles_cover hlay.1 (i / g.rowBytes) (Nat.zero_le _) hrow
    refine ⟨_, List.mem_map.mpr ⟨(seg, i / g.rowBytes),
      mem_subRows.mpr ⟨hseg, h1, h2, by simp [fullWindow], by simpa [fullWindow] using hrow⟩,
      rfl⟩, ?_⟩
    constructor
    · show (i / g.rowBytes - (fullWindow g).startRow) * g.rowBytes ≤ i
      simpa [fullWindow] using hlo
    · show i < (i / g.rowBytes - (fullWindow g).startRow) * g.rowBytes + g.rowBytes
      simpa [fullWindow] using hhi

theorem openSession_inv {β : Type} (segs : List Segment) (g : ImageGeom) (img file0 : Nat → β) :
    SessionInv segs g img (openSession file0) (fun _ _ => False) := by
  constructor
  · intro r c
    simp [openSession]
  · intro r c h
    exact absurd h not_false

theorem round_trip_core {β : Type} [Inhabited β] {g : ImageGeom} {segs : List Segment}
    (hlay : ValidLayout g segs) (img file0 : Nat → β) (ws : List Window)
    (hb : ∀ W ∈ ws, W.inBounds g)
    (hdisj : ws.Pairwise Window.disjoint)
    (hcover : ∀ r c, r < g.totalRows → c < g.totalCols → ∃ W ∈ ws, W.contains r c) :
    writeThenRead segs g img file0 ws = .ok (imageBytes g img) := by
  obtain ⟨s1, hw, hinv⟩ := writeAll_inv hlay img ws (openSession file0) (fun _ _ => False)
    (openSession_inv segs g img file0) hb (fun _ _ _ _ _ h => h) hdisj
  have hcov : ∀ r c, r < g.totalRows → c < g.totalCols →
      (False ∨ ∃ W ∈ ws, W.contains r c) := fun r c hr hc => Or.inr (hcover r c hr hc)
  have hfin := finalize_of_cover img s1 _ hinv hcov
  have hst := stored_of_cover img s1 _ hinv hcov
  unfold writeThenRead
  rw [hw]
  simp only [hfin]
  exact readWindow_full hlay img s1.file hst

theorem fullWindow_alone (g : ImageGeom) :
    (∀ W ∈ [fullWindow g], W.inBounds g)
    ∧ [fullWindow g].Pairwise Window.disjoint
    ∧ ∀ r c, r < g.totalRows → c < g.totalCols → ∃ W ∈ [fullWindow g], W.contains r c := by
  refine ⟨?_, List.pairwise_singleton _ _, ?_⟩
  · intro W hW
    rw [List.mem_singleton] at hW
    subst hW
    exact ⟨by simp [fullWindow], by simp [fullWindow]⟩
  · intro r c hr hc
    refine ⟨fullWindow g, List.mem_singleton.mpr rfl, ?_⟩
    simp only [Window.contains, fullWindow]
    omega

theorem disjoint_symm {A B : Window} (h : A.disjoint B) : B.disjoint A :=
  fun r c hc => h r c ⟨hc.2, hc.1⟩

/-- C5: for every image, every plan that fits it, and every collection `ws` of
windows lying in the image, pairwise disjoint and together covering it (full
width or with a partial column range), a write session that writes the windows
in any order `ws2` (any permutation of `ws`), each with its part of the image,
succeeds, finalizes, and a read of the whole image then returns exactly the
image's bytes: the same result as the session that writes the whole image in
one shot. -/
theorem windowed_writes_round_trip {β : Type} [Inhabited β] (g : ImageGeom)
    (segs : List Segment) (img file0 : Nat → β) (ws ws2 : List Window)
    (hlay : ValidLayout g segs)
    (hb : ∀ W ∈ ws, W.inBounds g)
    (hdisj : ws.Pairwise Window.disjoint)
    (hcover : ∀ r c, r < g.totalRows → c < g.totalCols → ∃ W ∈ ws, W.contains r c)
    (hperm : ws2.Perm ws) :
    writeThenRead segs g img file0 ws2 = .ok (imageBytes g img)
    ∧ writeThenRead segs g img file0 ws2 = writeThenRead segs g img file0 [fullWindow g] := by
  have h1 : writeThenRead segs g img file0 ws2 = .ok (imageBytes g img) := by
    apply round_trip_core hlay img file0 ws2
    · intro W hW
      exact hb W (hperm.mem_iff.mp hW)
    · exact (hperm.pairwise_iff (fun h => disjoint_symm h)).mpr hdisj
    · intro r c hr hc
      obtain ⟨W, hW, hWc⟩ := hcover r c hr hc
      exact ⟨W, hperm.mem_iff.mpr hW, hWc⟩
  have h2 : writeThenRead segs g img file0 [fullWindow g] = .ok (imageBytes g img) :=
    round_trip_core hlay img file0 [fullWindow g] (fullWindow_alone g).1
      (fullWindow_alone g).2.1 (fullWindow_alone g).2.2
  exact ⟨h1, h1.trans h2.symm⟩

end six

namespace six

theorem planFrom_layout (totalRows bytesPerRow r : Nat) :
    ∀ fuel start index offset,
      (∀ s ∈ planFrom totalRows bytesPerRow r fuel start index offset, offset ≤ s.fileOffset)
      ∧ (planFrom totalRows bytesPerRow r fuel start index offset).Pairwise
          (fun s t => s.fileOffset + (s.endRow - s.startRow) * bytesPerRow ≤ t.fileOffset) := by
  intro fuel
  induction fuel with
  | zero =>
    intro start index offset
    exact ⟨fun s hs => absurd hs (List.not_mem_nil s), List.Pairwise.nil⟩
  | succ fuel ih =>
    intro start index offset
    unfold planFrom
    by_cases hlt : start < totalRows
    · rw [if_pos hlt]
      obtain ⟨ih1, ih2⟩ := ih (start + min r (totalRows - start)) (index + 1)
        (offset + min r (totalRows - start) * bytesPerRow)
      constructor
      · intro s hs
        rcases List.mem_cons.mp hs with rfl | hs
        · exact Nat.le_refl _
        · have := ih1 s hs
          omega
      · refine List.Pairwise.cons ?_ ih2
        intro t ht
        have := ih1 t ht
        show offset + (start + min r (totalRows - start) - start) * bytesPerRow ≤ t.fileOffset
        rw [Nat.add_sub_cancel_left]
        exact this
    · rw [if_neg hlt]
      exact ⟨fun s hs => absurd hs (List.not_mem_nil s), List.Pairwise.nil⟩

theorem plan_validLayout (g : ImageGeom) (maxBytesPerSegment maxRowsPerSegment : Int)
    (segs : List Segment)
    (h : plan g.totalRows g.totalCols g.rowBytes maxBytesPerSegment maxRowsPerSegment
          = .ok segs) :
    ValidLayout g segs := by
  refine ⟨plan_tiles _ _ _ _ _ _ h, ?_⟩
  rw [plan_eq_ok_iff] at h
  rw [h.2]
  exact (planFrom_layout _ _ _ _ _ _ _).2

theorem disjoint_of_separated {A B : Window} (h : A.separated B) : A.disjoint B := by
  intro r c hc
  obtain ⟨⟨a1, a2, a3, a4⟩, ⟨b1, b2, b3, b4⟩⟩ := hc
  unfold Window.separated at h
  omega

theorem testPlan_valid : ValidLayout testGeom testPlan :=
  plan_validLayout testGeom 10000000000 50 testPlan rfl

/-- Witness for C5: the 123 x 456 test image under the three-segment plan,
written as the row ranges `[40,60)`, `[5,25)`, `[0,5)`, `[100,123)`, `[25,40)`,
`[60,100)` in that order, and as the five windows of the partial-column test
in their order. -/
theorem windowed_writes_round_trip_witness :
    plan 123 456 3648 10000000000 50 = .ok testPlan
    ∧ writeThenRead testPlan testGeom (fun i => i) (fun _ => 0) rowRangeWindows
        = .ok (imageBytes testGeom (fun i => i))
    ∧ writeThenRead testPlan testGeom (fun i => i) (fun _ => 0) partialColumnWindows
        = .ok (imageBytes testGeom (fun i => i)) :=
  ⟨rfl,
   (windowed_writes_round_trip testGeom testPlan (fun i => i) (fun _ => 0)
      rowRangeWindows rowRangeWindows testPlan_valid (by decide)
      (List.Pairwise.imp (fun h => disjoint_of_separated h)
        (by decide : rowRangeWindows.Pairwise Window.separated))
      (by
        intro r c hr hc
        simp only [rowRangeWindows, testGeom, Window.contains, List.mem_cons,
          List.mem_singleton, exists_eq_or_imp, exists_eq_left, List.not_mem_nil,
          false_and, exists_false, or_false] at *
        omega)
      (List.Perm.refl _)).1,
   (windowed_writes_round_trip testGeom testPlan (fun i => i) (fun _ => 0)
      partialColumnWindows partialColumnWindows testPlan_valid (by decide)
      (List.Pairwise.imp (fun h => disjoint_of_separated h)
        (by decide : partialColumnWindows.Pairwise Window.separated))
      (by
        intro r c hr hc
        simp only [partialColumnWindows, testGeom, Window.contains, List.mem_cons,
          List.mem_singleton, exists_eq_or_imp, exists_eq_left, List.not_mem_nil,
          false_and, exists_false, or_false] at *
        omega)
      (List.Perm.refl _)).1⟩

end six

namespace cphd

/-! ## Wideband addressing -/

theorem bytesPerSample_pos (w : Wideband) : 0 < w.bytesPerSample := by
  unfold Wideband.bytesPerSample getNumBytesPerSample
  cases w.mData.signalFormat <;> decide

theorem channelBase_succ (w : Wideband) (channel : Nat) :
    w.channelBase (channel + 1) = w.channelBase channel + w.channelBytes channel := by
  unfold Wideband.channelBase Wideband.channelBytes Data.getNumVectors Data.getNumSamples
  rw [List.take_succ, List.foldl_append]
  cases h : w.mData.channels[channel]? with
  | none => simp
  | some ch => simp

theorem channelBase_eq_sum (w : Wideband) (channel : Nat) :
    w.channelBase channel = ∑ c ∈ Finset.range channel, w.channelBytes c := by
  induction channel with
  | zero => simp [Wideband.channelBase]
  | succ n ih => rw [channelBase_succ, Finset.sum_range_succ, ih]

theorem channelBase_mono (w : Wideband) {c d : Nat} (h : c ≤ d) :
    w.channelBase c ≤ w.channelBase d := by
  induction d with
  | zero =>
    have : c = 0 := by omega
    rw [this]
  | succ n ih =>
    rcases Nat.lt_or_ge c (n + 1) with hlt | hge
    · have := ih (by omega)
      rw [channelBase_succ]
      omega
    · have : c = n + 1 := by omega
      rw [this]

theorem getFileOffset_eq_ok {w : Wideband} {channel vector sample o : Nat}
    (h : w.getFileOffset channel vector sample = .ok o) :
    ∃ ch, w.mData.channels[channel]? = some ch ∧ vector < ch.numVectors
      ∧ sample < ch.numSamples
      ∧ o = w.channelBase channel + vector * ch.numSamples * w.bytesPerSample
            + sample * w.bytesPerSample := by
  unfold Wideband.getFileOffset at h
  cases hch : w.mData.channels[channel]? with
  | none => rw [hch] at h; cases h
  | some ch =>
    rw [hch] at h
    simp only at h
    by_cases hc : ch.numVectors ≤ vector ∨ ch.numSamples ≤ sample
    · rw [if_pos hc] at h; cases h
    · rw [if_neg hc] at h
      injection h with h
      push_neg at hc
      exact ⟨ch, rfl, hc.1, hc.2, h.symm⟩

theorem getFileOffset_in_range {w : Wideband} {channel vector sample : Nat}
    {ch : ChannelExtent} (hch : w.mData.channels[channel]? = some ch)
    (hv : vector < ch.numVectors) (hs : sample < ch.numSamples) :
    w.getFileOffset channel vector sample
      = .ok (w.channelBase channel + vector * ch.numSamples * w.bytesPerSample
              + sample * w.bytesPerSample) := by
  unfold Wideband.getFileOffset
  rw [hch]
  simp only
  rw [if_neg (by omega)]

/-- C6: `CPHDReader::getFileOffset` returns exactly what
`Wideband::getFileOffset` returns for the same arguments; and for every
in-range address (channel declared, vector and sample inside its extent) the
offset is `channelBase(channel) + vector * numSamples(channel) *
bytesPerSample + sample * bytesPerSample`, where `channelBase(channel)` is the
sum over the preceding channels of `numVectors * numSamples *
bytesPerSample`. -/
theorem getFileOffset_formula (r : CPHDReader) (channel vector sample : Nat) :
    r.getFileOffset channel vector sample = r.mWideband.getFileOffset channel vector sample
    ∧ r.mWideband.channelBase channel
        = ∑ c ∈ Finset.range channel,
            r.mWideband.mData.getNumVectors c * r.mWideband.mData.getNumSamples c
              * r.mWideband.bytesPerSample
    ∧ (∀ ch, r.mWideband.mData.channels[channel]? = some ch →
        vector < ch.numVectors → sample < ch.numSamples →
        r.getFileOffset channel vector sample
          = .ok (r.mWideband.channelBase channel
                  + vector * ch.numSamples * r.mWideband.bytesPerSample
                  + sample * r.mWideband.bytesPerSample)) := by
  refine ⟨rfl, channelBase_eq_sum r.mWideband channel, ?_⟩
  intro ch hch hv hs
  exact getFileOffset_in_range hch hv hs

/-- Witness for C6: channel 0 with 10 vectors of 4 samples of 8 bytes;
`fileOffset(0,3,2) = channelBase(0) + 112`, and `channelBase(0) = 0`. -/
theorem getFileOffset_formula_witness :
    oneChannelReader.getFileOffset 0 3 2
      = .ok (oneChannelReader.mWideband.channelBase 0 + 112)
    ∧ oneChannelReader.mWideband.channelBase 0 = 0 :=
  ⟨(getFileOffset_formula oneChannelReader 0 3 2).2.2 ⟨10, 4⟩ rfl (by decide) (by decide),
   rfl⟩

/-- C7: `fileOffset` is strictly increasing in lexicographic (channel, vector,
sample) order: for every channel layout and any two in-range addresses (those
on which `getFileOffset` returns an offset), if the first precedes the second
lexicographically, its offset is smaller. -/
theorem getFileOffset_strictly_increasing (w : Wideband) (c1 v1 s1 c2 v2 s2 o1 o2 : Nat)
    (h1 : w.getFileOffset c1 v1 s1 = .ok o1) (h2 : w.getFileOffset c2 v2 s2 = .ok o2)
    (hlex : lexBefore c1 v1 s1 c2 v2 s2) : o1 < o2 := by
  obtain ⟨ch1, hch1, hv1, hs1, rfl⟩ := getFileOffset_eq_ok h1
  obtain ⟨ch2, hch2, hv2, hs2, rfl⟩ := getFileOffset_eq_ok h2
  have hb := bytesPerSample_pos w
  have e1 : v1 * ch1.numSamples * w.bytesPerSample + s1 * w.bytesPerSample
      = (v1 * ch1.numSamples + s1) * w.bytesPerSample := (Nat.add_mul _ _ _).symm
  have e2 : v2 * ch2.numSamples * w.bytesPerSample + s2 * w.bytesPerSample
      = (v2 * ch2.numSamples + s2) * w.bytesPerSample := (Nat.add_mul _ _ _).symm
  rcases hlex with hc | ⟨rfl, hv | ⟨rfl, hs⟩⟩
  · have hin : v1 * ch1.numSamples + s1 < ch1.numVectors * ch1.numSamples :=
      six.mul_add_lt_mul hv1 hs1
    have hlt : (v1 * ch1.numSamples + s1) * w.bytesPerSample
        < ch1.numVectors * ch1.numSamples * w.bytesPerSample :=
      Nat.mul_lt_mul_of_pos_right hin hb
    have hsize : w.channelBytes c1 = ch1.numVectors * ch1.numSamples * w.bytesPerSample := by
      simp [Wideband.channelBytes, Data.getNumVectors, Data.getNumSamples, hch1]
    have hnext := channelBase_succ w c1
    have hmono : w.channelBase (c1 + 1) ≤ w.channelBase c2 := channelBase_mono w hc
    omega
  · rw [hch1] at hch2
    injection hch2 with hch2
    subst hch2
    have hin : v1 * ch1.numSamples + s1 < v2 * ch1.numSamples := six.mul_add_lt_mul hv hs1
    have hlt : (v1 * ch1.numSamples + s1) * w.bytesPerSample
        < v2 * ch1.numSamples * w.bytesPerSample :=
      Nat.mul_lt_mul_of_pos_right hin hb
    omega
  · have hlt : s1 * w.bytesPerSample < s2 * w.bytesPerSample :=
      Nat.mul_lt_mul_of_pos_right hs hb
    rw [hch1] at hch2
    injection hch2 with hch2
    subst hch2
    omega

/-- Witness for C7: in the two-channel block, the last sample of channel 0,
`(0,2,1)`, at offset 20, comes before the first of channel 1, at offset 24. -/
theorem getFileOffset_strictly_increasing_witness :
    twoChannelWideband.getFileOffset 0 2 1 = .ok 20
    ∧ twoChannelWideband.getFileOffset 1 0 0 = .ok 24
    ∧ lexBefore 0 2 1 1 0 0
    ∧ 20 < 24 :=
  ⟨rfl, rfl, Or.inl (by decide),
   getFileOffset_strictly_increasing twoChannelWideband 0 2 1 1 0 0 20 24 rfl rfl
    (Or.inl (by decide))⟩

end cphd

namespace cphd

/-! ## Threaded wideband reads -/

theorem partitionFrom_cover (q extra : Nat) :
    ∀ m i start,
      (∀ p ∈ partitionFrom q extra m i start,
        start ≤ p.1 ∧ p.1 + p.2 ≤ start + m * q + (min (i + m) extra - min i extra))
      ∧ (∀ v, start ≤ v → v < start + m * q + (min (i + m) extra - min i extra) →
          ∃ p ∈ partitionFrom q extra m i start, p.1 ≤ v ∧ v < p.1 + p.2) := by
  intro m
  induction m with
  | zero =>
    intro i start
    constructor
    · intro p hp
      cases hp
    · intro v h1 h2
      simp at h2
      omega
  | succ m ih =>
    intro i start
    obtain ⟨ih1, ih2⟩ := ih (i + 1) (start + (q + (if i < extra then 1 else 0)))
    have hmul : (m + 1) * q = m * q + q := Nat.succ_mul m q
    have hend : start + (q + (if i < extra then 1 else 0)) + m * q
          + (min (i + 1 + m) extra - min (i + 1) extra)
        = start + (m + 1) * q + (min (i + (m + 1)) extra - min i extra) := by
      by_cases hi : i < extra
      · rw [if_pos hi]
        omega
      · rw [if_neg hi]
        omega
    rw [hend] at ih1 ih2
    constructor
    · intro p hp
      rcases List.mem_cons.mp hp with rfl | hp
      · constructor
        · exact Nat.le_refl _
        · show start + (q + (if i < extra then 1 else 0))
              ≤ start + (m + 1) * q + (min (i + (m + 1)) extra - min i extra)
          by_cases hi : i < extra
          · rw [if_pos hi]
            omega
          · rw [if_neg hi]
            omega
      · have := ih1 p hp
        omega
    · intro v h1 h2
      by_cases hv : v < start + (q + (if i < extra then 1 else 0))
      · exact ⟨_, List.mem_cons_self _ _, h1, hv⟩
      · obtain ⟨p, hp, hpv⟩ := ih2 v (by omega) h2
        exact ⟨p, List.mem_cons_of_mem _ hp, hpv⟩

theorem partitionVectors_cover (n numThreads : Nat) (h : 1 ≤ numThreads) :
    (∀ p ∈ partitionVectors n numThreads, p.1 + p.2 ≤ n)
    ∧ (∀ v, v < n → ∃ p ∈ partitionVectors n numThreads, p.1 ≤ v ∧ v < p.1 + p.2) := by
  have hend : 0 + min numThreads n * (n / min numThreads n)
        + (min (0 + min numThreads n) (n % min numThreads n)
            - min 0 (n % min numThreads n)) = n := by
    rcases Nat.eq_zero_or_pos n with h0 | hpos
    · subst h0
      simp
    · have hk : 0 < min numThreads n := by
        rw [Nat.lt_min]
        exact ⟨h, hpos⟩
      have hmod : n % min numThreads n < min numThreads n := Nat.mod_lt _ hk
      have hdm := Nat.div_add_mod n (min numThreads n)
      have e1 : min (0 + min numThreads n) (n % min numThreads n) = n % min numThreads n := by
        rw [Nat.zero_add]
        exact Nat.min_eq_right (Nat.le_of_lt hmod)
      have e2 : min 0 (n % min numThreads n) = 0 := Nat.zero_min _
      rw [e1, e2]
      omega
  obtain ⟨c1, c2⟩ := partitionFrom_cover (n / min numThreads n) (n % min numThreads n)
    (min numThreads n) 0 0
  rw [hend] at c1 c2
  constructor
  · intro p hp
    exact (c1 p hp).2
  · intro v hv
    exact c2 v (Nat.zero_le _) hv

theorem readPartitions_eq {β : Type} [Inhabited β] (w : Wideband) (file : Nat → β)
    (q : ReadRequest) (parts : List (Nat × Nat))
    (hcover : ∀ v, v < q.vectorCount → ∃ p ∈ parts, p.1 ≤ v ∧ v < p.1 + p.2)
    (i : Nat) (hi : i < q.vectorCount * q.vectorBytes w) :
    readPartitions w file q parts i = expectedByte w file q i := by
  have hvb : 0 < q.vectorBytes w := by
    rcases Nat.eq_zero_or_pos (q.vectorBytes w) with h0 | hpos
    · rw [h0, Nat.mul_zero] at hi
      omega
    · exact hpos
  have hdm := Nat.div_add_mod i (q.vectorBytes w)
  unfold readPartitions
  apply six.applyCopies_agree
  · intro c hc hcov
    obtain ⟨p, hp, hcp⟩ := List.mem_flatMap.mp hc
    obtain ⟨v, hv, rfl⟩ := List.mem_map.mp hcp
    obtain ⟨h1, h2⟩ := hcov
    have h3 : v * q.vectorBytes w ≤ i := h1
    have h4 : i < v * q.vectorBytes w + q.vectorBytes w := h2
    have h5 : i < (v + 1) * q.vectorBytes w := by
      rw [Nat.succ_mul]
      exact h4
    have hdiv : i / q.vectorBytes w = v := Nat.div_eq_of_lt_le h3 h5
    have hcomm : q.vectorBytes w * v = v * q.vectorBytes w := Nat.mul_comm _ _
    rw [hdiv] at hdm
    show file (w.channelBase q.channel
          + (q.startVector + v) * q.extent.numSamples * w.bytesPerSample
          + q.startSample * w.bytesPerSample + (i - v * q.vectorBytes w))
        = expectedByte w file q i
    unfold expectedByte
    rw [hdiv]
    congr 1
    omega
  · right
    have hrow : i / q.vectorBytes w < q.vectorCount := by
      rw [Nat.div_lt_iff_lt_mul hvb]
      exact hi
    obtain ⟨p, hp, hp1, hp2⟩ := hcover (i / q.vectorBytes w) hrow
    refine ⟨_, List.mem_flatMap.mpr ⟨p, hp, List.mem_map.mpr
      ⟨i / q.vectorBytes w, List.mem_range'_1.mpr ⟨hp1, hp2⟩, rfl⟩⟩, ?_⟩
    constructor
    · exact Nat.div_mul_le_self i (q.vectorBytes w)
    · exact Nat.lt_div_mul_add hvb

theorem readPartitions_any_order {β : Type} [Inhabited β] (w : Wideband) (file : Nat → β)
    (q : ReadRequest) (numThreads : Nat) (h : 1 ≤ numThreads) (order : List (Nat × Nat))
    (hperm : order.Perm (partitionVectors q.vectorCount numThreads))
    (i : Nat) (hi : i < q.vectorCount * q.vectorBytes w) :
    readPartitions w file q order i
      = readPartitions w file q (partitionVectors q.vectorCount numThreads) i := by
  rw [readPartitions_eq w file q _ (partitionVectors_cover _ _ h).2 i hi]
  apply readPartitions_eq w file q order _ i hi
  intro v hv
  obtain ⟨p, hp, hpv⟩ := (partitionVectors_cover _ _ h).2 v hv
  exact ⟨p, hperm.mem_iff.mpr hp, hpv⟩

/-- C8: the result of a wideband read does not depend on the thread count: for
every wideband block and file, every channel, vector range and sample range
(`none` standing for `ALL`), and every `numThreads >= 1`, the read returns
exactly what the single-threaded read of the same range returns: the same
failure, or the same bytes in the output buffer. -/
theorem read_independent_of_numThreads {β : Type} [Inhabited β] (w : Wideband)
    (file : Nat → β) (channel startVector : Nat) (vectorCount : Option Nat)
    (startSample : Nat) (sampleCount : Option Nat) (numThreads : Nat)
    (h : 1 ≤ numThreads) :
    w.read file channel startVector vectorCount startSample sampleCount numThreads
      = w.read file channel startVector vectorCount startSample sampleCount 1 := by
  unfold Wideband.read
  cases hq : w.resolve channel startVector vectorCount startSample sampleCount with
  | error e => rfl
  | ok q =>
    simp only
    congr 1
    apply List.map_congr_left
    intro i hi
    rw [List.mem_range] at hi
    rw [readPartitions_eq w file q _ (partitionVectors_cover _ _ h).2 i hi,
      readPartitions_eq w file q _ (partitionVectors_cover _ _ (Nat.le_refl 1)).2 i hi]

/-- Witness for C8: channel 1 of the two-channel block, all its vectors,
samples 1 to 3, read by two threads and by one. -/
theorem read_independent_of_numThreads_witness :
    twoChannelWideband.read (fun i => i) 1 0 none 1 (some 3) 2
      = twoChannelWideband.read (fun i => i) 1 0 none 1 (some 3) 1
    ∧ twoChannelWideband.read (fun i => i) 1 0 none 1 (some 3) 1
      = .ok [28, 29, 30, 31, 32, 33, 34, 35, 36, 37, 38, 39,
             48, 49, 50, 51, 52, 53, 54, 55, 56, 57, 58, 59] :=
  ⟨read_independent_of_numThreads twoChannelWideband (fun i => i) 1 0 none 1 (some 3) 2
      (by decide),
   rfl⟩

end cphd

namespace six

/-! ## Failures of the planner -/

theorem plan_eq_InvalidDimension_iff (totalRows totalCols bytesPerRow : Nat)
    (maxBytesPerSegment maxRowsPerSegment : Int) :
    plan totalRows totalCols bytesPerRow maxBytesPerSegment maxRowsPerSegment
        = .error .InvalidDimension
      ↔ (totalRows = 0 ∨ totalCols = 0 ∨ bytesPerRow = 0
          ∨ maxBytesPerSegment ≤ 0 ∨ maxRowsPerSegment ≤ 0) := by
  unfold plan planErrors
  by_cases hd : totalRows = 0 ∨ totalCols = 0 ∨ bytesPerRow = 0
      ∨ maxBytesPerSegment ≤ 0 ∨ maxRowsPerSegment ≤ 0
  · rw [if_pos hd]
    exact ⟨fun _ => hd, fun _ => rfl⟩
  · rw [if_neg hd]
    by_cases hc : maxBytesPerSegment < (bytesPerRow : Int)
    · rw [if_pos hc]
      constructor
      · intro h
        injection h with h
        cases h
      · intro h
        exact absurd h hd
    · rw [if_neg hc]
      constructor
      · intro h
        cases h
      · intro h
        exact absurd h hd

theorem plan_eq_CapacityExceeded_iff (totalRows totalCols bytesPerRow : Nat)
    (maxBytesPerSegment maxRowsPerSegment : Int) :
    plan totalRows totalCols bytesPerRow maxBytesPerSegment maxRowsPerSegment
        = .error .CapacityExceeded
      ↔ maxBytesPerSegment < (bytesPerRow : Int)
        ∧ ¬ (totalRows = 0 ∨ totalCols = 0 ∨ bytesPerRow = 0
              ∨ maxBytesPerSegment ≤ 0 ∨ maxRowsPerSegment ≤ 0) := by
  unfold plan planErrors
  by_cases hd : totalRows = 0 ∨ totalCols = 0 ∨ bytesPerRow = 0
      ∨ maxBytesPerSegment ≤ 0 ∨ maxRowsPerSegment ≤ 0
  · rw [if_pos hd]
    constructor
    · intro h
      injection h with h
      cases h
    · intro h
      exact absurd hd h.2
  · rw [if_neg hd]
    by_cases hc : maxBytesPerSegment < (bytesPerRow : Int)
    · rw [if_pos hc]
      exact ⟨fun _ => ⟨hc, hd⟩, fun _ => rfl⟩
    · rw [if_neg hc]
      constructor
      · intro h
        cases h
      · intro h
        exact absurd h.1 hc

/-- A zero or negative `maxBytesPerSegment` is below the width of every row of
positive width: where the byte ceiling is invalid, either `bytesPerRow` is zero
or the capacity condition holds as well. -/
theorem invalid_byte_ceiling_overlaps (bytesPerRow : Nat) (maxBytesPerSegment : Int)
    (h : maxBytesPerSegment ≤ 0) :
    bytesPerRow = 0 ∨ maxBytesPerSegment < (bytesPerRow : Int) := by
  omega

/-- C11, as stated, fails: with zero rows, a row of 2,000,000 bytes under a
ceiling of 1,000,000 bytes per segment makes `plan` fail with
`InvalidDimension`, not with `CapacityExceeded`; so does a valid image whose
byte ceiling is zero. -/
theorem plan_zero_rows_is_InvalidDimension :
    (1000000 : Int) < ((2000000 : Nat) : Int)
    ∧ plan 0 456 2000000 1000000 50 = .error .InvalidDimension
    ∧ plan 0 456 2000000 1000000 50 ≠ .error .CapacityExceeded
    ∧ (0 : Int) < ((5 : Nat) : Int)
    ∧ plan 123 456 5 0 50 = .error .InvalidDimension
    ∧ plan 123 456 5 0 50 ≠ .error .CapacityExceeded :=
  ⟨(by decide), rfl, (fun h => by cases h), (by decide), rfl, (fun h => by cases h)⟩

/-- C11, amended: `plan` fails with `CapacityExceeded` whenever a single row is
wider than `maxBytesPerSegment` (`bytesPerRow > maxBytesPerSegment`) and the
dimensions and ceilings are valid, that is for every `totalRows > 0`,
`totalCols > 0` and `maxRowsPerSegment > 0` with `maxBytesPerSegment > 0`; where
a dimension is zero or a ceiling is zero or negative, `plan` fails with
`InvalidDimension` instead; and `plan` fails with `CapacityExceeded` in no
other case. -/
theorem plan_fails_with_CapacityExceeded (totalRows totalCols bytesPerRow : Nat)
    (maxBytesPerSegment maxRowsPerSegment : Int) :
    (maxBytesPerSegment < (bytesPerRow : Int) →
      0 < totalRows → 0 < totalCols → 0 < maxRowsPerSegment → 0 < maxBytesPerSegment →
      plan totalRows totalCols bytesPerRow maxBytesPerSegment maxRowsPerSegment
        = .error .CapacityExceeded)
    ∧ (maxBytesPerSegment < (bytesPerRow : Int) →
      (totalRows = 0 ∨ totalCols = 0 ∨ maxBytesPerSegment ≤ 0 ∨ maxRowsPerSegment ≤ 0) →
      plan totalRows totalCols bytesPerRow maxBytesPerSegment maxRowsPerSegment
        = .error .InvalidDimension)
    ∧ (plan totalRows totalCols bytesPerRow maxBytesPerSegment maxRowsPerSegment
          = .error .CapacityExceeded
        ↔ (maxBytesPerSegment < (bytesPerRow : Int)
            ∧ 0 < totalRows ∧ 0 < totalCols ∧ 0 < maxRowsPerSegment
            ∧ 0 < maxBytesPerSegment)) := by
  refine ⟨?_, ?_, ?_⟩
  · intro h h1 h2 h3 h4
    rw [plan_eq_CapacityExceeded_iff]
    refine ⟨h, ?_⟩
    omega
  · intro _ hd
    rw [plan_eq_InvalidDimension_iff]
    omega
  · rw [plan_eq_CapacityExceeded_iff]
    constructor
    · rintro ⟨h, hd⟩
      refine ⟨h, ?_⟩
      omega
    · rintro ⟨h, hv⟩
      refine ⟨h, ?_⟩
      omega

/-- Witness for C11 amended: a row of 2,000,000 bytes under a ceiling of
1,000,000 bytes per segment, in the 123 x 456 test image. -/
theorem plan_fails_with_CapacityExceeded_witness :
    plan 123 456 2000000 1000000 50 = .error .CapacityExceeded :=
  (plan_fails_with_CapacityExceeded 123 456 2000000 1000000 50).1 (by decide)
    (by decide) (by decide) (by decide) (by decide)

/-- C12: `plan` fails with `InvalidDimension` if `totalRows`, `totalCols` or
`bytesPerRow` is zero, or if `maxBytesPerSegment` or `maxRowsPerSegment` is
zero or negative; and on every input on which none of these holds, `plan`
does not fail with `InvalidDimension`: it returns a plan or fails with
`CapacityExceeded`. -/
theorem plan_fails_with_InvalidDimension_iff (totalRows totalCols bytesPerRow : Nat)
    (maxBytesPerSegment maxRowsPerSegment : Int) :
    ((totalRows = 0 ∨ totalCols = 0 ∨ bytesPerRow = 0
        ∨ maxBytesPerSegment ≤ 0 ∨ maxRowsPerSegment ≤ 0) →
      plan totalRows totalCols bytesPerRow maxBytesPerSegment maxRowsPerSegment
        = .error .InvalidDimension)
    ∧ (¬ (totalRows = 0 ∨ totalCols = 0 ∨ bytesPerRow = 0
        ∨ maxBytesPerSegment ≤ 0 ∨ maxRowsPerSegment ≤ 0) →
      plan totalRows totalCols bytesPerRow maxBytesPerSegment maxRowsPerSegment
          ≠ .error .InvalidDimension
      ∧ ((∃ segs, plan totalRows totalCols bytesPerRow maxBytesPerSegment maxRowsPerSegment
            = .ok segs)
        ∨ plan totalRows totalCols bytesPerRow maxBytesPerSegment maxRowsPerSegment
            = .error .CapacityExceeded)) := by
  constructor
  · intro h
    exact (plan_eq_InvalidDimension_iff _ _ _ _ _).mpr h
  · intro h
    refine ⟨fun hp => h ((plan_eq_InvalidDimension_iff _ _ _ _ _).mp hp), ?_⟩
    by_cases hc : maxBytesPerSegment < (bytesPerRow : Int)
    · exact Or.inr ((plan_eq_CapacityExceeded_iff _ _ _ _ _).mpr ⟨hc, h⟩)
    · refine Or.inl ⟨_, (plan_eq_ok_iff _ _ _ _ _ _).mpr ⟨?_, rfl⟩⟩
      rw [planErrors_nil_iff]
      omega

/-- Witness for C12: zero rows fail with `InvalidDimension`, also when a row is
wider than the byte ceiling; a valid image whose row is too wide fails, but
not with `InvalidDimension`. -/
theorem plan_fails_with_InvalidDimension_iff_witness :
    plan 0 456 3648 10000000000 50 = .error .InvalidDimension
    ∧ plan 0 456 2000000 1000000 50 = .error .InvalidDimension
    ∧ plan 123 456 2000000 1000000 50 = .error .CapacityExceeded
    ∧ plan 123 456 2000000 1000000 50 ≠ .error .InvalidDimension :=
  ⟨(plan_fails_with_InvalidDimension_iff 0 456 3648 10000000000 50).1 (Or.inl rfl),
   (plan_fails_with_InvalidDimension_iff 0 456 2000000 1000000 50).1 (Or.inl rfl),
   rfl,
   ((plan_fails_with_InvalidDimension_iff 123 456 2000000 1000000 50).2 (by decide)).1⟩

end six

namespace six

/-! ## Duplicate writes and incomplete sessions -/

theorem writeWindow_ok {β : Type} (segs : List Segment) (g : ImageGeom) (W : Window)
    (data : Nat → β) (s s1 : WriteSession β) (h : writeWindow segs g W data s = .ok s1) :
    W.inBounds g
    ∧ (∀ r c, W.contains r c → s.written r c = false)
    ∧ ∀ r c, s1.written r c = true ↔ (s.written r c = true ∨ W.contains r c) := by
  unfold writeWindow at h
  cases hd : (cellsOf W).any (fun rc => s.written rc.1 rc.2) with
  | true => rw [hd] at h; cases h
  | false =>
    rw [hd] at h
    simp only [Bool.false_eq_true, if_false] at h
    by_cases hb : W.inBounds g
    · rw [if_neg (not_not.mpr hb)] at h
      injection h with h
      refine ⟨hb, ?_, ?_⟩
      · intro r c hc
        cases hw : s.written r c with
        | false => rfl
        | true =>
          have : (cellsOf W).any (fun rc => s.written rc.1 rc.2) = true :=
            List.any_eq_true.mpr ⟨(r, c), mem_cellsOf.mpr hc, hw⟩
          rw [hd] at this
          cases this
      · intro r c
        rw [← h]
        simp only [Bool.or_eq_true, decide_eq_true_eq]
    · rw [if_pos hb] at h
      cases h

theorem writeAll_written {β : Type} (segs : List Segment) (g : ImageGeom) :
    ∀ (calls : List (Window × (Nat → β))) (s s1 : WriteSession β),
      writeAll segs g calls s = .ok s1 →
      ∀ r c, s1.written r c = true
        ↔ (s.written r c = true ∨ ∃ call ∈ calls, call.1.contains r c) := by
  intro calls
  induction calls with
  | nil =>
    intro s s1 h r c
    have : s = s1 := by
      injection h
    rw [this]
    simp
  | cons call rest ih =>
    intro s s1 h r c
    obtain ⟨W, data⟩ := call
    have h2 : (match writeWindow segs g W data s with
        | .ok s2 => writeAll segs g rest s2
        | .error e => .error e) = .ok s1 := h
    cases hw : writeWindow segs g W data s with
    | error e => rw [hw] at h2; cases h2
    | ok s2 =>
      rw [hw] at h2
      rw [ih s2 s1 h2 r c, (writeWindow_ok segs g W data s s2 hw).2.2 r c]
      constructor
      · rintro ((h1 | h1) | ⟨k, hk, hkc⟩)
        · exact Or.inl h1
        · exact Or.inr ⟨(W, data), List.mem_cons_self _ _, h1⟩
        · exact Or.inr ⟨k, List.mem_cons_of_mem _ hk, hkc⟩
      · rintro (h1 | ⟨k, hk, hkc⟩)
        · exact Or.inl (Or.inl h1)
        · rcases List.mem_cons.mp hk with rfl | hk
          · exact Or.inl (Or.inr hkc)
          · exact Or.inr ⟨k, hk, hkc⟩

theorem session_written {β : Type} (segs : List Segment) (g : ImageGeom)
    (calls : List (Window × (Nat → β))) (file0 : Nat → β) (s : WriteSession β)
    (h : writeAll segs g calls (openSession file0) = .ok s) (r c : Nat) :
    s.written r c = true ↔ ∃ call ∈ calls, call.1.contains r c := by
  rw [writeAll_written segs g calls _ s h r c]
  simp [openSession]

end six

namespace six

theorem finalize_ok_iff {β : Type} (g : ImageGeom) (s : WriteSession β) :
    ((∀ r c, r < g.totalRows → c < g.totalCols → s.written r c = true) →
      finalize g s = .ok s.file)
    ∧ ((∃ r c, r < g.totalRows ∧ c < g.totalCols ∧ s.written r c = false) →
      finalize g s = .error .IncompleteWriteError) := by
  constructor
  · intro h
    unfold finalize
    have hall : (cellsOf (fullWindow g)).all (fun rc => s.written rc.1 rc.2) = true := by
      rw [List.all_eq_true]
      rintro ⟨r, c⟩ hmem
      obtain ⟨_, h2, _, h4⟩ := mem_cellsOf.mp hmem
      simp only [fullWindow] at h2 h4
      exact h r c (by omega) (by omega)
    rw [if_pos hall]
  · rintro ⟨r, c, hr, hc, hw⟩
    unfold finalize
    have hall : ¬ (cellsOf (fullWindow g)).all (fun rc => s.written rc.1 rc.2) = true := by
      intro hall
      rw [List.all_eq_true] at hall
      have hmem : (r, c) ∈ cellsOf (fullWindow g) :=
        mem_cellsOf.mpr ⟨Nat.zero_le _, by simp only [fullWindow]; omega, Nat.zero_le _,
          by simp only [fullWindow]; omega⟩
      have := hall (r, c) hmem
      rw [hw] at this
      cases this
    rw [if_neg hall]

/-- C14: at the end of a write session (any sequence of successful
`writeWindow` calls on a fresh session), `finalize` fails with
`IncompleteWriteError` if and only if at least one cell of the declared image
extent lies in no window the session wrote; when every cell has been written
it succeeds, and what it hands back is the file alone: the session and its
bookkeeping are gone. It has no other outcome. -/
theorem finalize_incomplete_iff {β : Type} (segs : List Segment) (g : ImageGeom)
    (calls : List (Window × (Nat → β))) (file0 : Nat → β) (s : WriteSession β)
    (hsession : writeAll segs g calls (openSession file0) = .ok s) :
    (finalize g s = .error .IncompleteWriteError
      ↔ ∃ r c, r < g.totalRows ∧ c < g.totalCols ∧ ∀ call ∈ calls, ¬ call.1.contains r c)
    ∧ ((∀ r c, r < g.totalRows → c < g.totalCols → ∃ call ∈ calls, call.1.contains r c) →
        finalize g s = .ok s.file)
    ∧ (finalize g s = .ok s.file ∨ finalize g s = .error .IncompleteWriteError) := by
  have hw := session_written segs g calls file0 s hsession
  have hok : (∀ r c, r < g.totalRows → c < g.totalCols → ∃ call ∈ calls, call.1.contains r c) →
      finalize g s = .ok s.file := by
    intro h
    exact (finalize_ok_iff g s).1 (fun r c hr hc => (hw r c).mpr (h r c hr hc))
  have hbad : (∃ r c, r < g.totalRows ∧ c < g.totalCols
        ∧ ∀ call ∈ calls, ¬ call.1.contains r c) →
      finalize g s = .error .IncompleteWriteError := by
    rintro ⟨r, c, hr, hc, hno⟩
    refine (finalize_ok_iff g s).2 ⟨r, c, hr, hc, ?_⟩
    cases hwr : s.written r c with
    | false => rfl
    | true =>
      obtain ⟨call, hcall, hcc⟩ := (hw r c).mp hwr
      exact absurd hcc (hno call hcall)
  refine ⟨⟨?_, hbad⟩, hok, ?_⟩
  · intro hfail
    by_contra hnone
    push_neg at hnone
    have := hok (fun r c hr hc => hnone r c hr hc)
    rw [this] at hfail
    cases hfail
  · by_cases hall : ∀ r c, r < g.totalRows → c < g.totalCols →
        ∃ call ∈ calls, call.1.contains r c
    · exact Or.inl (hok hall)
    · push_neg at hall
      exact Or.inr (hbad hall)

/-- Witness for C14: on the 4 x 2 image, after rows `[0,2)` only, `finalize`
fails with `IncompleteWriteError`: cell `(3, 0)` was never written. -/
theorem finalize_incomplete_iff_witness :
    ∃ s : WriteSession Nat,
      writeAll tinyPlan tinyGeom [(⟨0, 0, 2, 2⟩, fun i => i)] (openSession (fun _ => 0))
        = .ok s
      ∧ finalize tinyGeom s = .error .IncompleteWriteError :=
  ⟨_, rfl,
   (finalize_incomplete_iff tinyPlan tinyGeom [(⟨0, 0, 2, 2⟩, fun i => i)] (fun _ => 0)
      _ rfl).1.mpr
    ⟨3, 0, by decide, by decide, by
      intro call h
      rw [List.mem_singleton] at h
      subst h
      decide⟩⟩

end six

namespace cphd

/-! ## The CPHD comparison -/

theorem compareLoop_eq_true (differ : Nat → Bool) :
    ∀ n i, compareLoop differ n i = true ↔ ∀ j, j < n → differ (i + j) = false := by
  intro n
  induction n with
  | zero =>
    intro i
    simp [compareLoop]
  | succ n ih =>
    intro i
    unfold compareLoop
    cases hd : differ i with
    | true =>
      simp only [if_true]
      constructor
      · intro h; cases h
      · intro h
        have := h 0 (Nat.succ_pos n)
        rw [Nat.add_zero, hd] at this
        cases this
    | false =>
      simp only [Bool.false_eq_true, if_false]
      rw [ih (i + 1)]
      constructor
      · intro h j hj
        cases j with
        | zero => rw [Nat.add_zero]; exact hd
        | succ k =>
          have := h k (by omega)
          rw [Nat.add_assoc, Nat.add_comm 1 k] at this
          exact this
      · intro h j hj
        have := h (j + 1) (by omega)
        rw [Nat.add_assoc, Nat.add_comm 1 j]
        exact this

theorem compareCPHDData_eq_true (m : SampleModel) (f : SampleType) (data1 data2 : Nat → Nat)
    (size channel : Nat) :
    compareCPHDData m f data1 data2 size channel = true
      ↔ ∀ ii, ii < size → m.eq f (m.cast f data1 ii) (m.cast f data2 ii) = true := by
  unfold compareCPHDData
  rw [compareLoop_eq_true]
  simp only [Nat.zero_add, Bool.not_eq_false_eq_eq_true, Bool.not_eq_eq_eq_not, Bool.not_false]

theorem compareSupportData_eq_true (data1 data2 : Nat → Nat) (size : Nat) :
    compareSupportData data1 data2 size = true ↔ ∀ ii, ii < size → data1 ii = data2 ii := by
  unfold compareSupportData
  rw [compareLoop_eq_true]
  simp only [Nat.zero_add, decide_eq_false_iff_not, not_not, ne_eq]

theorem compareWidebandLoop_step {P : Type} (m : SampleModel) (reader1 reader2 : OpenReader P)
    (remaining ii : Nat) (dataMatches : Bool) :
    compareWidebandLoop m reader1 reader2 (remaining + 1) ii dataMatches
      = compareWidebandLoop m reader1 reader2 remaining (ii + 1)
          (if (reader1.getMetadata.data.getNumVectors ii,
                reader1.getMetadata.data.getNumSamples ii)
              = (reader2.getMetadata.data.getNumVectors ii,
                  reader2.getMetadata.data.getNumSamples ii)
            then
              (if compareCPHDData m reader1.getMetadata.data.getSignalFormat
                    (reader1.widebandBytes ii) (reader2.widebandBytes ii)
                    (reader1.getMetadata.data.getNumVectors ii
                      * reader1.getMetadata.data.getNumSamples ii % 2 ^ 64) ii
               then dataMatches else false)
            else false) := by
  rw [compareWidebandLoop]
  by_cases hd : (reader1.getMetadata.data.getNumVectors ii,
        reader1.getMetadata.data.getNumSamples ii)
      = (reader2.getMetadata.data.getNumVectors ii,
          reader2.getMetadata.data.getNumSamples ii)
  · rw [if_pos hd, if_pos hd]
    cases hf : reader1.getMetadata.data.getSignalFormat with
    | RE08I_IM08I =>
      simp only
      cases compareCPHDData m SampleType.RE08I_IM08I (reader1.widebandBytes ii)
        (reader2.widebandBytes ii) _ ii <;> simp
    | RE16I_IM16I =>
      simp only
      cases compareCPHDData m SampleType.RE16I_IM16I (reader1.widebandBytes ii)
        (reader2.widebandBytes ii) _ ii <;> simp
    | RE32F_IM32F =>
      simp only
      cases compareCPHDData m SampleType.RE32F_IM32F (reader1.widebandBytes ii)
        (reader2.widebandBytes ii) _ ii <;> simp
  · rw [if_neg hd, if_neg hd]

theorem compareWidebandLoop_eq_true {P : Type} (m : SampleModel)
    (reader1 reader2 : OpenReader P) :
    ∀ n i dataMatches, compareWidebandLoop m reader1 reader2 n i dataMatches = true
      ↔ dataMatches = true ∧ ∀ j, j < n → ChannelMatches m reader1 reader2 (i + j) := by
  intro n
  induction n with
  | zero =>
    intro i dm
    simp [compareWidebandLoop]
  | succ n ih =>
    intro i dm
    rw [compareWidebandLoop_step, ih]
    have hchan : ChannelMatches m reader1 reader2 i
        ↔ ((reader1.getMetadata.data.getNumVectors i,
              reader1.getMetadata.data.getNumSamples i)
            = (reader2.getMetadata.data.getNumVectors i,
                reader2.getMetadata.data.getNumSamples i)
          ∧ compareCPHDData m reader1.getMetadata.data.getSignalFormat
              (reader1.widebandBytes i) (reader2.widebandBytes i)
              (reader1.getMetadata.data.getNumVectors i
                * reader1.getMetadata.data.getNumSamples i % 2 ^ 64) i = true) := by
      unfold ChannelMatches
      rw [compareCPHDData_eq_true, Prod.mk.injEq]
      constructor
      · rintro ⟨h1, h2, h3⟩
        exact ⟨⟨h1, h2⟩, h3⟩
      · rintro ⟨⟨h1, h2⟩, h3⟩
        exact ⟨h1, h2, h3⟩
    have hshift : (∀ j, j < n → ChannelMatches m reader1 reader2 (i + 1 + j))
        ↔ ∀ j, 0 < j → j < n + 1 → ChannelMatches m reader1 reader2 (i + j) := by
      constructor
      · intro h j h0 hj
        have := h (j - 1) (by omega)
        have e : i + 1 + (j - 1) = i + j := by omega
        rw [e] at this
        exact this
      · intro h j hj
        have := h (j + 1) (by omega) (by omega)
        have e : i + (j + 1) = i + 1 + j := by omega
        rw [e] at this
        exact this
    rw [hshift]
    constructor
    · rintro ⟨hflag, hrest⟩
      by_cases hd : (reader1.getMetadata.data.getNumVectors i,
            reader1.getMetadata.data.getNumSamples i)
          = (reader2.getMetadata.data.getNumVectors i,
              reader2.getMetadata.data.getNumSamples i)
      · rw [if_pos hd] at hflag
        cases hc : compareCPHDData m reader1.getMetadata.data.getSignalFormat
            (reader1.widebandBytes i) (reader2.widebandBytes i)
            (reader1.getMetadata.data.getNumVectors i
              * reader1.getMetadata.data.getNumSamples i % 2 ^ 64) i with
        | false => rw [hc] at hflag; simp at hflag
        | true =>
          rw [hc] at hflag
          simp only [if_true] at hflag
          refine ⟨hflag, ?_⟩
          intro j hj
          rcases Nat.eq_zero_or_pos j with h0 | hpos
          · subst h0
            exact hchan.mpr ⟨hd, hc⟩
          · exact hrest j hpos hj
      · rw [if_neg hd] at hflag
        cases hflag
    · rintro ⟨hflag, hall⟩
      obtain ⟨hd, hc⟩ := hchan.mp (hall 0 (Nat.succ_pos n))
      refine ⟨?_, fun j _ hj => hall j hj⟩
      rw [if_pos hd, hc]
      simpa using hflag

theorem bytesAt_eq_iff (data1 data2 : Nat → Nat) (first size : Nat) :
    bytesAt data1 first size = bytesAt data2 first size
      ↔ ∀ k, k < size → data1 (first + k) = data2 (first + k) := by
  unfold bytesAt
  rw [List.map_inj_left]
  constructor
  · intro h k hk
    exact h k (List.mem_range.mpr hk)
  · intro h k hk
    exact h k (List.mem_range.mp hk)

theorem floatEq_eq_true (a b : Nat) :
    floatEq a b = true
      ↔ isNaN a = false ∧ isNaN b = false ∧ (a = b ∨ (a % 2 ^ 31 = 0 ∧ b % 2 ^ 31 = 0)) := by
  unfold floatEq
  simp only [Bool.and_eq_true, Bool.or_eq_true, Bool.not_eq_true', beq_iff_eq]
  constructor
  · rintro ⟨⟨h1, h2⟩, h3⟩
    exact ⟨h1, h2, h3⟩
  · rintro ⟨h1, h2, h3⟩
    exact ⟨⟨h1, h2⟩, h3⟩

/-- What `==` means in `hostSamples`: at each signal format, two samples
compare equal exactly when `SamplesEqual` holds of them. -/
theorem hostSamples_eq_iff (f : SampleType) (data1 data2 : Nat → Nat) (ii : Nat) :
    hostSamples.eq f (hostSamples.cast f data1 ii) (hostSamples.cast f data2 ii) = true
      ↔ SamplesEqual f data1 data2 ii := by
  cases f with
  | RE08I_IM08I =>
    show decide (bytesAt data1 (ii * 2) 2 = bytesAt data2 (ii * 2) 2) = true ↔ _
    rw [decide_eq_true_iff, bytesAt_eq_iff]
    rfl
  | RE16I_IM16I =>
    show decide (bytesAt data1 (ii * 4) 4 = bytesAt data2 (ii * 4) 4) = true ↔ _
    rw [decide_eq_true_iff, bytesAt_eq_iff]
    rfl
  | RE32F_IM32F =>
    show (floatEq (wordOf (bytesAt data1 (ii * 8) 4)) (wordOf (bytesAt data2 (ii * 8) 4))
        && floatEq (wordOf (bytesAt data1 (ii * 8 + 4) 4))
            (wordOf (bytesAt data2 (ii * 8 + 4) 4))) = true ↔ _
    rw [Bool.and_eq_true, floatEq_eq_true, floatEq_eq_true]
    rfl

theorem checkCPHD_eq_true_iff {P : Type} [DecidableEq P] (m : SampleModel)
    (reader1 reader2 : OpenReader P) (numThreads : Nat) :
    checkCPHD m reader1 reader2 numThreads = true ↔ FilesMatch m reader1 reader2 := by
  unfold checkCPHD FilesMatch
  by_cases h1 : reader1.getMetadata = reader2.getMetadata
  · rw [if_neg (not_not.mpr h1)]
    by_cases h2 : reader1.mPVPBlock = reader2.mPVPBlock
    · rw [if_neg (not_not.mpr h2)]
      cases h3 : compareSupportData reader1.supportBytes reader2.supportBytes
          reader1.getMetadata.data.getAllSupportSize with
      | false =>
        have h3n : ¬ ∀ i, i < reader1.getMetadata.data.getAllSupportSize →
            reader1.supportBytes i = reader2.supportBytes i := by
          intro hall
          rw [(compareSupportData_eq_true _ _ _).mpr hall] at h3
          cases h3
        simp only [Bool.not_false, if_true]
        constructor
        · intro h; cases h
        · rintro ⟨_, _, h, _⟩
          exact absurd h h3n
      | true =>
        have h3p := (compareSupportData_eq_true _ _ _).mp h3
        simp only [Bool.not_true, Bool.false_eq_true, if_false]
        by_cases h4 : reader1.getMetadata.data.getNumChannels
            = reader2.getMetadata.data.getNumChannels
        · rw [if_neg (not_not.mpr h4)]
          by_cases h5 : reader1.getMetadata.data.getSignalFormat
              = reader2.getMetadata.data.getSignalFormat
          · rw [if_pos h5]
            have hmin : min reader1.getMetadata.data.getNumChannels
                reader2.getMetadata.data.getNumChannels
                = reader1.getMetadata.data.getNumChannels := by
              rw [← h4]
              exact Nat.min_self _
            have hw := compareWidebandLoop_eq_true m reader1 reader2
              reader1.getMetadata.data.getNumChannels 0 true
            simp only [Nat.zero_add, true_and] at hw
            unfold compareWideband
            rw [hmin]
            cases hc : compareWidebandLoop m reader1 reader2
                reader1.getMetadata.data.getNumChannels 0 true with
            | false =>
              simp only [Bool.not_false, if_true]
              constructor
              · intro h; cases h
              · rintro ⟨_, _, _, _, _, h⟩
                rw [hw.mpr h] at hc
                cases hc
            | true =>
              simp only [Bool.not_true, Bool.false_eq_true, if_false, true_iff]
              exact ⟨h1, h2, h3p, h4, h5, hw.mp hc⟩
          · rw [if_neg h5]
            constructor
            · intro h; cases h
            · rintro ⟨_, _, _, _, h, _⟩
              exact absurd h h5
        · rw [if_pos h4]
          constructor
          · intro h; cases h
          · rintro ⟨_, _, _, h, _⟩
            exact absurd h h4
    · rw [if_pos h2]
      constructor
      · intro h; cases h
      · rintro ⟨_, h, _⟩
        exact absurd h h2
  · rw [if_pos h1]
    constructor
    · intro h; cases h
    · rintro ⟨h, _⟩
      exact absurd h h1

/-- C16, as stated, fails for `RE32F_IM32F` data, in both directions. A file
whose one sample is a NaN (all bytes 255) does not match itself: `checkCPHD`
returns false on two readers identical in every respect. And a file whose
sample is +0 matches a file whose sample is -0 (byte 128 in the last place),
although their wideband bytes differ. -/
theorem checkCPHD_on_NaN_and_zeros :
    checkCPHD hostSamples (floatReader (fun _ => 255)) (floatReader (fun _ => 255)) 1 = false
    ∧ checkCPHD hostSamples (floatReader (fun _ => 0))
        (floatReader (fun k => if k % 4 = 3 then 128 else 0)) 1 = true
    ∧ (floatReader (fun _ => 0)).widebandBytes 0 3
        ≠ (floatReader (fun k => if k % 4 = 3 then 128 else 0)).widebandBytes 0 3 :=
  ⟨rfl, rfl, (by decide)⟩

/-- C16, amended: from two open readers whose reads complete, `checkCPHD`
returns true exactly when the two have equal metadata, equal PVP blocks,
support blocks that agree byte by byte, the same number of channels, the same
signal format, and, in every channel, equal dimensions and wideband samples
that compare equal under `==` of the sample type, over the `dims1.area()`
samples of the channel, a count taken in `size_t` that is the channel's
vectors times samples whenever this product fits `size_t`; in every other
case it returns false. For the two integer formats samples compare equal
exactly when their bytes are the same; for `RE32F_IM32F` each of the real and
imaginary parts must be no NaN in either file and have the same bit pattern
in both, or be a zero in both. -/
theorem checkCPHD_true_iff {P : Type} [DecidableEq P]
    (reader1 reader2 : OpenReader P) (numThreads : Nat) :
    (checkCPHD hostSamples reader1 reader2 numThreads = true
      ↔ FilesMatch hostSamples reader1 reader2)
    ∧ (checkCPHD hostSamples reader1 reader2 numThreads = false
      ↔ ¬ FilesMatch hostSamples reader1 reader2)
    ∧ (∀ ch, ChannelMatches hostSamples reader1 reader2 ch
        ↔ reader1.getMetadata.data.getNumVectors ch
              = reader2.getMetadata.data.getNumVectors ch
          ∧ reader1.getMetadata.data.getNumSamples ch
              = reader2.getMetadata.data.getNumSamples ch
          ∧ ∀ ii, ii < reader1.getMetadata.data.getNumVectors ch
                      * reader1.getMetadata.data.getNumSamples ch % 2 ^ 64 →
              SamplesEqual reader1.getMetadata.data.getSignalFormat
                (reader1.widebandBytes ch) (reader2.widebandBytes ch) ii)
    ∧ (∀ ch, reader1.getMetadata.data.getNumVectors ch
              * reader1.getMetadata.data.getNumSamples ch < 2 ^ 64 →
        (ChannelMatches hostSamples reader1 reader2 ch
          ↔ reader1.getMetadata.data.getNumVectors ch
                = reader2.getMetadata.data.getNumVectors ch
            ∧ reader1.getMetadata.data.getNumSamples ch
                = reader2.getMetadata.data.getNumSamples ch
            ∧ ∀ ii, ii < reader1.getMetadata.data.getNumVectors ch
                        * reader1.getMetadata.data.getNumSamples ch →
                SamplesEqual reader1.getMetadata.data.getSignalFormat
                  (reader1.widebandBytes ch) (reader2.widebandBytes ch) ii)) := by
  have key := checkCPHD_eq_true_iff hostSamples reader1 reader2 numThreads
  have hch : ∀ ch, ChannelMatches hostSamples reader1 reader2 ch
      ↔ reader1.getMetadata.data.getNumVectors ch
            = reader2.getMetadata.data.getNumVectors ch
        ∧ reader1.getMetadata.data.getNumSamples ch
            = reader2.getMetadata.data.getNumSamples ch
        ∧ ∀ ii, ii < reader1.getMetadata.data.getNumVectors ch
                    * reader1.getMetadata.data.getNumSamples ch % 2 ^ 64 →
            SamplesEqual reader1.getMetadata.data.getSignalFormat
              (reader1.widebandBytes ch) (reader2.widebandBytes ch) ii := by
    intro ch
    unfold ChannelMatches
    constructor
    · rintro ⟨h1, h2, h3⟩
      exact ⟨h1, h2, fun ii hii => (hostSamples_eq_iff _ _ _ ii).mp (h3 ii hii)⟩
    · rintro ⟨h1, h2, h3⟩
      exact ⟨h1, h2, fun ii hii => (hostSamples_eq_iff _ _ _ ii).mpr (h3 ii hii)⟩
  refine ⟨key, ?_, hch, ?_⟩
  · rw [← key]
    cases checkCPHD hostSamples reader1 reader2 numThreads <;> simp
  · intro ch hfit
    have := hch ch
    rw [Nat.mod_eq_of_lt hfit] at this
    exact this

/-- Witness for C16 amended: a reader matches itself, and does not match a
reader whose wideband bytes differ. -/
theorem checkCPHD_true_iff_witness :
    checkCPHD hostSamples (smallOpenReader 1) (smallOpenReader 1) 4 = true
    ∧ FilesMatch hostSamples (smallOpenReader 1) (smallOpenReader 1)
    ∧ checkCPHD hostSamples (smallOpenReader 1) (smallOpenReader 2) 4 = false
    ∧ ¬ FilesMatch hostSamples (smallOpenReader 1) (smallOpenReader 2) :=
  ⟨rfl,
   (checkCPHD_true_iff (smallOpenReader 1) (smallOpenReader 1) 4).1.mp rfl,
   rfl,
   (checkCPHD_true_iff (smallOpenReader 1) (smallOpenReader 2) 4).2.1.mp rfl⟩

end cphd

namespace sidd

/-! ## The SIDD comparison program -/

theorem memcmp_eq_zero (s1 s2 : Nat → Nat) :
    ∀ count i, memcmp s1 s2 count i = 0 ↔ ∀ j, j < count → s1 (i + j) = s2 (i + j) := by
  intro count
  induction count with
  | zero =>
    intro i
    simp [memcmp]
  | succ n ih =>
    intro i
    unfold memcmp
    by_cases he : s1 i = s2 i
    · rw [if_pos he, ih (i + 1)]
      constructor
      · intro h j hj
        cases j with
        | zero => rw [Nat.add_zero]; exact he
        | succ k =>
          have := h k (by omega)
          rw [Nat.add_assoc, Nat.add_comm 1 k] at this
          exact this
      · intro h j hj
        have := h (j + 1) (by omega)
        rw [Nat.add_assoc, Nat.add_comm 1 j]
        exact this
    · rw [if_neg he]
      constructor
      · intro h
        by_cases hlt : s1 i < s2 i
        · rw [if_pos hlt] at h; cases h
        · rw [if_neg hlt] at h; cases h
      · intro h
        have := h 0 (Nat.succ_pos n)
        rw [Nat.add_zero] at this
        exact absurd this he

theorem sizeMul_sizeMul (a b c : Nat) : sizeMul (sizeMul a b) c = a * b * c % 2 ^ 64 := by
  unfold sizeMul
  rw [Nat.mul_mod (a * b % 2 ^ 64) c, Nat.mod_mod, ← Nat.mul_mod]

theorem compareProducts_ignoreMetadata (sidd1 sidd2 : Product) (ignoreDate : Bool) :
    compareProducts sidd1 sidd2 true ignoreDate = true
      ↔ sidd1.metadata.numRows = sidd2.metadata.numRows
        ∧ sidd1.metadata.numCols = sidd2.metadata.numCols
        ∧ sidd1.metadata.numBytesPerPixel = sidd2.metadata.numBytesPerPixel
        ∧ ∀ i, i < sidd1.metadata.numRows * sidd1.metadata.numCols
                  * sidd1.metadata.numBytesPerPixel % 2 ^ 64 →
            sidd1.buffer i = sidd2.buffer i := by
  unfold compareProducts
  simp only [Bool.not_true, Bool.false_eq_true, if_false]
  by_cases hd : sidd1.metadata.numRows ≠ sidd2.metadata.numRows
      ∨ sidd1.metadata.numCols ≠ sidd2.metadata.numCols
      ∨ sidd1.metadata.numBytesPerPixel ≠ sidd2.metadata.numBytesPerPixel
  · rw [if_pos hd]
    constructor
    · intro h; cases h
    · rintro ⟨h1, h2, h3, _⟩
      rcases hd with hd | hd | hd
      · exact absurd h1 hd
      · exact absurd h2 hd
      · exact absurd h3 hd
  · rw [if_neg hd]
    push_neg at hd
    rw [decide_eq_true_iff, memcmp_eq_zero, sizeMul_sizeMul]
    simp only [Nat.zero_add]
    constructor
    · intro h
      exact ⟨hd.1, hd.2.1, hd.2.2, h⟩
    · rintro ⟨_, _, _, h⟩
      exact h

theorem main_of_outcome (parse : List String → Except Raised Options)
    (load : String → Except Raised Product) (argv : List String) (o : Options)
    (hp : parse argv = .ok o) :
    (siddsMatch load o.sidd1 o.sidd2 o.ignoreMetadata o.ignoreDate = .ok true →
      main parse load argv = .returned 0)
    ∧ (siddsMatch load o.sidd1 o.sidd2 o.ignoreMetadata o.ignoreDate = .ok false →
      main parse load argv = .returned 1)
    ∧ (∀ text, siddsMatch load o.sidd1 o.sidd2 o.ignoreMetadata o.ignoreDate
          = .error (.throwable text) →
      main parse load argv = .returned 1)
    ∧ (∀ tag, siddsMatch load o.sidd1 o.sidd2 o.ignoreMetadata o.ignoreDate
          = .error (.foreign tag) →
      main parse load argv = .uncaught (.foreign tag)) := by
  refine ⟨?_, ?_, ?_, ?_⟩
  · intro hs
    unfold main
    simp only [hp, hs]
  · intro hs
    unfold main
    simp only [hp, hs]
  · intro text hs
    unfold main
    simp only [hp, hs]
  · intro tag hs
    unfold main
    simp only [hp, hs]

theorem main_of_parse_error (parse : List String → Except Raised Options)
    (load : String → Except Raised Product) (argv : List String) :
    (∀ text, parse argv = .error (.throwable text) → main parse load argv = .returned 1)
    ∧ (∀ tag, parse argv = .error (.foreign tag) →
        main parse load argv = .uncaught (.foreign tag)) := by
  constructor
  · intro text hp
    unfold main
    simp only [hp]
  · intro tag hp
    unfold main
    simp only [hp]

/-- C15, as stated, fails: when the allocation of the pixel buffer throws
`std::bad_alloc` while the first product is loaded, an error is raised while
loading and `main` returns no code: the exception is not an
`except::Throwable`, so the one `catch` clause of `main` lets it pass. -/
theorem main_does_not_catch_bad_alloc :
    siddsMatch exhaustedLoad "a" "b" false false = .error (.foreign 0)
    ∧ main plainParse exhaustedLoad ["a", "b"] = .uncaught (.foreign 0)
    ∧ main plainParse exhaustedLoad ["a", "b"] ≠ .returned 1 :=
  ⟨rfl, rfl, (fun h => by cases h)⟩

/-- C15, amended: `main` of `test_compare_sidd` returns 0 exactly when the
arguments parse and `siddsMatch` returns true; it returns a nonzero code, 1,
when `siddsMatch` returns false, and it returns 1 when an `except::Throwable`
is raised while parsing, loading or comparing (the one type its `catch`
clause names); an exception of any other type is not caught by `main`, which
then returns no code. -/
theorem main_returns_zero_iff_match (parse : List String → Except Raised Options)
    (load : String → Except Raised Product) (argv : List String) :
    (main parse load argv = .returned 0
      ↔ ∃ o, parse argv = .ok o
          ∧ siddsMatch load o.sidd1 o.sidd2 o.ignoreMetadata o.ignoreDate = .ok true)
    ∧ (∀ o, parse argv = .ok o →
        siddsMatch load o.sidd1 o.sidd2 o.ignoreMetadata o.ignoreDate = .ok false →
        main parse load argv = .returned 1)
    ∧ (∀ o text, parse argv = .ok o →
        siddsMatch load o.sidd1 o.sidd2 o.ignoreMetadata o.ignoreDate
          = .error (.throwable text) →
        main parse load argv = .returned 1)
    ∧ (∀ text, parse argv = .error (.throwable text) → main parse load argv = .returned 1)
    ∧ (∀ o tag, parse argv = .ok o →
        siddsMatch load o.sidd1 o.sidd2 o.ignoreMetadata o.ignoreDate
          = .error (.foreign tag) →
        main parse load argv = .uncaught (.foreign tag))
    ∧ (∀ tag, parse argv = .error (.foreign tag) →
        main parse load argv = .uncaught (.foreign tag)) := by
  refine ⟨⟨?_, ?_⟩, ?_, ?_, ?_, ?_, ?_⟩
  · intro h
    cases hp : parse argv with
    | error t =>
      cases t with
      | throwable text =>
        rw [(main_of_parse_error parse load argv).1 text hp] at h
        cases h
      | foreign tag =>
        rw [(main_of_parse_error parse load argv).2 tag hp] at h
        cases h
    | ok o =>
      refine ⟨o, rfl, ?_⟩
      cases hs : siddsMatch load o.sidd1 o.sidd2 o.ignoreMetadata o.ignoreDate with
      | error t =>
        cases t with
        | throwable text =>
          rw [(main_of_outcome parse load argv o hp).2.2.1 text hs] at h
          cases h
        | foreign tag =>
          rw [(main_of_outcome parse load argv o hp).2.2.2 tag hs] at h
          cases h
      | ok b =>
        cases b with
        | true => rfl
        | false =>
          rw [(main_of_outcome parse load argv o hp).2.1 hs] at h
          cases h
  · rintro ⟨o, hp, hs⟩
    exact (main_of_outcome parse load argv o hp).1 hs
  · intro o hp hs
    exact (main_of_outcome parse load argv o hp).2.1 hs
  · intro o text hp hs
    exact (main_of_outcome parse load argv o hp).2.2.1 text hs
  · intro text hp
    exact (main_of_parse_error parse load argv).1 text hp
  · intro o tag hp hs
    exact (main_of_outcome parse load argv o hp).2.2.2 tag hs
  · intro tag hp
    exact (main_of_parse_error parse load argv).2 tag hp

/-- Witness for C15 amended: files "a" and "b" hold the same pixels and
different creation times, "c" holds other pixels, "zz" does not exist. -/
theorem main_returns_zero_iff_match_witness :
    main plainParse smallLoad ["a", "a"] = .returned 0
    ∧ main plainParse smallLoad ["a", "c"] = .returned 1
    ∧ main plainParse smallLoad ["a", "zz"] = .returned 1
    ∧ main plainParse exhaustedLoad ["a", "a"] = .uncaught (.foreign 0) :=
  ⟨(main_returns_zero_iff_match plainParse smallLoad ["a", "a"]).1.mpr ⟨_, rfl, rfl⟩,
   (main_returns_zero_iff_match plainParse smallLoad ["a", "c"]).2.1 _ rfl rfl,
   (main_returns_zero_iff_match plainParse smallLoad ["a", "zz"]).2.2.1 _ "file not found"
      rfl rfl,
   (main_returns_zero_iff_match plainParse exhaustedLoad ["a", "a"]).2.2.2.2.1 _ 0 rfl rfl⟩

/-- C17: with `ignoreMetadata` set, for every pair of products (however they
were loaded, whatever `ignoreDate` is), `siddsMatch` returns true if and only
if the two have the same number of rows, the same number of columns, the same
bytes per pixel, and pixel buffers that agree on each of the
`rows * cols * bytesPerPixel` bytes, a count taken in `size_t` (modulo 2^64),
with which `readWideband` allocates both buffers; whenever the product fits
`size_t`, as the size of every buffer in memory does, that is
`rows * cols * bytesPerPixel` itself. Two pairs of products that agree in these
dimensions and bytes get the same answer, whatever else their metadata
holds. -/
theorem siddsMatch_ignoreMetadata (load : String → Except Raised Product)
    (sidd1Path sidd2Path : String) (sidd1 sidd2 : Product) (ignoreDate : Bool)
    (h1 : load sidd1Path = .ok sidd1) (h2 : load sidd2Path = .ok sidd2) :
    (∃ b, siddsMatch load sidd1Path sidd2Path true ignoreDate = .ok b
      ∧ (b = true
          ↔ sidd1.metadata.numRows = sidd2.metadata.numRows
            ∧ sidd1.metadata.numCols = sidd2.metadata.numCols
            ∧ sidd1.metadata.numBytesPerPixel = sidd2.metadata.numBytesPerPixel
            ∧ ∀ i, i < sidd1.metadata.numRows * sidd1.metadata.numCols
                      * sidd1.metadata.numBytesPerPixel % 2 ^ 64 →
                sidd1.buffer i = sidd2.buffer i)
      ∧ (sidd1.metadata.numRows * sidd1.metadata.numCols
            * sidd1.metadata.numBytesPerPixel < 2 ^ 64 →
          (b = true
            ↔ sidd1.metadata.numRows = sidd2.metadata.numRows
              ∧ sidd1.metadata.numCols = sidd2.metadata.numCols
              ∧ sidd1.metadata.numBytesPerPixel = sidd2.metadata.numBytesPerPixel
              ∧ ∀ i, i < sidd1.metadata.numRows * sidd1.metadata.numCols
                        * sidd1.metadata.numBytesPerPixel →
                  sidd1.buffer i = sidd2.buffer i)))
    ∧ (∀ (other1 other2 : Product) (ignoreDate2 : Bool),
        other1.metadata.numRows = sidd1.metadata.numRows →
        other1.metadata.numCols = sidd1.metadata.numCols →
        other1.metadata.numBytesPerPixel = sidd1.metadata.numBytesPerPixel →
        other2.metadata.numRows = sidd2.metadata.numRows →
        other2.metadata.numCols = sidd2.metadata.numCols →
        other2.metadata.numBytesPerPixel = sidd2.metadata.numBytesPerPixel →
        (∀ i, i < sidd1.metadata.numRows * sidd1.metadata.numCols
                  * sidd1.metadata.numBytesPerPixel % 2 ^ 64 →
            other1.buffer i = sidd1.buffer i ∧ other2.buffer i = sidd2.buffer i) →
        compareProducts other1 other2 true ignoreDate2
          = compareProducts sidd1 sidd2 true ignoreDate) := by
  constructor
  · refine ⟨compareProducts sidd1 sidd2 true ignoreDate, ?_,
      compareProducts_ignoreMetadata sidd1 sidd2 ignoreDate, ?_⟩
    · unfold siddsMatch
      rw [h1, h2]
    · intro hfit
      have := compareProducts_ignoreMetadata sidd1 sidd2 ignoreDate
      rw [Nat.mod_eq_of_lt hfit] at this
      exact this
  · intro o1 o2 d2 r1 c1 b1 r2 c2 b2 hbuf
    rw [Bool.eq_iff_iff, compareProducts_ignoreMetadata, compareProducts_ignoreMetadata,
      r1, c1, b1, r2, c2, b2]
    constructor
    · rintro ⟨k1, k2, k3, k4⟩
      refine ⟨k1, k2, k3, ?_⟩
      intro i hi
      rw [← (hbuf i hi).1, ← (hbuf i hi).2]
      exact k4 i hi
    · rintro ⟨k1, k2, k3, k4⟩
      refine ⟨k1, k2, k3, ?_⟩
      intro i hi
      rw [(hbuf i hi).1, (hbuf i hi).2]
      exact k4 i hi

/-- Witness for C17: files "a" and "b" differ in their creation time only and
match with `ignoreMetadata` set; their pixel buffers hold 1 x 2 x 1 bytes. -/
theorem siddsMatch_ignoreMetadata_witness :
    siddsMatch smallLoad "a" "b" true false = .ok true
    ∧ siddsMatch smallLoad "a" "c" true false = .ok false
    ∧ ∃ b, siddsMatch smallLoad "a" "b" true false = .ok b
      ∧ (b = true
          ↔ (smallProduct 1 5).metadata.numRows = (smallProduct 2 5).metadata.numRows
            ∧ (smallProduct 1 5).metadata.numCols = (smallProduct 2 5).metadata.numCols
            ∧ (smallProduct 1 5).metadata.numBytesPerPixel
                = (smallProduct 2 5).metadata.numBytesPerPixel
            ∧ ∀ i, i < (smallProduct 1 5).metadata.numRows
                        * (smallProduct 1 5).metadata.numCols
                        * (smallProduct 1 5).metadata.numBytesPerPixel →
                (smallProduct 1 5).buffer i = (smallProduct 2 5).buffer i) :=
  ⟨rfl, rfl,
   match (siddsMatch_ignoreMetadata smallLoad "a" "b" (smallProduct 1 5) (smallProduct 2 5)
      false rfl rfl).1 with
   | ⟨b, hb, _, hfit⟩ => ⟨b, hb, hfit (by decide)⟩⟩

end sidd

namespace cphd

/-- C20: for every reader, the domain type its queries answer from is the one
its metadata holds; `getDomainTypeString()` is one of "FX", "TOA" and
"NOT_SET", each exactly when the metadata's domain type is that one; `isFX()`
is true exactly when the metadata's domain type is FX and `isTOA()` exactly
when it is TOA, so the two are never both true. -/
theorem domainType_queries_consistent (r : CPHDReader) :
    r.getDomainType = r.mMetadata.global.domainType
    ∧ (r.getDomainTypeString = "FX" ∨ r.getDomainTypeString = "TOA"
        ∨ r.getDomainTypeString = "NOT_SET")
    ∧ (r.getDomainTypeString = "FX" ↔ r.mMetadata.global.domainType = DomainType.FX)
    ∧ (r.getDomainTypeString = "TOA" ↔ r.mMetadata.global.domainType = DomainType.TOA)
    ∧ (r.getDomainTypeString = "NOT_SET"
        ↔ r.mMetadata.global.domainType = DomainType.NOT_SET)
    ∧ (r.isFX = true ↔ r.mMetadata.global.domainType = DomainType.FX)
    ∧ (r.isTOA = true ↔ r.mMetadata.global.domainType = DomainType.TOA)
    ∧ ¬ (r.isFX = true ∧ r.isTOA = true) := by
  unfold CPHDReader.getDomainTypeString CPHDReader.isFX CPHDReader.isTOA
    CPHDReader.getDomainType Global.getDomainType
  cases h : r.mMetadata.global.domainType with
  | FX => simp [DomainType.toString]
  | TOA => simp [DomainType.toString]
  | NOT_SET => simp [DomainType.toString]

/-- An instance of C20: a reader over FX metadata answers `isFX()` with true,
`isTOA()` with false and `getDomainTypeString()` with "FX"; a reader over TOA
metadata answers the other way round. -/
theorem domainType_queries_consistent_witness :
    (domainReader .FX).isFX = true ∧ (domainReader .FX).isTOA = false
    ∧ (domainReader .FX).getDomainTypeString = "FX"
    ∧ (domainReader .TOA).isFX = false ∧ (domainReader .TOA).isTOA = true
    ∧ (domainReader .TOA).getDomainTypeString = "TOA"
    ∧ (domainReader .NOT_SET).isFX = false ∧ (domainReader .NOT_SET).isTOA = false :=
  ⟨(domainType_queries_consistent (domainReader .FX)).2.2.2.2.2.1.mpr rfl,
   rfl, rfl, rfl,
   (domainType_queries_consistent (domainReader .TOA)).2.2.2.2.2.2.1.mpr rfl,
   rfl, rfl, rfl⟩

end cphd

namespace cphd03

/-! ## The CPHD 0.3 file header -/

theorem wrapOff_of_fits (v : Int) (h : fitsOff v) : wrapOff v = v := by
  unfold wrapOff
  unfold fitsOff at h
  omega

/-- C18: each getter of the header returns the value last given to the
matching setter, and `getPadBytes()` is `getVBMoffset() - (getXMLoffset() +
getXMLsize() + 2)`: the padding between the XML section and the VBM section,
without the 2-byte section terminator. For every header state the two
equations hold in `sys::Off_T` arithmetic, and they hold over the integers
whenever no intermediate value leaves the range of `sys::Off_T`. -/
theorem getPadBytes_formula (h : FileHeader) (v : Int) :
    ((h.setXMLsize v).getXMLsize = v ∧ (h.setVBMsize v).getVBMsize = v
      ∧ (h.setCPHDsize v).getCPHDsize = v ∧ (h.setXMLoffset v).getXMLoffset = v
      ∧ (h.setVBMoffset v).getVBMoffset = v ∧ (h.setCPHDoffset v).getCPHDoffset = v)
    ∧ (h.wellTyped →
        h.getPadBytes = wrapOff (h.getVBMoffset - (h.getXMLoffset + h.getXMLsize + 2))
        ∧ wrapOff (h.getXMLoffset + h.getXMLsize + 2 + h.getPadBytes) = h.getVBMoffset)
    ∧ (h.wellTyped →
        fitsOff (h.getXMLoffset + h.getXMLsize) →
        fitsOff (h.getXMLoffset + h.getXMLsize + 2) →
        fitsOff (h.getVBMoffset - (h.getXMLoffset + h.getXMLsize + 2)) →
        h.getPadBytes = h.getVBMoffset - (h.getXMLoffset + h.getXMLsize + 2)
        ∧ h.getXMLoffset + h.getXMLsize + 2 + h.getPadBytes = h.getVBMoffset) := by
  refine ⟨⟨rfl, rfl, rfl, rfl, rfl, rfl⟩, ?_, ?_⟩
  · intro hw
    obtain ⟨h1, h2, h3, h4, h5, h6⟩ := hw
    unfold FileHeader.getPadBytes FileHeader.getVBMoffset FileHeader.getXMLoffset
      FileHeader.getXMLsize wrapOff
    unfold fitsOff at h1 h2 h3 h4 h5 h6
    constructor
    · omega
    · omega
  · intro hw f1 f2 f3
    unfold FileHeader.getPadBytes
    rw [wrapOff_of_fits _ f1, wrapOff_of_fits _ f2, wrapOff_of_fits _ f3]
    constructor
    · rfl
    · omega

/-- Witness for C18: XML section of 100 bytes at byte 40, VBM section at byte
150: 8 pad bytes after the 2-byte terminator. -/
theorem getPadBytes_formula_witness :
    sampleHeader.getPadBytes = 8
    ∧ sampleHeader.getXMLoffset + sampleHeader.getXMLsize + 2 + sampleHeader.getPadBytes
        = sampleHeader.getVBMoffset :=
  ⟨((getPadBytes_formula sampleHeader 0).2.2 (by decide) (by decide) (by decide)
      (by decide)).1,
   ((getPadBytes_formula sampleHeader 0).2.2 (by decide) (by decide) (by decide)
      (by decide)).2⟩

end cphd03

namespace six

/-! ## The legend -/

theorem length_resize (v : List Nat) (n : Nat) : (resize v n).length = n := by
  unfold resize
  rw [List.length_append, List.length_take, List.length_replicate]
  omega

theorem setDims_returns_iff {LUT : Type} (allocates : Nat → Bool) (l : Legend LUT)
    (d : RowCol) :
    ((l.setDims allocates d).1 = none
      ↔ d.row * d.col % 18446744073709551616 ≤ max_size
        ∧ (d.row * d.col % 18446744073709551616 ≤ l.mImage.length
            ∨ allocates (d.row * d.col % 18446744073709551616) = true))
    ∧ ((l.setDims allocates d).1 = none →
        (l.setDims allocates d).2.mImage
          = resize l.mImage (d.row * d.col % 18446744073709551616)) := by
  unfold Legend.setDims resizeChecked
  by_cases h1 : max_size < d.row * d.col % 18446744073709551616
  · rw [if_pos h1]
    refine ⟨⟨fun h => (by cases h), fun h => absurd h1 (by omega)⟩, fun h => (by cases h)⟩
  · rw [if_neg h1]
    by_cases h2 : l.mImage.length < d.row * d.col % 18446744073709551616
        ∧ allocates (d.row * d.col % 18446744073709551616) = false
    · rw [if_pos h2]
      refine ⟨⟨fun h => (by cases h), ?_⟩, fun h => (by cases h)⟩
      rintro ⟨_, h | h⟩
      · omega
      · rw [h2.2] at h
        cases h
    · rw [if_neg h2]
      refine ⟨⟨fun _ => ⟨by omega, ?_⟩, fun _ => rfl⟩, fun _ => rfl⟩
      by_cases h3 : d.row * d.col % 18446744073709551616 ≤ l.mImage.length
      · exact Or.inl h3
      · right
        cases ha : allocates (d.row * d.col % 18446744073709551616) with
        | true => rfl
        | false => exact absurd ⟨by omega, ha⟩ h2

theorem setDims_frame {LUT : Type} (allocates : Nat → Bool) (l : Legend LUT) (d : RowCol) :
    (l.setDims allocates d).2.mDims = d
    ∧ (l.setDims allocates d).2.mType = l.mType
    ∧ (l.setDims allocates d).2.mLocation = l.mLocation
    ∧ (l.setDims allocates d).2.mLUT = l.mLUT := by
  unfold Legend.setDims
  cases resizeChecked allocates l.mImage (d.row * d.col % 18446744073709551616) with
  | ok image => exact ⟨rfl, rfl, rfl, rfl⟩
  | error t => exact ⟨rfl, rfl, rfl, rfl⟩

/-- C19, as stated, fails: on a default-constructed legend, `setDims` with
dims 2^32 by 2^31, whose product 2^63 does not overflow `size_t`, does not
leave an image of 2^63 bytes: `resize` throws `std::length_error`, although
every allocation is granted, and the image keeps its size 0. -/
theorem setDims_above_max_size :
    (4294967296 * 2147483648 : Nat) < 18446744073709551616
    ∧ ((Legend.new Nat).setDims unlimitedMemory ⟨4294967296, 2147483648⟩).1
        = some .length_error
    ∧ ((Legend.new Nat).setDims unlimitedMemory ⟨4294967296, 2147483648⟩).2.mImage.length
        = 0
    ∧ ((Legend.new Nat).setDims unlimitedMemory ⟨4294967296, 2147483648⟩).2.mImage.length
        ≠ 4294967296 * 2147483648 :=
  ⟨(by decide), rfl, rfl, (by decide)⟩

/-- C19, amended: a default-constructed `Legend` has dims (0,0) and an empty
image; `setDims(d)` returns exactly when `d.row * d.col`, computed in
`size_t`, is at most the vector's `max_size()` and, where the image has to
grow, the allocation succeeds; after a `setDims(d)` that returns, for any `d`
whose `d.row * d.col` does not overflow `size_t`, `mDims` equals `d` and
`mImage.size()` equals `d.row * d.col`; so `mImage.size() = mDims.row *
mDims.col` holds after construction and after every `setDims` that returns,
while `mType`, `mLocation` and `mLUT` are left as they were by every
`setDims`. -/
theorem legend_image_sized_to_dims {LUT : Type} (allocates : Nat → Bool) (l : Legend LUT)
    (d : RowCol) :
    ((Legend.new LUT).mDims = ⟨0, 0⟩ ∧ (Legend.new LUT).mImage = []
      ∧ (Legend.new LUT).mImage.length
          = (Legend.new LUT).mDims.row * (Legend.new LUT).mDims.col)
    ∧ ((l.setDims allocates d).1 = none
        ↔ d.row * d.col % 18446744073709551616 ≤ max_size
          ∧ (d.row * d.col % 18446744073709551616 ≤ l.mImage.length
              ∨ allocates (d.row * d.col % 18446744073709551616) = true))
    ∧ ((l.setDims allocates d).1 = none → d.row * d.col < 18446744073709551616 →
        (l.setDims allocates d).2.mDims = d
        ∧ (l.setDims allocates d).2.mImage.length = d.row * d.col
        ∧ (l.setDims allocates d).2.mImage.length
            = (l.setDims allocates d).2.mDims.row * (l.setDims allocates d).2.mDims.col)
    ∧ ((l.setDims allocates d).2.mType = l.mType
        ∧ (l.setDims allocates d).2.mLocation = l.mLocation
        ∧ (l.setDims allocates d).2.mLUT = l.mLUT) := by
  obtain ⟨hret, himg⟩ := setDims_returns_iff allocates l d
  obtain ⟨hdims, hframe⟩ := setDims_frame allocates l d
  refine ⟨⟨rfl, rfl, rfl⟩, hret, ?_, hframe⟩
  intro hnone hd
  have hlen : (l.setDims allocates d).2.mImage.length = d.row * d.col := by
    rw [himg hnone, length_resize, Nat.mod_eq_of_lt hd]
  refine ⟨hdims, hlen, ?_⟩
  rw [hlen, hdims]

/-- Witness for C19 amended: a fresh legend set to 3 x 4 holds 12 bytes, and
set again to 2 x 2 holds 4. -/
theorem legend_image_sized_to_dims_witness :
    ((Legend.new Nat).setDims unlimitedMemory ⟨3, 4⟩).1 = none
    ∧ ((Legend.new Nat).setDims unlimitedMemory ⟨3, 4⟩).2.mImage.length = 3 * 4
    ∧ ((((Legend.new Nat).setDims unlimitedMemory ⟨3, 4⟩).2.setDims unlimitedMemory
          ⟨2, 2⟩).2.mImage.length = 2 * 2) :=
  ⟨rfl,
   ((legend_image_sized_to_dims unlimitedMemory (Legend.new Nat) ⟨3, 4⟩).2.2.1 rfl
      (by decide)).2.1,
   ((legend_image_sized_to_dims unlimitedMemory
      ((Legend.new Nat).setDims unlimitedMemory ⟨3, 4⟩).2 ⟨2, 2⟩).2.2.1 rfl (by decide)).2.1⟩

end six

namespace cphd

/-! ## The CPHD comparison program -/

theorem checkCPHD_of_metadata_ne {P : Type} [DecidableEq P] (m : SampleModel)
    (reader1 reader2 : OpenReader P) (numThreads : Nat)
    (h : reader1.getMetadata ≠ reader2.getMetadata) :
    checkCPHD m reader1 reader2 numThreads = false := by
  unfold checkCPHD
  rw [if_pos h]

theorem checkCPHD_of_channel_counts_ne {P : Type} [DecidableEq P] (m : SampleModel)
    (reader1 reader2 : OpenReader P) (numThreads : Nat)
    (h : reader1.getMetadata.data.getNumChannels ≠ reader2.getMetadata.data.getNumChannels) :
    checkCPHD m reader1 reader2 numThreads = false := by
  apply checkCPHD_of_metadata_ne
  intro he
  rw [he] at h
  exact h rfl

theorem checkCPHDReads_of_metadata_ne {P : Type} [DecidableEq P]
    (reader1 reader2 : OpenReader P) (numThreads : Nat)
    (h : reader1.getMetadata ≠ reader2.getMetadata) :
    checkCPHDReads reader1 reader2 numThreads = [] := by
  unfold checkCPHDReads
  rw [if_pos h]

/-- C23, as stated, fails: for a file of one channel and a file of two
channels whose first channels have the same dimensions and the same bytes,
`checkCPHD` returns false without a single read: the wideband data of the
first min(1, 2) = 1 channel is not read, so it is not compared. Between two
files of one channel each, the reads of channel 0 are there. -/
theorem wideband_not_read_when_channel_counts_differ :
    (openReaderOver [⟨2, 2⟩] 1).getMetadata.data.getNumChannels = 1
    ∧ (openReaderOver [⟨2, 2⟩, ⟨1, 1⟩] 1).getMetadata.data.getNumChannels = 2
    ∧ checkCPHD hostSamples (openReaderOver [⟨2, 2⟩] 1)
        (openReaderOver [⟨2, 2⟩, ⟨1, 1⟩] 1) 4 = false
    ∧ checkCPHDReads (openReaderOver [⟨2, 2⟩] 1) (openReaderOver [⟨2, 2⟩, ⟨1, 1⟩] 1) 4 = []
    ∧ BlockRead.wideband 1 0
        ∉ checkCPHDReads (openReaderOver [⟨2, 2⟩] 1) (openReaderOver [⟨2, 2⟩, ⟨1, 1⟩] 1) 4
    ∧ checkCPHDReads (openReaderOver [⟨2, 2⟩] 1) (openReaderOver [⟨2, 2⟩] 1) 4
        = [.support 1, .support 2, .wideband 1 0, .wideband 2 0] :=
  ⟨rfl, rfl, rfl, rfl, (by decide), rfl⟩

theorem mem_compareWidebandReads {P : Type} (reader1 reader2 : OpenReader P)
    (file channel : Nat) :
    ∀ n i, BlockRead.wideband file channel ∈ compareWidebandReads reader1 reader2 n i
      ↔ (file = 1 ∨ file = 2) ∧ i ≤ channel ∧ channel < i + n
        ∧ reader1.getMetadata.data.getNumVectors channel
            = reader2.getMetadata.data.getNumVectors channel
        ∧ reader1.getMetadata.data.getNumSamples channel
            = reader2.getMetadata.data.getNumSamples channel := by
  intro n
  induction n with
  | zero =>
    intro i
    constructor
    · intro h
      cases h
    · rintro ⟨_, h1, h2, _⟩
      omega
  | succ n ih =>
    intro i
    unfold compareWidebandReads
    rw [List.mem_append, ih (i + 1)]
    by_cases hd : (reader1.getMetadata.data.getNumVectors i,
          reader1.getMetadata.data.getNumSamples i)
        = (reader2.getMetadata.data.getNumVectors i,
            reader2.getMetadata.data.getNumSamples i)
    · rw [if_pos hd]
      rw [Prod.mk.injEq] at hd
      constructor
      · rintro (h | ⟨hf, h1, h2, h3⟩)
        · rcases List.mem_cons.mp h with h | h
          · injection h with hf hc
            subst hc
            exact ⟨Or.inl hf, Nat.le_refl _, by omega, hd.1, hd.2⟩
          · rcases List.mem_cons.mp h with h | h
            · injection h with hf hc
              subst hc
              exact ⟨Or.inr hf, Nat.le_refl _, by omega, hd.1, hd.2⟩
            · cases h
        · exact ⟨hf, by omega, by omega, h3⟩
      · rintro ⟨hf, h1, h2, h3⟩
        by_cases hc : channel = i
        · left
          subst hc
          rcases hf with hf | hf
          · subst hf
            exact List.mem_cons_self _ _
          · subst hf
            exact List.mem_cons_of_mem _ (List.mem_cons_self _ _)
        · right
          exact ⟨hf, by omega, by omega, h3⟩
    · rw [if_neg hd]
      rw [Prod.mk.injEq] at hd
      constructor
      · rintro (h | ⟨hf, h1, h2, h3⟩)
        · cases h
        · exact ⟨hf, by omega, by omega, h3⟩
      · rintro ⟨hf, h1, h2, h3⟩
        right
        refine ⟨hf, ?_, by omega, h3⟩
        by_contra hlt
        have hc : channel = i := by omega
        subst hc
        exact hd h3

/-- C23, amended: when the two CPHD files contain a differing number of
channels, their metadata differ, and `checkCPHD` returns false at the
comparison of the metadata, its first step: it reads no support block and no
wideband data, so `compareWideband` is not run on any channel, whatever the
files hold. The wideband data of a channel is read, to be compared, only
between files with equal metadata, equal PVP blocks and support blocks that
agree, and then for each channel whose dimensions are equal in both. -/
theorem checkCPHD_stops_at_metadata {P : Type} [DecidableEq P] (m : SampleModel)
    (reader1 reader2 : OpenReader P) (numThreads : Nat) :
    (reader1.getMetadata.data.getNumChannels ≠ reader2.getMetadata.data.getNumChannels →
      reader1.getMetadata ≠ reader2.getMetadata
      ∧ checkCPHD m reader1 reader2 numThreads = false
      ∧ checkCPHDReads reader1 reader2 numThreads = [])
    ∧ (∀ file channel,
        BlockRead.wideband file channel ∈ checkCPHDReads reader1 reader2 numThreads
          ↔ (file = 1 ∨ file = 2)
            ∧ reader1.getMetadata = reader2.getMetadata
            ∧ reader1.mPVPBlock = reader2.mPVPBlock
            ∧ compareSupportData reader1.supportBytes reader2.supportBytes
                reader1.getMetadata.data.getAllSupportSize = true
            ∧ channel < reader1.getMetadata.data.getNumChannels
            ∧ reader1.getMetadata.data.getNumVectors channel
                = reader2.getMetadata.data.getNumVectors channel
            ∧ reader1.getMetadata.data.getNumSamples channel
                = reader2.getMetadata.data.getNumSamples channel) := by
  constructor
  · intro h
    have hne : reader1.getMetadata ≠ reader2.getMetadata := by
      intro he
      rw [he] at h
      exact h rfl
    exact ⟨hne, checkCPHD_of_metadata_ne m reader1 reader2 numThreads hne,
      checkCPHDReads_of_metadata_ne reader1 reader2 numThreads hne⟩
  · intro file channel
    unfold checkCPHDReads
    by_cases h1 : reader1.getMetadata = reader2.getMetadata
    · rw [if_neg (not_not.mpr h1)]
      by_cases h2 : reader1.mPVPBlock = reader2.mPVPBlock
      · rw [if_neg (not_not.mpr h2)]
        have hsup : BlockRead.wideband file channel
            ∉ [BlockRead.support 1, BlockRead.support 2] := by
          intro h
          rcases List.mem_cons.mp h with h | h
          · cases h
          · rcases List.mem_cons.mp h with h | h
            · cases h
            · cases h
        rw [List.mem_append]
        cases h3 : compareSupportData reader1.supportBytes reader2.supportBytes
            reader1.getMetadata.data.getAllSupportSize with
        | false =>
          simp only [Bool.not_false, if_true]
          constructor
          · rintro (h | h)
            · exact absurd h hsup
            · cases h
          · rintro ⟨_, _, _, h, _⟩
            cases h
        | true =>
          simp only [Bool.not_true, Bool.false_eq_true, if_false]
          have h4 : reader1.getMetadata.data.getNumChannels
              = reader2.getMetadata.data.getNumChannels := by rw [h1]
          have h5 : reader1.getMetadata.data.getSignalFormat
              = reader2.getMetadata.data.getSignalFormat := by rw [h1]
          rw [if_neg (not_not.mpr h4), if_pos h5, ← h4, Nat.min_self]
          constructor
          · rintro (h | h)
            · exact absurd h hsup
            · obtain ⟨hf, _, hc, hd⟩ := (mem_compareWidebandReads reader1 reader2 file
                channel _ 0).mp h
              exact ⟨hf, h1, h2, trivial, by omega, hd⟩
          · rintro ⟨hf, _, _, _, hc, hd⟩
            right
            exact (mem_compareWidebandReads reader1 reader2 file channel _ 0).mpr
              ⟨hf, Nat.zero_le _, by omega, hd⟩
      · rw [if_pos h2]
        constructor
        · intro h
          cases h
        · rintro ⟨_, _, h, _⟩
          exact absurd h h2
    · rw [if_pos h1]
      constructor
      · intro h
        cases h
      · rintro ⟨_, h, _⟩
        exact absurd h h1

/-- Witness for C23 amended: a file of one channel against a file of two. -/
theorem checkCPHD_stops_at_metadata_witness :
    (openReaderOver [⟨2, 2⟩] 1).getMetadata ≠ (openReaderOver [⟨2, 2⟩, ⟨1, 1⟩] 1).getMetadata
    ∧ checkCPHD hostSamples (openReaderOver [⟨2, 2⟩] 1)
        (openReaderOver [⟨2, 2⟩, ⟨1, 1⟩] 1) 4 = false
    ∧ checkCPHDReads (openReaderOver [⟨2, 2⟩] 1) (openReaderOver [⟨2, 2⟩, ⟨1, 1⟩] 1) 4 = [] :=
  (checkCPHD_stops_at_metadata hostSamples (openReaderOver [⟨2, 2⟩] 1)
    (openReaderOver [⟨2, 2⟩, ⟨1, 1⟩] 1) 4).1 (by decide)

/-- C24: whenever argument parsing and `checkCPHD` complete without raising,
`main` of `test_compare_cphd` returns 0, both when `checkCPHD` returns true
and when it returns false; and `main` returns 1 exactly when an exception is
raised, by the parsing or by `checkCPHD`, whatever its type. It returns
nothing else. -/
theorem main_returns_zero_whatever_the_match
    (parse : List String → Except nitf.Thrown CompareOptions)
    (check : String → String → Nat → List String → Except nitf.Thrown Bool)
    (argv : List String) :
    (∀ o isMatch, parse argv = .ok o →
        check o.file1 o.file2 o.threads (if o.schema.isEmpty then [] else [o.schema])
          = .ok isMatch →
        main parse check argv = 0)
    ∧ (main parse check argv = 1
        ↔ (∃ t, parse argv = .error t)
          ∨ ∃ o t, parse argv = .ok o
              ∧ check o.file1 o.file2 o.threads (if o.schema.isEmpty then [] else [o.schema])
                  = .error t)
    ∧ (main parse check argv = 0 ∨ main parse check argv = 1) := by
  cases hp : parse argv with
  | error t =>
    have hm : main parse check argv = 1 := by
      unfold main
      rw [hp]
      cases t <;> rfl
    refine ⟨fun o _ h => (by cases h), ?_, Or.inr hm⟩
    exact ⟨fun _ => Or.inl ⟨t, rfl⟩, fun _ => hm⟩
  | ok o =>
    cases hc : check o.file1 o.file2 o.threads (if o.schema.isEmpty then [] else [o.schema]) with
    | error t =>
      have hm : main parse check argv = 1 := by
        unfold main
        rw [hp]
        simp only
        rw [hc]
        cases t <;> rfl
      refine ⟨?_, ?_, Or.inr hm⟩
      · intro o2 b h hb
        cases h
        rw [hc] at hb
        cases hb
      · exact ⟨fun _ => Or.inr ⟨o, t, rfl, hc⟩, fun _ => hm⟩
    | ok b =>
      have hm : main parse check argv = 0 := by
        unfold main
        rw [hp]
        simp only
        rw [hc]
      refine ⟨fun _ _ _ _ => hm, ?_, Or.inl hm⟩
      rw [hm]
      constructor
      · intro h
        cases h
      · rintro (⟨t, h⟩ | ⟨o2, t, h, hb⟩)
        · cases h
        · cases h
          rw [hc] at hb
          cases hb

/-- Witness for C24: files "one" and "same" match, "one" and "two" do not;
`main` returns 0 for both pairs. -/
theorem main_returns_zero_whatever_the_match_witness :
    checkCPHDFiles byteSamples smallOpen "one" "same" 4 ["x"] = .ok true
    ∧ main plainParse (checkCPHDFiles byteSamples smallOpen) ["one", "same", "x"] = 0
    ∧ checkCPHDFiles byteSamples smallOpen "one" "two" 4 ["x"] = .ok false
    ∧ main plainParse (checkCPHDFiles byteSamples smallOpen) ["one", "two", "x"] = 0 :=
  ⟨rfl,
   (main_returns_zero_whatever_the_match plainParse (checkCPHDFiles byteSamples smallOpen)
      ["one", "same", "x"]).1 _ true rfl rfl,
   rfl,
   (main_returns_zero_whatever_the_match plainParse (checkCPHDFiles byteSamples smallOpen)
      ["one", "two", "x"]).1 _ false rfl rfl⟩

/-- C30: `compareCPHDData<T>(data1, data2, size, channel)` returns true if and
only if `data1[ii] == data2[ii]` for every `ii < size`; so it returns true for
`size = 0`, and, for an element type whose `==` holds between every value and
itself (the integer sample types), whenever both arguments are the same
buffer; and `compareSupportData` returns true if and only if the two byte
arrays agree at every index below `size`. -/
theorem compare_functions_true_iff (m : SampleModel) (f : SampleType) (data1 data2 : Nat → Nat)
    (size channel : Nat) :
    (compareCPHDData m f data1 data2 size channel = true
      ↔ ∀ ii, ii < size → m.eq f (m.cast f data1 ii) (m.cast f data2 ii) = true)
    ∧ compareCPHDData m f data1 data2 0 channel = true
    ∧ ((∀ x, m.eq f x x = true) → compareCPHDData m f data1 data1 size channel = true)
    ∧ (compareSupportData data1 data2 size = true
      ↔ ∀ ii, ii < size → data1 ii = data2 ii) := by
  refine ⟨compareCPHDData_eq_true m f data1 data2 size channel, rfl, ?_,
    compareSupportData_eq_true data1 data2 size⟩
  intro hrefl
  rw [compareCPHDData_eq_true]
  intro ii _
  exact hrefl _

/-- Witness for C30: with one-byte elements compared as numbers, a buffer
compares equal to itself over 5 elements. -/
theorem compare_functions_true_iff_witness :
    compareCPHDData byteSamples .RE08I_IM08I (fun i => i) (fun i => i) 5 0 = true :=
  (compare_functions_true_iff byteSamples .RE08I_IM08I (fun i => i) (fun i => i) 5 0).2.2.1
    (fun _ => decide_eq_true rfl)

end cphd

namespace sidd

/-- C25: when `ignoreMetadata` is true, the `ignoreDate` flag has no effect on
`siddsMatch`: for every pair of pathnames and whatever they load (or fail to
load), `siddsMatch(p1, p2, true, true)` and `siddsMatch(p1, p2, true, false)`
give the same result; and so does the comparison of any two loaded
products. -/
theorem siddsMatch_ignoreDate_no_effect (load : String → Except Raised Product)
    (sidd1Path sidd2Path : String) (sidd1 sidd2 : Product) :
    siddsMatch load sidd1Path sidd2Path true true
      = siddsMatch load sidd1Path sidd2Path true false
    ∧ compareProducts sidd1 sidd2 true true = compareProducts sidd1 sidd2 true false := by
  have h : ∀ p1 p2 : Product,
      compareProducts p1 p2 true true = compareProducts p1 p2 true false := by
    intro p1 p2
    unfold compareProducts
    simp only [Bool.not_true, Bool.false_eq_true, if_false]
  refine ⟨?_, h sidd1 sidd2⟩
  unfold siddsMatch
  cases load sidd1Path with
  | error t => rfl
  | ok p1 =>
    cases load sidd2Path with
    | error t => rfl
    | ok p2 =>
      simp only
      rw [h p1 p2]

end sidd

namespace cphd

/-! ## The getters of `SupportArray` -/

theorem getIAZSupportArray_of_ok {A B : Type} (toType : String → Except nitf.Thrown Nat)
    (sa : SupportArray A B) (key : String) (k : Nat) (hk : toType key = .ok k) :
    sa.getIAZSupportArray toType key
      = if sa.iazArray.length ≤ k then .raised (notFound key)
        else match sa.iazArray[k]? with
          | some a => .returned a
          | none => .outOfRange := by
  unfold SupportArray.getIAZSupportArray
  rw [hk]

theorem getAGPSupportArray_of_ok {A B : Type} (toType : String → Except nitf.Thrown Nat)
    (sa : SupportArray A B) (key : String) (k : Nat) (hk : toType key = .ok k) :
    sa.getAGPSupportArray toType key
      = if sa.antGainPhase.length ≤ k then .raised (notFound key)
        else match sa.antGainPhase[k]? with
          | some a => .returned a
          | none => .outOfRange := by
  unfold SupportArray.getAGPSupportArray
  rw [hk]

/-- A guarded index lookup, as both indexed getters perform it: it raises
exactly when the index is not below the length, returns the element
otherwise, and never reads out of range. -/
theorem guarded_lookup {A : Type} (l : List A) (k : Nat) (t : nitf.Thrown) (r : Lookup A)
    (hr : r = if l.length ≤ k then .raised t
              else match l[k]? with
                | some a => .returned a
                | none => .outOfRange) :
    ((∃ t2, r = .raised t2) ↔ l.length ≤ k)
    ∧ (l.length ≤ k → r = .raised t)
    ∧ (∀ h : k < l.length, r = .returned (l.get ⟨k, h⟩))
    ∧ r ≠ .outOfRange := by
  by_cases hle : l.length ≤ k
  · rw [if_pos hle] at hr
    refine ⟨⟨fun _ => hle, fun _ => ⟨t, hr⟩⟩, fun _ => hr, fun h => absurd hle (by omega), ?_⟩
    rw [hr]
    intro h
    cases h
  · rw [if_neg hle] at hr
    have hlt : k < l.length := by omega
    rw [List.getElem?_eq_getElem hlt] at hr
    simp only at hr
    refine ⟨⟨?_, fun h => absurd h hle⟩, fun h => absurd h hle, fun _ => hr, ?_⟩
    · rintro ⟨t2, h2⟩
      rw [hr] at h2
      cases h2
    · rw [hr]
      intro h
      cases h

/-- C26: `getIAZSupportArray(key)` and `getAGPSupportArray(key)` are
bounds-checked index lookups. With `k` the value that `str::toType<size_t>`
parses from `key`, `getIAZSupportArray` raises an exception if and only if
`iazArray.size() <= k`, the exception then carries "SA_ID was not found "
followed by the key, and otherwise the call returns `iazArray[k]`;
`getAGPSupportArray` does the same over `antGainPhase`. Neither call, whatever
the conversion does, reads out of range. -/
theorem indexed_getters_are_bounds_checked {A B : Type}
    (toType : String → Except nitf.Thrown Nat) (sa : SupportArray A B) (key : String) :
    (∀ k, toType key = .ok k →
      (((∃ t, sa.getIAZSupportArray toType key = .raised t) ↔ sa.iazArray.length ≤ k)
        ∧ (sa.iazArray.length ≤ k → sa.getIAZSupportArray toType key
            = .raised (.exceptException ("SA_ID was not found " ++ key)))
        ∧ (∀ h : k < sa.iazArray.length,
            sa.getIAZSupportArray toType key = .returned (sa.iazArray.get ⟨k, h⟩)))
      ∧ (((∃ t, sa.getAGPSupportArray toType key = .raised t) ↔ sa.antGainPhase.length ≤ k)
        ∧ (sa.antGainPhase.length ≤ k → sa.getAGPSupportArray toType key
            = .raised (.exceptException ("SA_ID was not found " ++ key)))
        ∧ (∀ h : k < sa.antGainPhase.length,
            sa.getAGPSupportArray toType key = .returned (sa.antGainPhase.get ⟨k, h⟩))))
    ∧ sa.getIAZSupportArray toType key ≠ .outOfRange
    ∧ sa.getAGPSupportArray toType key ≠ .outOfRange := by
  refine ⟨?_, ?_, ?_⟩
  · intro k hk
    have h1 := guarded_lookup sa.iazArray k (notFound key) _
      (getIAZSupportArray_of_ok toType sa key k hk)
    have h2 := guarded_lookup sa.antGainPhase k (notFound key) _
      (getAGPSupportArray_of_ok toType sa key k hk)
    exact ⟨⟨h1.1, h1.2.1, h1.2.2.1⟩, ⟨h2.1, h2.2.1, h2.2.2.1⟩⟩
  · cases hk : toType key with
    | error t =>
      unfold SupportArray.getIAZSupportArray
      rw [hk]
      intro h
      cases h
    | ok k =>
      exact (guarded_lookup sa.iazArray k (notFound key) _
        (getIAZSupportArray_of_ok toType sa key k hk)).2.2.2
  · cases hk : toType key with
    | error t =>
      unfold SupportArray.getAGPSupportArray
      rw [hk]
      intro h
      cases h
    | ok k =>
      exact (guarded_lookup sa.antGainPhase k (notFound key) _
        (getAGPSupportArray_of_ok toType sa key k hk)).2.2.2

/-- Witness for C26: over two IAZ entries and three AGP entries, key "2"
raises in the first getter and returns the third entry in the second. -/
theorem indexed_getters_are_bounds_checked_witness :
    decimalKey "2" = .ok 2
    ∧ smallSupportArray.getIAZSupportArray decimalKey "2"
        = .raised (.exceptException ("SA_ID was not found " ++ "2"))
    ∧ smallSupportArray.getAGPSupportArray decimalKey "2" = .returned 22 :=
  ⟨rfl,
   ((indexed_getters_are_bounds_checked decimalKey smallSupportArray "2").1 2 rfl).1.2.1
     (by decide),
   ((indexed_getters_are_bounds_checked decimalKey smallSupportArray "2").1 2 rfl).2.2.2
     (by decide)⟩

theorem entries_missing {B : Type} (l : List (String × B)) (key : String)
    (h : key ∉ l.map Prod.fst) :
    l.countP (fun e => e.1 == key) = 0 ∧ l.find? (fun e => e.1 == key) = none := by
  constructor
  · rw [List.countP_eq_zero]
    intro e he hk
    apply h
    have : e.1 = key := by simpa using hk
    exact List.mem_map.2 ⟨e, he, this⟩
  · rw [List.find?_eq_none]
    intro e he hk
    apply h
    have : e.1 = key := by simpa using hk
    exact List.mem_map.2 ⟨e, he, this⟩

theorem entries_present {B : Type} (l : List (String × B)) (key : String) (v : B) :
    (l.map Prod.fst).Nodup → (key, v) ∈ l →
    l.countP (fun e => e.1 == key) = 1 ∧ l.find? (fun e => e.1 == key) = some (key, v) := by
  induction l with
  | nil =>
    intro _ h
    cases h
  | cons e rest ih =>
    intro hn h
    rw [List.map_cons, List.nodup_cons] at hn
    rcases List.mem_cons.1 h with he | hrest
    · subst he
      have hm := entries_missing rest key hn.1
      constructor
      · rw [List.countP_cons, hm.1]
        simp
      · rw [List.find?_cons]
        simp
    · have hne : e.1 ≠ key := by
        intro heq
        apply hn.1
        rw [heq]
        exact List.mem_map.2 ⟨(key, v), hrest, rfl⟩
      have hb : (e.1 == key) = false := by simpa using hne
      have := ih hn.2 hrest
      constructor
      · rw [List.countP_cons, this.1]
        simp [hb]
      · rw [List.find?_cons]
        simp only [hb]
        exact this.2

/-- C27: `getAddedSupportArray(key)` raises an exception if and only if `key`
is not a key of `addedSupportArray` (the exception then carries "SA_ID was not
found " followed by the key), and otherwise returns the value mapped to
`key`. The map holds each key at most once, so `count(key) > 1` never holds:
the call raises exactly when `count(key) == 0`; and `find(key)` is never
dereferenced on a missing key. -/
theorem getAddedSupportArray_raises_iff_key_missing {A B : Type} (sa : SupportArray A B)
    (key : String) :
    ((∃ t, sa.getAddedSupportArray key = .raised t)
        ↔ key ∉ sa.addedSupportArray.entries.map Prod.fst)
    ∧ (key ∉ sa.addedSupportArray.entries.map Prod.fst →
        sa.getAddedSupportArray key
          = .raised (.exceptException ("SA_ID was not found " ++ key)))
    ∧ (∀ v, (key, v) ∈ sa.addedSupportArray.entries →
        sa.getAddedSupportArray key = .returned v)
    ∧ ¬ sa.addedSupportArray.count key > 1
    ∧ ((∃ t, sa.getAddedSupportArray key = .raised t) ↔ sa.addedSupportArray.count key = 0)
    ∧ sa.getAddedSupportArray key ≠ .outOfRange := by
  by_cases hmem : key ∈ sa.addedSupportArray.entries.map Prod.fst
  · obtain ⟨e, he, hkey⟩ := List.mem_map.1 hmem
    obtain ⟨k2, v⟩ := e
    simp only at hkey
    subst hkey
    have hp := entries_present sa.addedSupportArray.entries k2 v sa.addedSupportArray.unique he
    have hc : sa.addedSupportArray.count k2 = 1 := hp.1
    have hr : sa.getAddedSupportArray k2 = .returned v := by
      unfold SupportArray.getAddedSupportArray
      rw [hc, if_neg (by decide)]
      have hf : sa.addedSupportArray.find k2 = some (k2, v) := hp.2
      rw [hf]
    have hv : ∀ w, (k2, w) ∈ sa.addedSupportArray.entries → w = v := by
      intro w hw
      have hq := entries_present sa.addedSupportArray.entries k2 w
        sa.addedSupportArray.unique hw
      have := hq.2.symm.trans hp.2
      simpa using this
    refine ⟨?_, fun h => absurd hmem h, ?_, ?_, ?_, ?_⟩
    · constructor
      · rintro ⟨t, ht⟩
        rw [hr] at ht
        cases ht
      · intro h
        exact absurd hmem h
    · intro w hw
      rw [hv w hw]
      exact hr
    · rw [hc]
      decide
    · rw [hc]
      constructor
      · rintro ⟨t, ht⟩
        rw [hr] at ht
        cases ht
      · intro h
        cases h
    · rw [hr]
      intro h
      cases h
  · have hm := entries_missing sa.addedSupportArray.entries key hmem
    have hc : sa.addedSupportArray.count key = 0 := hm.1
    have hr : sa.getAddedSupportArray key = .raised (notFound key) := by
      unfold SupportArray.getAddedSupportArray
      rw [hc, if_pos (Or.inl rfl)]
    refine ⟨⟨fun _ => hmem, fun _ => ⟨_, hr⟩⟩, fun _ => hr, ?_, ?_, ?_, ?_⟩
    · intro v hv
      exact absurd (List.mem_map.2 ⟨(key, v), hv, rfl⟩) hmem
    · rw [hc]
      decide
    · exact ⟨fun _ => hc, fun _ => ⟨_, hr⟩⟩
    · rw [hr]
      intro h
      cases h

/-- Witness for C27: over the keys "a" and "b", key "b" returns its value and
key "c" raises. -/
theorem getAddedSupportArray_raises_iff_key_missing_witness :
    smallSupportArray.getAddedSupportArray "b" = .returned 31
    ∧ smallSupportArray.getAddedSupportArray "c"
        = .raised (.exceptException ("SA_ID was not found " ++ "c")) :=
  ⟨(getAddedSupportArray_raises_iff_key_missing smallSupportArray "b").2.2.1 31 (by decide),
   (getAddedSupportArray_raises_iff_key_missing smallSupportArray "c").2.1 (by decide)⟩

end cphd

namespace mem

/-! ## The container `VectorOfPointers` -/

theorem push_back_mValues (v : VectorOfPointers) (p : Ptr) :
    (v.push_back p).mValues = v.mValues ++ [p] := by
  unfold VectorOfPointers.push_back VectorOfPointers.push_back_owned resize
  have h1 : List.take (v.mValues.length + 1) v.mValues = v.mValues :=
    List.take_of_length_le (Nat.le_succ _)
  have h2 : v.mValues.length + 1 - v.mValues.length = 1 := by omega
  simp only [h1, h2, List.replicate_one, List.length_append, List.length_singleton,
    Nat.add_sub_cancel]
  rw [List.set_append_right _ _ (Nat.le_refl _), Nat.sub_self]
  rfl

theorem foldl_push_back_mValues (ps : List Ptr) :
    ∀ v : VectorOfPointers,
      (ps.foldl VectorOfPointers.push_back v).mValues = v.mValues ++ ps := by
  induction ps with
  | nil =>
    intro v
    simp
  | cons p rest ih =>
    intro v
    rw [List.foldl_cons, ih, push_back_mValues, List.append_assoc]
    rfl

theorem filterMap_range_index {α : Type} (l : List α) :
    ∀ m, m ≤ l.length → (List.range m).filterMap (fun ii => l[ii]?) = l.take m := by
  intro m
  induction m with
  | zero =>
    intro _
    rfl
  | succ k ih =>
    intro hk
    have hk2 : k < l.length := by omega
    rw [List.range_succ, List.filterMap_append, ih (by omega), List.take_succ,
      List.getElem?_eq_getElem hk2]
    simp [List.filterMap_cons, List.getElem?_eq_getElem hk2]

/-- C28: `push_back` appends. For every container state and pointer `p`,
after `push_back(p)` the value of `size()` has grown by exactly one, `back()`
and `operator[](size() - 1)` equal `p`, and `operator[](i)` is unchanged, and
inside the vector, for every `i` below the old size; `get()` is the old
`get()` followed by `p`, so a container built by pushing a list of pointers
lists them in insertion order; `empty()` holds iff `size()` is 0; and after
`clear()`, which deletes exactly the stored pointers, `size()` is 0. -/
theorem push_back_appends (v : VectorOfPointers) (p : Ptr) (ps : List Ptr) :
    (v.push_back p).size = v.size + 1
    ∧ (v.push_back p).back = some p
    ∧ (v.push_back p).index (((v.push_back p).size : Int) - 1) = some p
    ∧ (∀ i : Nat, i < v.size →
        (v.push_back p).index (i : Int) = v.index (i : Int)
        ∧ (v.index (i : Int)).isSome = true)
    ∧ (v.push_back p).get = v.get ++ [p]
    ∧ (ps.foldl VectorOfPointers.push_back VectorOfPointers.new).get = ps
    ∧ (v.empty = true ↔ v.size = 0)
    ∧ v.clear.2.size = 0
    ∧ v.clear.1 = v.get := by
  have hm := push_back_mValues v p
  have hsize : (v.push_back p).size = v.size + 1 := by
    unfold VectorOfPointers.size
    rw [hm, List.length_append, List.length_singleton]
  refine ⟨hsize, ?_, ?_, ?_, hm, ?_, ?_, rfl, ?_⟩
  · unfold VectorOfPointers.back
    rw [hm]
    simp
  · rw [hsize]
    unfold VectorOfPointers.index
    have h0 : ¬ (((v.size + 1 : Nat) : Int) - 1 < 0) := by omega
    have h1 : (((v.size + 1 : Nat) : Int) - 1).toNat = v.mValues.length := by
      unfold VectorOfPointers.size
      omega
    rw [if_neg h0, h1, hm]
    simp
  · intro i hi
    unfold VectorOfPointers.size at hi
    unfold VectorOfPointers.index
    have h0 : ¬ ((i : Int) < 0) := by omega
    rw [if_neg h0, if_neg h0, hm, Int.toNat_ofNat, List.getElem?_append_left hi]
    exact ⟨rfl, by rw [List.getElem?_eq_getElem hi]; rfl⟩
  · have := foldl_push_back_mValues ps VectorOfPointers.new
    unfold VectorOfPointers.get
    rw [this]
    rfl
  · unfold VectorOfPointers.empty VectorOfPointers.size
    rw [List.isEmpty_iff, List.length_eq_zero]
  · unfold VectorOfPointers.clear VectorOfPointers.get
    simp only
    rw [filterMap_range_index v.mValues _ (Nat.le_refl _), List.take_length]

end mem

namespace six

/-! ## Extracting a rectangle: `subsetData` -/

theorem memcpyElems_spec {T : Type} (output orig : List T) (dst src n : Nat)
    (hs : src + n ≤ orig.length) (hd : dst + n ≤ output.length) :
    ∃ copied, memcpyElems output orig dst src n = some copied
      ∧ copied.length = output.length
      ∧ (∀ i, i < dst → copied[i]? = output[i]?)
      ∧ (∀ c, c < n → copied[dst + c]? = orig[src + c]?) := by
  refine ⟨output.take dst ++ (orig.drop src).take n ++ output.drop (dst + n), ?_, ?_, ?_, ?_⟩
  · unfold memcpyElems
    rw [if_pos ⟨hs, hd⟩]
  · simp only [List.length_append, List.length_take, List.length_drop]
    omega
  · intro i hi
    have h1 : i < (output.take dst).length := by
      rw [List.length_take]
      omega
    rw [List.append_assoc, List.getElem?_append_left h1, List.getElem?_take_of_lt hi]
  · intro c hc
    have h1 : (output.take dst).length = dst := by
      rw [List.length_take]
      omega
    have h2 : c < ((orig.drop src).take n).length := by
      rw [List.length_take, List.length_drop]
      omega
    rw [List.append_assoc, List.getElem?_append_right (by omega), h1, Nat.add_sub_cancel_left,
      List.getElem?_append_left h2, List.getElem?_take_of_lt hc, List.getElem?_drop]

theorem subsetLoop_spec {T : Type} (orig : List T) (origNumCols numCols : Nat) :
    ∀ (remaining origPtr outputPtr : Nat) (output : List T),
      (∀ r, r < remaining → origPtr + r * origNumCols + numCols ≤ orig.length) →
      outputPtr + remaining * numCols = output.length →
      ∃ out, subsetLoop orig origNumCols numCols remaining origPtr outputPtr output = some out
        ∧ out.length = output.length
        ∧ (∀ i, i < outputPtr → out[i]? = output[i]?)
        ∧ (∀ r c, r < remaining → c < numCols →
            out[outputPtr + r * numCols + c]? = orig[origPtr + r * origNumCols + c]?) := by
  intro remaining
  induction remaining with
  | zero =>
    intro origPtr outputPtr output _ _
    exact ⟨output, rfl, rfl, fun _ _ => rfl, fun r c hr _ => absurd hr (Nat.not_lt_zero r)⟩
  | succ n ih =>
    intro origPtr outputPtr output hsrc hdst
    have hs0 : origPtr + numCols ≤ orig.length := by
      have := hsrc 0 (Nat.succ_pos n)
      simpa using this
    have hmul : (n + 1) * numCols = n * numCols + numCols := Nat.succ_mul n numCols
    have hd0 : outputPtr + numCols ≤ output.length := by omega
    obtain ⟨copied, hc, hlen, hkeep, hrow⟩ :=
      memcpyElems_spec output orig outputPtr origPtr numCols hs0 hd0
    have hsrc2 : ∀ r, r < n →
        origPtr + origNumCols + r * origNumCols + numCols ≤ orig.length := by
      intro r hr
      have := hsrc (r + 1) (by omega)
      rw [Nat.succ_mul] at this
      omega
    have hdst2 : outputPtr + numCols + n * numCols = copied.length := by omega
    obtain ⟨out, ho, holen, hokeep, horow⟩ :=
      ih (origPtr + origNumCols) (outputPtr + numCols) copied hsrc2 hdst2
    refine ⟨out, ?_, by omega, ?_, ?_⟩
    · show (match memcpyElems output orig outputPtr origPtr numCols with
        | none => none
        | some copied => subsetLoop orig origNumCols numCols n (origPtr + origNumCols)
            (outputPtr + numCols) copied) = some out
      rw [hc]
      exact ho
    · intro i hi
      rw [hokeep i (by omega), hkeep i hi]
    · intro r c hr hcc
      cases r with
      | zero =>
        have h1 := hokeep (outputPtr + c) (by omega)
        have h2 := hrow c hcc
        simp only [Nat.zero_mul, Nat.add_zero]
        rw [h1, h2]
      | succ r2 =>
        have h1 := horow r2 c (by omega) hcc
        have e1 : outputPtr + (r2 + 1) * numCols + c = outputPtr + numCols + r2 * numCols + c := by
          rw [Nat.succ_mul]
          omega
        have e2 : origPtr + (r2 + 1) * origNumCols + c
            = origPtr + origNumCols + r2 * origNumCols + c := by
          rw [Nat.succ_mul]
          omega
        rw [e1, e2]
        exact h1

/-- C29: `subsetData` extracts the requested rectangle in row-major order. For
every vector `orig` (its size a `size_t`) read as rows of `origNumCols`
elements, every `offset` and `dims` with `dims.area() > 0`,
`offset.col + dims.col <= origNumCols` and
`(offset.row + dims.row) * origNumCols <= orig.size()`, and whatever `output`
held before, the call completes without reading or writing outside a vector,
the output has exactly `dims.row * dims.col` elements, and
`output[r*dims.col + c] = orig[(offset.row + r)*origNumCols + offset.col + c]`,
an index inside `orig`, for all `r < dims.row` and `c < dims.col`. -/
theorem subsetData_extracts_rectangle {T : Type} (zero : T) (orig : List T)
    (origNumCols : Nat) (offset dims : RowCol) (output : List T)
    (hsize : orig.length < 2 ^ 64)
    (harea : 0 < dims.row * dims.col)
    (hcol : offset.col + dims.col ≤ origNumCols)
    (hrow : (offset.row + dims.row) * origNumCols ≤ orig.length) :
    ∃ out, subsetData zero orig origNumCols offset dims output = some out
      ∧ out.length = dims.row * dims.col
      ∧ ∀ r c, r < dims.row → c < dims.col →
          (offset.row + r) * origNumCols + offset.col + c < orig.length
          ∧ out[r * dims.col + c]? = orig[(offset.row + r) * origNumCols + offset.col + c]? := by
  have hr1 : 1 ≤ dims.row := Nat.pos_of_ne_zero (fun h => by rw [h, Nat.zero_mul] at harea; omega)
  have hc1 : 1 ≤ dims.col := Nat.pos_of_ne_zero (fun h => by rw [h, Nat.mul_zero] at harea; omega)
  have hin : ∀ r, r < dims.row → (offset.row + r) * origNumCols + origNumCols ≤ orig.length := by
    intro r hr
    have h1 : (offset.row + r + 1) * origNumCols ≤ (offset.row + dims.row) * origNumCols :=
      Nat.mul_le_mul_right _ (by omega)
    rw [Nat.succ_mul] at h1
    omega
  have hoff : offset.row * origNumCols ≤ orig.length := by
    have h1 : offset.row * origNumCols ≤ (offset.row + dims.row) * origNumCols :=
      Nat.mul_le_mul_right _ (by omega)
    omega
  have hwrap : offset.row * origNumCols % 2 ^ 64 = offset.row * origNumCols :=
    Nat.mod_eq_of_lt (by omega)
  have hle : dims.row * dims.col ≤ orig.length := by
    have h1 : dims.row * dims.col ≤ dims.row * origNumCols := Nat.mul_le_mul_left _ (by omega)
    have h2 : dims.row * origNumCols ≤ (offset.row + dims.row) * origNumCols :=
      Nat.mul_le_mul_right _ (by omega)
    omega
  have harea2 : dims.area = dims.row * dims.col := Nat.mod_eq_of_lt (by omega)
  have hres : (vectorResize zero output dims.area).length = dims.row * dims.col := by
    unfold vectorResize
    rw [harea2, List.length_append, List.length_take, List.length_replicate]
    omega
  obtain ⟨out, ho, holen, _, horow⟩ :=
    subsetLoop_spec orig origNumCols dims.col dims.row
      (offset.row * origNumCols + offset.col) 0 (vectorResize zero output dims.area)
      (by
        intro r hr
        have := hin r hr
        rw [Nat.add_mul] at this
        omega)
      (by rw [hres]; omega)
  refine ⟨out, ?_, by omega, ?_⟩
  · unfold subsetData
    simp only
    rw [if_neg (by omega), if_neg (by omega), hwrap]
    exact ho
  · intro r c hr hc
    have h1 := horow r c hr hc
    have h2 := hin r hr
    rw [Nat.add_mul] at h2 ⊢
    have e1 : 0 + r * dims.col + c = r * dims.col + c := by omega
    have e2 : offset.row * origNumCols + offset.col + r * origNumCols + c
        = offset.row * origNumCols + r * origNumCols + offset.col + c := by omega
    rw [e1, e2] at h1
    exact ⟨by omega, h1⟩

/-- Witness for C29: rows 1..2 and columns 1..2 of the 3 by 4 image. -/
theorem subsetData_extracts_rectangle_witness :
    subsetData 0 smallImage 4 ⟨1, 1⟩ ⟨2, 2⟩ [99] = some [5, 6, 9, 10]
    ∧ ∃ out, subsetData 0 smallImage 4 ⟨1, 1⟩ ⟨2, 2⟩ [99] = some out
      ∧ out.length = 2 * 2
      ∧ ∀ r c, r < 2 → c < 2 →
          (1 + r) * 4 + 1 + c < smallImage.length
          ∧ out[r * 2 + c]? = smallImage[(1 + r) * 4 + 1 + c]? :=
  ⟨rfl, subsetData_extracts_rectangle 0 smallImage 4 ⟨1, 1⟩ ⟨2, 2⟩ [99]
    (by decide) (by decide) (by decide) (by decide)⟩

end six

namespace six

/-! ## The planner is greedy -/

theorem planFrom_at_end (totalRows bytesPerRow r : Nat) :
    ∀ fuel index offset, planFrom totalRows bytesPerRow r fuel totalRows index offset = [] := by
  intro fuel index offset
  cases fuel with
  | zero => rfl
  | succ n =>
    unfold planFrom
    rw [if_neg (Nat.lt_irrefl _)]

/-- The closed form of the greedy loop: segment `i` starts `i * r` rows after
`start`, lies before `totalRows`, ends `r` rows later or at `totalRows`, and
its byte size is its row count times `bytesPerRow`; the number of segments is
the number of rows left over `r`, rounded up. -/
theorem planFrom_closed_form (totalRows bytesPerRow r : Nat) (hr : 0 < r) :
    ∀ fuel start index offset, start ≤ totalRows → totalRows - start ≤ fuel →
      (planFrom totalRows bytesPerRow r fuel start index offset).length
          = (totalRows - start + r - 1) / r
      ∧ ∀ i s, (planFrom totalRows bytesPerRow r fuel start index offset)[i]? = some s →
          s.startRow = start + i * r ∧ s.startRow < totalRows
          ∧ s.endRow = min (start + i * r + r) totalRows
          ∧ s.byteSize = (s.endRow - s.startRow) * bytesPerRow := by
  intro fuel
  induction fuel with
  | zero =>
    intro start index offset h1 h2
    have he : totalRows - start + r - 1 = r - 1 := by omega
    refine ⟨?_, ?_⟩
    · rw [he, Nat.div_eq_of_lt (by omega)]
      rfl
    · intro i s hs
      cases hs
  | succ fuel ih =>
    intro start index offset h1 h2
    by_cases hlt : start < totalRows
    · unfold planFrom
      rw [if_pos hlt]
      simp only
      by_cases hfull : r ≤ totalRows - start
      · have hn : min r (totalRows - start) = r := Nat.min_eq_left hfull
        rw [hn]
        obtain ⟨ihl, ihe⟩ := ih (start + r) (index + 1) (offset + r * bytesPerRow)
          (by omega) (by omega)
        refine ⟨?_, ?_⟩
        · rw [List.length_cons, ihl]
          have he : totalRows - start + r - 1 = (totalRows - (start + r) + r - 1) + r := by
            omega
          rw [he, Nat.add_div_right _ hr]
        · intro i s hs
          cases i with
          | zero =>
            rw [List.getElem?_cons_zero] at hs
            injection hs with hs
            subst hs
            show start = start + 0 * r ∧ start < totalRows
              ∧ start + r = min (start + 0 * r + r) totalRows
              ∧ r * bytesPerRow = (start + r - start) * bytesPerRow
            rw [Nat.zero_mul, Nat.add_zero, Nat.add_sub_cancel_left,
              Nat.min_eq_left (by omega)]
            exact ⟨rfl, hlt, rfl, rfl⟩
          | succ j =>
            rw [List.getElem?_cons_succ] at hs
            obtain ⟨a, b, c, d⟩ := ihe j s hs
            rw [Nat.succ_mul]
            refine ⟨by omega, b, ?_, d⟩
            rw [c]
            congr 1
            omega
      · have hn : min r (totalRows - start) = totalRows - start := Nat.min_eq_right (by omega)
        rw [hn]
        have hend : start + (totalRows - start) = totalRows := by omega
        rw [hend, planFrom_at_end]
        refine ⟨?_, ?_⟩
        · rw [List.length_singleton]
          symm
          apply Nat.div_eq_of_lt_le
          · omega
          · omega
        · intro i s hs
          cases i with
          | zero =>
            rw [List.getElem?_cons_zero] at hs
            injection hs with hs
            subst hs
            show start = start + 0 * r ∧ start < totalRows
              ∧ totalRows = min (start + 0 * r + r) totalRows
              ∧ (totalRows - start) * bytesPerRow = (totalRows - start) * bytesPerRow
            rw [Nat.zero_mul, Nat.add_zero, Nat.min_eq_right (by omega)]
            exact ⟨rfl, hlt, rfl, rfl⟩
          | succ j =>
            rw [List.getElem?_cons_succ] at hs
            cases hs
    · have he : start = totalRows := by omega
      subst he
      rw [planFrom_at_end]
      have he : start - start + r - 1 = r - 1 := by omega
      refine ⟨?_, ?_⟩
      · rw [he, Nat.div_eq_of_lt (by omega)]
        rfl
      · intro i s hs
        cases hs

theorem rowsPerSegment_cast (bytesPerRow : Nat) (maxBytesPerSegment maxRowsPerSegment : Int)
    (h1 : 0 < maxBytesPerSegment) (h2 : 0 < maxRowsPerSegment) :
    ((rowsPerSegment bytesPerRow maxBytesPerSegment maxRowsPerSegment : Nat) : Int)
      = min maxRowsPerSegment (maxBytesPerSegment / (bytesPerRow : Int)) := by
  unfold rowsPerSegment
  rw [Nat.cast_min, Int.natCast_div, Int.toNat_of_nonneg (by omega),
    Int.toNat_of_nonneg (by omega)]

/-- C21: `plan` is greedy and respects both ceilings. On every input on which
`plan` succeeds there is the row count
`r = min(maxRowsPerSegment, floor(maxBytesPerSegment / bytesPerRow))`, at
least 1, such that every segment except the last has exactly `r` rows; the
last has `totalRows - r * (segmentCount - 1)` rows, a count between 1 and `r`;
every segment has at most `maxRowsPerSegment` rows and its byte size, its row
count times `bytesPerRow`, is at most `maxBytesPerSegment`; and the plan has
`ceil(totalRows / r)` segments: the least count `k` with `totalRows <= k * r`. -/
theorem plan_is_greedy (totalRows totalCols bytesPerRow : Nat)
    (maxBytesPerSegment maxRowsPerSegment : Int) (segs : List Segment)
    (h : plan totalRows totalCols bytesPerRow maxBytesPerSegment maxRowsPerSegment
          = .ok segs) :
    ∃ r : Nat,
      (r : Int) = min maxRowsPerSegment (maxBytesPerSegment / (bytesPerRow : Int))
      ∧ 0 < r
      ∧ (∀ i s, segs[i]? = some s → i + 1 < segs.length → s.endRow - s.startRow = r)
      ∧ (∀ s, segs.getLast? = some s →
          r * (segs.length - 1) < totalRows
          ∧ s.endRow - s.startRow = totalRows - r * (segs.length - 1)
          ∧ 1 ≤ s.endRow - s.startRow ∧ s.endRow - s.startRow ≤ r)
      ∧ (∀ s ∈ segs,
          ((s.endRow - s.startRow : Nat) : Int) ≤ maxRowsPerSegment
          ∧ s.byteSize = (s.endRow - s.startRow) * bytesPerRow
          ∧ (s.byteSize : Int) ≤ maxBytesPerSegment)
      ∧ segs.length = (totalRows + r - 1) / r
      ∧ totalRows ≤ segs.length * r
      ∧ (∀ k, totalRows ≤ k * r → segs.length ≤ k) := by
  rw [plan_eq_ok_iff] at h
  obtain ⟨he, hs⟩ := h
  rw [planErrors_nil_iff] at he
  obtain ⟨h1, h2, h3, h4, h5, h6⟩ := he
  have hr := rowsPerSegment_pos bytesPerRow maxBytesPerSegment maxRowsPerSegment h1 h4 h6
  have hcast := rowsPerSegment_cast bytesPerRow maxBytesPerSegment maxRowsPerSegment h5 h6
  obtain ⟨hlen, helt⟩ := planFrom_closed_form totalRows bytesPerRow
    (rowsPerSegment bytesPerRow maxBytesPerSegment maxRowsPerSegment) hr totalRows 0 0 0
    (Nat.zero_le _) (by omega)
  rw [← hs] at hlen helt
  generalize rowsPerSegment bytesPerRow maxBytesPerSegment maxRowsPerSegment = r
    at hr hcast hlen helt
  rw [Nat.sub_zero] at hlen
  -- the ceiling, as two inequalities
  have hdm := Nat.div_add_mod (totalRows + r - 1) r
  have hml := Nat.mod_lt (totalRows + r - 1) hr
  rw [← hlen] at hdm
  have hpos : 0 < segs.length := by
    rcases Nat.eq_zero_or_pos segs.length with h0 | h0
    · rw [h0, Nat.mul_zero] at hdm
      omega
    · exact h0
  obtain ⟨n, hn⟩ : ∃ n, segs.length = n + 1 := ⟨segs.length - 1, by omega⟩
  have hmul : r * segs.length = r * n + r := by rw [hn, Nat.mul_succ]
  have hn1 : segs.length - 1 = n := by omega
  have hlow : r * n < totalRows := by omega
  have hhigh : totalRows ≤ r * n + r := by omega
  have hrows : ∀ i s, segs[i]? = some s →
      s.startRow = i * r ∧ s.startRow < totalRows ∧ s.endRow = min (i * r + r) totalRows := by
    intro i s hi
    obtain ⟨a, b, c, _⟩ := helt i s hi
    rw [Nat.zero_add] at a c
    exact ⟨a, b, c⟩
  have hle : ∀ s ∈ segs, s.endRow - s.startRow ≤ r := by
    intro s hmem
    obtain ⟨i, hi⟩ := List.mem_iff_getElem?.1 hmem
    obtain ⟨a, _, c⟩ := hrows i s hi
    rw [a, c]
    omega
  have hbytes : r * bytesPerRow ≤ maxBytesPerSegment.toNat := by
    have hb : (r : Int) ≤ maxBytesPerSegment / (bytesPerRow : Int) := by
      rw [hcast]
      exact min_le_right _ _
    have hb2 : r ≤ maxBytesPerSegment.toNat / bytesPerRow := by
      have : ((maxBytesPerSegment.toNat / bytesPerRow : Nat) : Int)
          = maxBytesPerSegment / (bytesPerRow : Int) := by
        rw [Int.natCast_div, Int.toNat_of_nonneg (by omega)]
      omega
    exact (Nat.le_div_iff_mul_le h4).1 hb2
  refine ⟨r, hcast, hr, ?_, ?_, ?_, hlen, ?_, ?_⟩
  · intro i s hi hnext
    obtain ⟨a, _, c⟩ := hrows i s hi
    obtain ⟨t, ht⟩ : ∃ t, segs[i + 1]? = some t :=
      ⟨segs[i + 1], List.getElem?_eq_getElem hnext⟩
    obtain ⟨a2, b2, _⟩ := hrows (i + 1) t ht
    rw [Nat.succ_mul] at a2
    rw [a, c]
    omega
  · intro s hlast
    rw [List.getLast?_eq_getElem?, hn1] at hlast
    obtain ⟨a, b, c⟩ := hrows n s hlast
    rw [hn1, a, c, Nat.mul_comm n r]
    omega
  · intro s hmem
    have hl := hle s hmem
    obtain ⟨i, hi⟩ := List.mem_iff_getElem?.1 hmem
    obtain ⟨_, _, _, d⟩ := helt i s hi
    have hm : (s.endRow - s.startRow) * bytesPerRow ≤ r * bytesPerRow :=
      Nat.mul_le_mul_right _ hl
    have hmr : (r : Int) ≤ maxRowsPerSegment := by
      rw [hcast]
      exact min_le_left _ _
    refine ⟨by omega, d, ?_⟩
    rw [d]
    omega
  · rw [Nat.mul_comm, hmul]
    exact hhigh
  · intro k hk
    by_contra hcon
    have hkn : k ≤ n := by omega
    have : k * r ≤ n * r := Nat.mul_le_mul_right _ hkn
    rw [Nat.mul_comm n r] at this
    omega

/-- Witness for C21: 10 rows of 8 bytes under 100 bytes and 4 rows per segment
give segments of 4, 4 and 2 rows. -/
theorem plan_is_greedy_witness :
    (plan 10 2 8 100 4).map rowRanges = .ok [(0, 4), (4, 8), (8, 10)]
    ∧ ∃ r : Nat,
      (r : Int) = min (4 : Int) ((100 : Int) / ((8 : Nat) : Int))
      ∧ 0 < r
      ∧ (∀ i s, (planFrom 10 8 (rowsPerSegment 8 100 4) 10 0 0 0)[i]? = some s →
          i + 1 < (planFrom 10 8 (rowsPerSegment 8 100 4) 10 0 0 0).length →
          s.endRow - s.startRow = r)
      ∧ (∀ s, (planFrom 10 8 (rowsPerSegment 8 100 4) 10 0 0 0).getLast? = some s →
          r * ((planFrom 10 8 (rowsPerSegment 8 100 4) 10 0 0 0).length - 1) < 10
          ∧ s.endRow - s.startRow
              = 10 - r * ((planFrom 10 8 (rowsPerSegment 8 100 4) 10 0 0 0).length - 1)
          ∧ 1 ≤ s.endRow - s.startRow ∧ s.endRow - s.startRow ≤ r)
      ∧ (∀ s ∈ planFrom 10 8 (rowsPerSegment 8 100 4) 10 0 0 0,
          ((s.endRow - s.startRow : Nat) : Int) ≤ 4
          ∧ s.byteSize = (s.endRow - s.startRow) * 8
          ∧ (s.byteSize : Int) ≤ 100)
      ∧ (planFrom 10 8 (rowsPerSegment 8 100 4) 10 0 0 0).length = (10 + r - 1) / r
      ∧ 10 ≤ (planFrom 10 8 (rowsPerSegment 8 100 4) 10 0 0 0).length * r
      ∧ (∀ k, 10 ≤ k * r →
          (planFrom 10 8 (rowsPerSegment 8 100 4) 10 0 0 0).length ≤ k) :=
  ⟨rfl, plan_is_greedy 10 2 8 100 4 _ rfl⟩

end six

namespace cphd

/-! ## The thread partition is near-equal -/

/-- The closed form of the partition loop: it gives `m` sub-ranges, and the one
at position `j` has `q` vectors, and one more while its index `i + j` is below
`extra`, and starts after all the earlier ones. -/
theorem partitionFrom_closed_form (q extra : Nat) :
    ∀ m i start,
      (partitionFrom q extra m i start).length = m
      ∧ ∀ j p, (partitionFrom q extra m i start)[j]? = some p →
          j < m
          ∧ p.1 = start + j * q + (min (i + j) extra - min i extra)
          ∧ p.2 = q + (if i + j < extra then 1 else 0) := by
  intro m
  induction m with
  | zero =>
    intro i start
    refine ⟨rfl, ?_⟩
    intro j p hp
    cases hp
  | succ m ih =>
    intro i start
    obtain ⟨ihl, ihe⟩ := ih (i + 1) (start + (q + (if i < extra then 1 else 0)))
    unfold partitionFrom
    refine ⟨?_, ?_⟩
    · rw [List.length_cons, ihl]
    · intro j p hp
      cases j with
      | zero =>
        rw [List.getElem?_cons_zero] at hp
        injection hp with hp
        subst hp
        refine ⟨Nat.succ_pos m, ?_, rfl⟩
        show start = start + 0 * q + (min (i + 0) extra - min i extra)
        rw [Nat.zero_mul, Nat.add_zero, Nat.add_zero, Nat.sub_self]
        rfl
      | succ j2 =>
        rw [List.getElem?_cons_succ] at hp
        obtain ⟨a, b, c⟩ := ihe j2 p hp
        have hmul : (j2 + 1) * q = j2 * q + q := Nat.succ_mul j2 q
        have hidx : i + 1 + j2 = i + (j2 + 1) := by omega
        rw [hidx] at b c
        refine ⟨by omega, ?_, c⟩
        rw [b, hmul]
        by_cases hi : i < extra
        · rw [if_pos hi]
          omega
        · rw [if_neg hi]
          omega

/-- C22: the thread partition of a wideband read is a near-equal contiguous
partition. For every range of `n >= 1` vectors and every `numThreads >= 1`,
with positions counted from the first vector of the range, the range is split
into `k = min(numThreads, n)` sub-ranges; the first starts at 0, each starts
where the one before ends, the last ends at `n`; they are in increasing order
and pairwise disjoint, and a vector is in the range exactly when it is in one
of them; each has at least one vector; two sizes differ by at most one; and
the sub-range at position `j` has `n / k` vectors, and one more exactly when
`j < n mod k`: the `n mod k` larger ones are the first ones. -/
theorem partitionVectors_near_equal (n numThreads : Nat) (hn : 1 ≤ n) (ht : 1 ≤ numThreads) :
    (partitionVectors n numThreads).length = min numThreads n
    ∧ (partitionVectors n numThreads).head?.map Prod.fst = some 0
    ∧ (∀ j p p2, (partitionVectors n numThreads)[j]? = some p →
        (partitionVectors n numThreads)[j + 1]? = some p2 → p.1 + p.2 = p2.1)
    ∧ (partitionVectors n numThreads).getLast?.map (fun p => p.1 + p.2) = some n
    ∧ (partitionVectors n numThreads).Pairwise (fun p p2 => p.1 + p.2 ≤ p2.1)
    ∧ (∀ v, v < n ↔ ∃ p ∈ partitionVectors n numThreads, p.1 ≤ v ∧ v < p.1 + p.2)
    ∧ (∀ p ∈ partitionVectors n numThreads, 1 ≤ p.2)
    ∧ (∀ p ∈ partitionVectors n numThreads, ∀ p2 ∈ partitionVectors n numThreads,
        p.2 ≤ p2.2 + 1)
    ∧ (∀ j p, (partitionVectors n numThreads)[j]? = some p →
        p.2 = n / min numThreads n + (if j < n % min numThreads n then 1 else 0)) := by
  have hk : 0 < min numThreads n := by
    rw [Nat.lt_min]
    exact ⟨ht, hn⟩
  have hkn : min numThreads n ≤ n := Nat.min_le_right _ _
  have hq : 1 ≤ n / min numThreads n := Nat.div_pos hkn hk
  have he : n % min numThreads n < min numThreads n := Nat.mod_lt _ hk
  have hdm : min numThreads n * (n / min numThreads n) + n % min numThreads n = n :=
    Nat.div_add_mod n _
  obtain ⟨hlen, helt0⟩ := partitionFrom_closed_form (n / min numThreads n)
    (n % min numThreads n) (min numThreads n) 0 0
  have hcov := partitionVectors_cover n numThreads ht
  have hdef : partitionVectors n numThreads
      = partitionFrom (n / min numThreads n) (n % min numThreads n) (min numThreads n) 0 0 :=
    rfl
  rw [← hdef] at hlen helt0
  generalize partitionVectors n numThreads = parts at hlen helt0 hcov ⊢
  generalize n / min numThreads n = q at hq hdm helt0 ⊢
  generalize n % min numThreads n = e at he hdm helt0 ⊢
  generalize min numThreads n = k at hk hkn he hdm hlen helt0 ⊢
  have helt : ∀ j p, parts[j]? = some p →
      j < k ∧ p.1 = j * q + min j e ∧ p.2 = q + (if j < e then 1 else 0) := by
    intro j p hp
    obtain ⟨a, b, c⟩ := helt0 j p hp
    rw [Nat.zero_add] at c
    refine ⟨a, ?_, c⟩
    rw [b]
    simp
  have hnext : ∀ j p, parts[j]? = some p → p.1 + p.2 = (j + 1) * q + min (j + 1) e := by
    intro j p hp
    obtain ⟨_, b, c⟩ := helt j p hp
    rw [b, c, Nat.succ_mul]
    by_cases hj : j < e
    · rw [if_pos hj]
      omega
    · rw [if_neg hj]
      omega
  have hsize : ∀ p ∈ parts, q ≤ p.2 ∧ p.2 ≤ q + 1 := by
    intro p hmem
    obtain ⟨j, hj⟩ := List.mem_iff_getElem?.1 hmem
    obtain ⟨_, _, c⟩ := helt j p hj
    rw [c]
    by_cases hje : j < e
    · rw [if_pos hje]
      omega
    · rw [if_neg hje]
      omega
  refine ⟨hlen, ?_, ?_, ?_, ?_, ?_, ?_, ?_, ?_⟩
  · have h0 : 0 < parts.length := by omega
    cases parts with
    | nil => cases h0
    | cons p rest =>
      obtain ⟨_, b, _⟩ := helt 0 p List.getElem?_cons_zero
      show some p.1 = some 0
      rw [b]
      simp
  · intro j p p2 hp hp2
    obtain ⟨_, b, _⟩ := helt (j + 1) p2 hp2
    rw [hnext j p hp, b]
  · rw [List.getLast?_eq_getElem?, hlen]
    have hlt : k - 1 < parts.length := by omega
    rw [List.getElem?_eq_getElem hlt]
    have := hnext (k - 1) _ (List.getElem?_eq_getElem hlt)
    show some (parts[k - 1].1 + parts[k - 1].2) = some n
    rw [this]
    have hk1 : k - 1 + 1 = k := by omega
    rw [hk1, Nat.min_eq_right (by omega), hdm]
  · rw [List.pairwise_iff_getElem]
    intro i j hi hj hij
    have h1 := hnext i _ (List.getElem?_eq_getElem hi)
    obtain ⟨_, b, _⟩ := helt j _ (List.getElem?_eq_getElem hj)
    rw [h1, b]
    have hm : (i + 1) * q ≤ j * q := Nat.mul_le_mul_right _ hij
    omega
  · intro v
    constructor
    · exact hcov.2 v
    · rintro ⟨p, hp, _, h2⟩
      have := hcov.1 p hp
      omega
  · intro p hp
    have := hsize p hp
    omega
  · intro p hp p2 hp2
    have h1 := hsize p hp
    have h2 := hsize p2 hp2
    omega
  · intro j p hp
    exact (helt j p hp).2.2

/-- Witness for C22: 10 vectors on 4 threads are split into sub-ranges of 3, 3,
2 and 2 vectors. -/
theorem partitionVectors_near_equal_witness :
    partitionVectors 10 4 = [(0, 3), (3, 3), (6, 2), (8, 2)]
    ∧ (partitionVectors 10 4).length = min 4 10
    ∧ (∀ j p, (partitionVectors 10 4)[j]? = some p →
        p.2 = 10 / min 4 10 + (if j < 10 % min 4 10 then 1 else 0)) :=
  ⟨rfl, (partitionVectors_near_equal 10 4 (by decide) (by decide)).1,
   (partitionVectors_near_equal 10 4 (by decide) (by decide)).2.2.2.2.2.2.2.2⟩

end cphd
